import Mathlib

/-!
The tradeogre exchange connector: metadata parsers, bootstrap and refresh
chain, and order-book frame handler

Shallow embedding of `src/tradeorges.cpp`.

* A response body enters the parsers as the outcome of rapidjson's
  `Document::Parse` (`Document`): the text-to-DOM step is library code.
* A C++ call either returns, throws `std::runtime_error`, or runs into a
  violated library precondition (a rapidjson assertion, or a `std::vector`
  read past its end); the last two are the two constructors of `Failure`.
* Member functions that mutate the exchange take the exchange state and return
  it next to their outcome, so that a state change made before a throw would
  be visible.
* `currency::FromStr`, `Number::FromDouble`, `Number::FromStr` and
  `NUMBER_DECIMALS` are declared outside `src/`; they are the fields of `Env`.
* The bootstrap and the refresh cycle take what the four stages report as a
  parameter (`StageReports`) and return their outcome next to the trace of
  what they did; what they throw is kept as its text.
-/

set_option autoImplicit false

namespace tradeogre

/-! ## Outcomes -/

/-- How a call can end without returning: a thrown `std::runtime_error`
(only the fixed part of the message is kept) or a violated precondition of a
library call (undefined behaviour in C++). -/
inductive Failure where
  | runtime_error (what : String)
  | undefined (what : String)
  deriving DecidableEq

/-! ## rapidjson values -/

/-- A rapidjson `Value`. `int` is a number stored with an integer flag,
`real` a number stored as a double (finite, hence a rational); an object
keeps its members in document order. -/
inductive Value where
  | null
  | boolean (b : Bool)
  | int (i : Int)
  | real (d : ℚ)
  | string (s : String)
  | array (elements : List Value)
  | object (members : List (String × Value))

/-- Outcome of `Document::Parse` on a response body. -/
inductive Document where
  | ParseError
  | Parsed (root : Value)

/-- The characters of a `const char*` read up to the first NUL. -/
def c_str (s : String) : String :=
  String.mk (s.data.takeWhile (fun c => c ≠ Char.ofNat 0))

namespace Value

def IsBool : Value → Bool
  | boolean _ => true
  | _ => false

def IsString : Value → Bool
  | string _ => true
  | _ => false

def IsArray : Value → Bool
  | array _ => true
  | _ => false

def IsNumber : Value → Bool
  | int _ => true
  | real _ => true
  | _ => false

def GetBool : Value → Except Failure Bool
  | boolean b => pure b
  | _ => throw (.undefined "GetBool: IsBool()")

/-- The call `GetString()` as the code uses it: the result is read as a
`const char*`. -/
def GetString : Value → Except Failure String
  | string s => pure (c_str s)
  | _ => throw (.undefined "GetString: IsString()")

def GetArray : Value → Except Failure (List Value)
  | array xs => pure xs
  | _ => throw (.undefined "GetArray: IsArray()")

/-- The call `GetDouble()`: defined on every number; an integer is converted. -/
def GetDouble : Value → Except Failure ℚ
  | int i => pure (i : ℚ)
  | real d => pure d
  | _ => throw (.undefined "GetDouble: IsNumber()")

/-- The call `GetInt64()`: defined on numbers that carry the int64 flag. -/
def GetInt64 : Value → Except Failure Int
  | int i =>
    if -(2 : Int) ^ 63 ≤ i ∧ i < (2 : Int) ^ 63 then pure i
    else throw (.undefined "GetInt64: IsInt64()")
  | _ => throw (.undefined "GetInt64: IsInt64()")

/-- First member of that name, `FindMember` on a member list. -/
def FindMember : List (String × Value) → String → Option Value
  | [], _ => none
  | (k, v) :: rest, name => if k = name then some v else FindMember rest name

def HasMember : Value → String → Except Failure Bool
  | object ms, name => pure (FindMember ms name).isSome
  | _, _ => throw (.undefined "HasMember: IsObject()")

/-- The subscript `value["name"]`. -/
def member : Value → String → Except Failure Value
  | object ms, name =>
    match FindMember ms name with
    | some v => pure v
    | none => throw (.undefined "operator[]: member not found")
  | _, _ => throw (.undefined "operator[]: IsObject()")

end Value

/-! ## boost string algorithms -/

/-- Pieces of a character sequence cut at every `sep` (token compression off):
`n` separators give `n + 1` pieces. -/
def splitChars (sep : Char) : List Char → List (List Char)
  | [] => [[]]
  | c :: cs =>
    if c = sep then [] :: splitChars sep cs
    else
      match splitChars sep cs with
      | [] => [[c]]
      | p :: ps => (c :: p) :: ps

/-- The call `split(parts, s, is_any_of("/"))`. -/
def split (s : String) : List String :=
  (splitChars '/' s.data).map String.mk

/-- The `std::isspace` set of the classic locale. -/
def is_space (c : Char) : Bool :=
  c = ' ' || c = Char.ofNat 9 || c = Char.ofNat 10 || c = Char.ofNat 11 ||
    c = Char.ofNat 12 || c = Char.ofNat 13

/-- The call `trim(s)`: drops leading and trailing white space. -/
def trim (s : String) : String :=
  String.mk ((s.data.dropWhile is_space).reverse.dropWhile is_space).reverse

/-- Element `i` of a `std::vector<std::string>`; reading past the end is
undefined. -/
def vectorAt (parts : List String) (i : Nat) : Except Failure String :=
  match parts.get? i with
  | some p => pure p
  | none => throw (.undefined "vector::operator[]: index out of range")

/-! ## Decimal and currency primitives -/

/-- Modelled from the spec: the fixed-scale decimal `Number` ("arbitrary-precision
decimal ... with a system-wide fixed scale `D`"), held as the integer the
constructor `Number(n)` is given. The class is declared outside `src/`. -/
structure Number where
  raw : Int
  deriving DecidableEq

/-- Modelled from the spec: `Number::POW_10`, the "precomputed table of powers of
ten up to `D`". The table is declared outside `src/`. -/
def POW_10 (k : Nat) : Int := 10 ^ k

/-- The functions and the constant of the platform that the connector calls and
that are declared outside `src/`. -/
structure Env (CurrencySymbol : Type) where
  /-- The lookup `currency::FromStr`. -/
  currency_FromStr : String → Option CurrencySymbol
  /-- The conversion `Number::FromDouble`. -/
  Number_FromDouble : ℚ → Option Number
  /-- The conversion `Number::FromStr`. -/
  Number_FromStr : String → Option Number
  /-- The scale `D`. -/
  NUMBER_DECIMALS : Nat

/-- An amount in an asset: `Currency(number, symbol)`. -/
structure Currency (CurrencySymbol : Type) where
  number : Number
  symbol : CurrencySymbol
  deriving DecidableEq

/-- A fee record as the three-argument constructor `Fee(a, b, c)` builds it. -/
structure Fee (CurrencySymbol : Type) where
  fixed : Currency CurrencySymbol
  rate : Currency CurrencySymbol
  minimum : Currency CurrencySymbol
  deriving DecidableEq

/-! ## std::map and std::set -/

/-- A `std::map`, as the list of its entries; `Map.find` and `Map.insert` are
the only accesses the connector makes. -/
abbrev Map (K V : Type) := List (K × V)

/-- The lookup `m.find(k)`, `none` for `m.end()`. -/
def Map.find {K V : Type} [DecidableEq K] : Map K V → K → Option V
  | [], _ => none
  | (k, v) :: rest, key => if k = key then some v else Map.find rest key

/-- The call `m.insert(make_pair(k, v))`: an existing entry is kept. -/
def Map.insert {K V : Type} [DecidableEq K] (m : Map K V) (k : K) (v : V) : Map K V :=
  match Map.find m k with
  | some _ => m
  | none => m ++ [(k, v)]

/-- A `std::set`, as the list of its elements. -/
abbrev CurrenciesSet (CurrencySymbol : Type) := List CurrencySymbol

/-- The call `s.insert(x)`. -/
def CurrenciesSet.insert {CurrencySymbol : Type} [DecidableEq CurrencySymbol]
    (s : CurrenciesSet CurrencySymbol) (x : CurrencySymbol) : CurrenciesSet CurrencySymbol :=
  if x ∈ s then s else s ++ [x]

abbrev WithdrawFeesMap (CurrencySymbol : Type) := Map CurrencySymbol (Fee CurrencySymbol)
abbrev DepositFeesMap (CurrencySymbol : Type) := Map CurrencySymbol (Fee CurrencySymbol)
abbrev PricePrecisionsMap (CurrencySymbol : Type) :=
  Map (CurrencySymbol × CurrencySymbol) (Currency CurrencySymbol)
abbrev ExchangeFeesMap (CurrencySymbol : Type) :=
  Map (CurrencySymbol × CurrencySymbol) (Fee CurrencySymbol)
abbrev limit_quantities_t (CurrencySymbol : Type) :=
  Map (CurrencySymbol × CurrencySymbol) Number
abbrev trading_pairs_t (CurrencySymbol : Type) := List (CurrencySymbol × CurrencySymbol)

/-! ## The exchange state -/

/-- Modelled from the spec: the metadata tables of the `Exchange` base class (declared
outside `src/`), "the externally-owned exchange state". -/
structure Exchange (CurrencySymbol : Type) where
  supported_currencies : CurrenciesSet CurrencySymbol
  withdraw_fees : WithdrawFeesMap CurrencySymbol
  deposit_fees : DepositFeesMap CurrencySymbol
  price_precisions : PricePrecisionsMap CurrencySymbol
  exchange_fees : ExchangeFeesMap CurrencySymbol

namespace Exchange

variable {CurrencySymbol : Type}

/-- Modelled from the spec: `Exchange::SetSupportedCurrencies` (outside `src/`); a
published table is "wholly replaced (not incrementally merged)". -/
def SetSupportedCurrencies (self : Exchange CurrencySymbol)
    (currencies : CurrenciesSet CurrencySymbol) : Exchange CurrencySymbol :=
  { self with supported_currencies := currencies }

/-- Modelled from the spec: `Exchange::SetWithdrawFees` (outside `src/`), whole-table
replacement. -/
def SetWithdrawFees (self : Exchange CurrencySymbol)
    (fees : WithdrawFeesMap CurrencySymbol) : Exchange CurrencySymbol :=
  { self with withdraw_fees := fees }

/-- Modelled from the spec: `Exchange::SetDepositFees` (outside `src/`), whole-table
replacement. -/
def SetDepositFees (self : Exchange CurrencySymbol)
    (fees : DepositFeesMap CurrencySymbol) : Exchange CurrencySymbol :=
  { self with deposit_fees := fees }

/-- Modelled from the spec: `Exchange::SetPricePrecisions` (outside `src/`), whole-table
replacement. -/
def SetPricePrecisions (self : Exchange CurrencySymbol)
    (precisions : PricePrecisionsMap CurrencySymbol) : Exchange CurrencySymbol :=
  { self with price_precisions := precisions }

/-- Modelled from the spec: `Exchange::SetExchangeFees` (outside `src/`), whole-table
replacement. -/
def SetExchangeFees (self : Exchange CurrencySymbol)
    (fees : ExchangeFeesMap CurrencySymbol) : Exchange CurrencySymbol :=
  { self with exchange_fees := fees }

end Exchange

/-! ## Metadata parsers -/

section Parsers

variable {CurrencySymbol : Type} [DecidableEq CurrencySymbol]

/-- The top-level checks on `"success"` shared by the three object-shaped
endpoints (lines 146-152, 225-231, 335-341). -/
def checkSuccess (document : Value) : Except Failure Unit := do
  if !(← document.HasMember "success") then
    throw (.runtime_error "Expected data member, not found")
  if !(← document.member "success").IsBool then
    throw (.runtime_error "Expected data member, not found")
  if !(← (← document.member "success").GetBool) then
    throw (.runtime_error "tradeogre request failed ")
  pure ()

/-- The three local tables of `ParseDepositWithdrawFees`. -/
structure CoinInfoTables (CurrencySymbol : Type) where
  withdraw_fees : WithdrawFeesMap CurrencySymbol
  deposit_fees : DepositFeesMap CurrencySymbol
  currencies : CurrenciesSet CurrencySymbol

/-- The guard of line 170: the record has a string `walletStatus` other than
`"down"`. -/
def walletStatusNotDown (coin : Value) : Except Failure Bool := do
  if !(← coin.HasMember "walletStatus") then return false
  if !(← coin.member "walletStatus").IsString then return false
  return (← (← coin.member "walletStatus").GetString) != "down"

/-- Lines 177-179: the minimum withdraw amount, given as a number or as a
string that is trimmed before it is parsed. -/
def parseMinWithdrawAmount (env : Env CurrencySymbol) (field : Value) :
    Except Failure (Option Number) := do
  let amount_str ← if field.IsNumber then pure "" else field.GetString
  let amount_str := trim amount_str
  if field.IsNumber then pure (env.Number_FromDouble (← field.GetDouble))
  else pure (env.Number_FromStr amount_str)

/-- Lines 172-183: the withdraw fee and the minimum withdraw amount of a record
whose wallet is not down. -/
def withdrawFields (env : Env CurrencySymbol) (coin : Value) :
    Except Failure (Number × Number) := do
  if !(← coin.HasMember "withdrawFee") then
    throw (.runtime_error "Missing withdrawFee or minWithdrawAmount")
  if !(← coin.HasMember "minWithdrawAmount") then
    throw (.runtime_error "Missing withdrawFee or minWithdrawAmount")
  let fee := env.Number_FromDouble (← (← coin.member "withdrawFee").GetDouble)
  let amount ← parseMinWithdrawAmount env (← coin.member "minWithdrawAmount")
  match fee, amount with
  | some fee, some amount => pure (fee, amount)
  | _, _ => throw (.runtime_error "Unable to parse fees")

/-- Lines 190-196: the minimum deposit amount of a record whose wallet is not
down. -/
def depositField (env : Env CurrencySymbol) (coin : Value) : Except Failure Number := do
  if !(← coin.HasMember "minDepositAmount") then
    throw (.runtime_error "Missing withdrawFee or minWithdrawAmount")
  match env.Number_FromDouble (← (← coin.member "minDepositAmount").GetDouble) with
  | none => throw (.runtime_error "Unable to parse fees")
  | some minAmount => pure minAmount

/-- Body of the loop over `document["info"]` (lines 163-203) for one record. -/
def coinInfoRecord (env : Env CurrencySymbol) (coin : Value)
    (t : CoinInfoTables CurrencySymbol) : Except Failure (CoinInfoTables CurrencySymbol) := do
  if !(← coin.HasMember "symbol") then
    throw (.runtime_error "Expecting symbol, not found")
  match env.currency_FromStr (← (← coin.member "symbol").GetString) with
  | none => pure t
  | some v =>
    let currencies := CurrenciesSet.insert t.currencies v
    if !(← walletStatusNotDown coin) then
      pure ⟨t.withdraw_fees, t.deposit_fees, currencies⟩
    else
      let (fee, amount) ← withdrawFields env coin
      let status ← (← coin.member "walletStatus").GetString
      let withdraw_fees :=
        if status != "closed_cashout" then
          Map.insert t.withdraw_fees v ⟨⟨fee, v⟩, ⟨⟨0⟩, v⟩, ⟨amount, v⟩⟩
        else t.withdraw_fees
      let minAmount ← depositField env coin
      let deposit_fees :=
        if status != "closed_cashin" && status != "delisted" then
          Map.insert t.deposit_fees v ⟨⟨⟨0⟩, v⟩, ⟨⟨0⟩, v⟩, ⟨minAmount, v⟩⟩
        else t.deposit_fees
      pure ⟨withdraw_fees, deposit_fees, currencies⟩

/-- The loop `for (const auto &coin: document["info"].GetArray())`. -/
def coinInfoLoop (env : Env CurrencySymbol) :
    List Value → CoinInfoTables CurrencySymbol → Except Failure (CoinInfoTables CurrencySymbol)
  | [], t => pure t
  | coin :: rest, t => do
    let t ← coinInfoRecord env coin t
    coinInfoLoop env rest t

/-- Lines 139-204 of `ParseDepositWithdrawFees`: everything before the tables
are handed to the exchange. -/
def buildDepositWithdrawFees (env : Env CurrencySymbol) (document : Document) :
    Except Failure (CoinInfoTables CurrencySymbol) :=
  match document with
  | .ParseError => throw (.runtime_error "JsonParsing Error: ")
  | .Parsed document => do
    checkSuccess document
    if !(← document.HasMember "info") then
      throw (.runtime_error "tradeogre no info ")
    if !(← document.member "info").IsArray then
      throw (.runtime_error "tradeogre no info ")
    coinInfoLoop env (← (← document.member "info").GetArray) ⟨[], [], []⟩

/-- Lines 206-214: the supported set is always handed over, a fee table only
when it is not empty. -/
def publishDepositWithdrawFees (t : CoinInfoTables CurrencySymbol)
    (self : Exchange CurrencySymbol) : Exchange CurrencySymbol :=
  let self := self.SetSupportedCurrencies t.currencies
  let self := if t.withdraw_fees.length > 0 then self.SetWithdrawFees t.withdraw_fees else self
  let self := if t.deposit_fees.length > 0 then self.SetDepositFees t.deposit_fees else self
  self

/-- The member function `tradeogre::ParseDepositWithdrawFees`. -/
def ParseDepositWithdrawFees (env : Env CurrencySymbol) (content : Document)
    (self : Exchange CurrencySymbol) : Except Failure Unit × Exchange CurrencySymbol :=
  match buildDepositWithdrawFees env content with
  | .error e => (.error e, self)
  | .ok t => (.ok (), publishDepositWithdrawFees t self)

/-- The two local tables of `ParseExchangeLimitsPrecision`. -/
structure RestrictionTables (CurrencySymbol : Type) where
  precisions : PricePrecisionsMap CurrencySymbol
  min_limit_quantity : limit_quantities_t CurrencySymbol

/-- Body of the loop over `document["restrictions"]` (lines 241-273) for one
record. -/
def restrictionRecord (env : Env CurrencySymbol) (coin : Value)
    (t : RestrictionTables CurrencySymbol) :
    Except Failure (RestrictionTables CurrencySymbol) := do
  if !(← coin.HasMember "currencyPair") then
    throw (.runtime_error "Expecting currencyPair, not found")
  let pair ← (← coin.member "currencyPair").GetString
  let parts := split pair
  let from_c := env.currency_FromStr (← vectorAt parts 0)
  let to_c := env.currency_FromStr (← vectorAt parts 1)
  match from_c, to_c with
  | some from_c, some to_c =>
    if !(← coin.HasMember "priceScale") then
      throw (.runtime_error "Missing priceScale")
    let precision ← (← coin.member "priceScale").GetInt64
    if precision > (env.NUMBER_DECIMALS : Int) || precision < 0 then
      throw (.runtime_error "tradePrecision should be between 0 and NUMBER_DECIMALS included")
    let prec : Number := ⟨POW_10 ((env.NUMBER_DECIMALS : Int) - precision).toNat⟩
    let precisions := Map.insert t.precisions (from_c, to_c) ⟨prec, from_c⟩
    if !(← coin.HasMember "minLimitQuantity") then
      throw (.runtime_error "Missing minLimitQuantity")
    match env.Number_FromDouble (← (← coin.member "minLimitQuantity").GetDouble) with
    | none => throw (.runtime_error "Cannot convert minLimitQuantity")
    | some limit =>
      pure ⟨precisions, Map.insert t.min_limit_quantity (from_c, to_c) limit⟩
  | _, _ => pure t

/-- The loop `for (const auto &coin: document["restrictions"].GetArray())`. -/
def restrictionLoop (env : Env CurrencySymbol) :
    List Value → RestrictionTables CurrencySymbol →
      Except Failure (RestrictionTables CurrencySymbol)
  | [], t => pure t
  | coin :: rest, t => do
    let t ← restrictionRecord env coin t
    restrictionLoop env rest t

/-- Lines 218-274 of `ParseExchangeLimitsPrecision`: everything before the
precision table is handed to the exchange. -/
def buildExchangeLimitsPrecision (env : Env CurrencySymbol) (document : Document) :
    Except Failure (RestrictionTables CurrencySymbol) :=
  match document with
  | .ParseError => throw (.runtime_error "JsonParsing Error: ")
  | .Parsed document => do
    checkSuccess document
    if !(← document.HasMember "restrictions") then
      throw (.runtime_error "tradeogre no info ")
    if !(← document.member "restrictions").IsArray then
      throw (.runtime_error "tradeogre no info ")
    restrictionLoop env (← (← document.member "restrictions").GetArray) ⟨[], []⟩

/-- The member function `tradeogre::ParseExchangeLimitsPrecision`: publishes the
precision table and returns the minimum-limit map. -/
def ParseExchangeLimitsPrecision (env : Env CurrencySymbol) (content : Document)
    (self : Exchange CurrencySymbol) :
    Except Failure (limit_quantities_t CurrencySymbol) × Exchange CurrencySymbol :=
  match buildExchangeLimitsPrecision env content with
  | .error e => (.error e, self)
  | .ok t => (.ok t.min_limit_quantity, self.SetPricePrecisions t.precisions)

/-- The condition of lines 311-317, evaluated left to right and stopping at
the first field that differs from zero. -/
def tickerAllZero (coin : Value) : Except Failure Bool := do
  if (← (← coin.member "max_bid").GetDouble) != 0 then return false
  if (← (← coin.member "min_ask").GetDouble) != 0 then return false
  if (← (← coin.member "best_bid").GetDouble) != 0 then return false
  if (← (← coin.member "best_ask").GetDouble) != 0 then return false
  return (← (← coin.member "volume").GetDouble) == 0

/-- Body of the loop of `ParseTradingPairs` (lines 295-321) for one record. -/
def tradingPairRecord (env : Env CurrencySymbol) (coin : Value)
    (pairs : trading_pairs_t CurrencySymbol) :
    Except Failure (trading_pairs_t CurrencySymbol) := do
  if !(← coin.HasMember "symbol") then
    throw (.runtime_error "Expecting symbol, not found")
  let sym ← (← coin.member "symbol").GetString
  let parts := split sym
  let from_c := env.currency_FromStr (← vectorAt parts 0)
  let to_c := env.currency_FromStr (← vectorAt parts 1)
  match from_c, to_c with
  | some from_c, some to_c =>
    if (← tickerAllZero coin) then pure pairs
    else pure (pairs ++ [(from_c, to_c)])
  | _, _ => pure pairs

/-- The loop `for (const auto &coin: document.GetArray())`. -/
def tradingPairLoop (env : Env CurrencySymbol) :
    List Value → trading_pairs_t CurrencySymbol →
      Except Failure (trading_pairs_t CurrencySymbol)
  | [], pairs => pure pairs
  | coin :: rest, pairs => do
    let pairs ← tradingPairRecord env coin pairs
    tradingPairLoop env rest pairs

/-- The member function `tradeogre::ParseTradingPairs`; it does not touch the
exchange state. -/
def ParseTradingPairs (env : Env CurrencySymbol) (content : Document) :
    Except Failure (trading_pairs_t CurrencySymbol) :=
  match content with
  | .ParseError => throw (.runtime_error "JsonParsing Error: ")
  | .Parsed document =>
    if !document.IsArray then throw (.runtime_error "tradeogre no info ")
    else do tradingPairLoop env (← document.GetArray) []

/-- The loop `for (const auto &c: pairs)` of `ParseExchangeFees` (lines 353-363). -/
def exchangeFeesLoop (fee : Number) (limits : limit_quantities_t CurrencySymbol) :
    trading_pairs_t CurrencySymbol → ExchangeFeesMap CurrencySymbol →
      Except Failure (ExchangeFeesMap CurrencySymbol)
  | [], fees => pure fees
  | c :: rest, fees =>
    match Map.find limits c with
    | none => throw (.runtime_error "tradeogre missing min limits for pairs ")
    | some it_second =>
      let fee_from : Fee CurrencySymbol := ⟨⟨⟨0⟩, c.2⟩, ⟨fee, c.2⟩, ⟨it_second, c.2⟩⟩
      let fee_to : Fee CurrencySymbol := ⟨⟨⟨0⟩, c.1⟩, ⟨fee, c.1⟩, ⟨⟨0⟩, c.1⟩⟩
      let fees := Map.insert fees c fee_from
      let fees := Map.insert fees (c.2, c.1) fee_to
      exchangeFeesLoop fee limits rest fees

/-- Lines 328-363 of `ParseExchangeFees`: everything before the table is handed
to the exchange. -/
def buildExchangeFees (env : Env CurrencySymbol) (document : Document)
    (pairs : trading_pairs_t CurrencySymbol) (limits : limit_quantities_t CurrencySymbol) :
    Except Failure (ExchangeFeesMap CurrencySymbol) :=
  match document with
  | .ParseError => throw (.runtime_error "JsonParsing Error: ")
  | .Parsed document => do
    checkSuccess document
    if !(← document.HasMember "fee") then
      throw (.runtime_error "tradeogre no fee ")
    if !(← document.member "fee").IsString then
      throw (.runtime_error "tradeogre no fee ")
    match env.Number_FromStr (← (← document.member "fee").GetString) with
    | none => throw (.runtime_error "tradeogre fee parsing error ")
    | some fee => exchangeFeesLoop fee limits pairs []

/-- The member function `tradeogre::ParseExchangeFees`. -/
def ParseExchangeFees (env : Env CurrencySymbol) (content : Document)
    (pairs : trading_pairs_t CurrencySymbol) (limits : limit_quantities_t CurrencySymbol)
    (self : Exchange CurrencySymbol) : Except Failure Unit × Exchange CurrencySymbol :=
  match buildExchangeFees env content pairs limits with
  | .error e => (.error e, self)
  | .ok fees => (.ok (), self.SetExchangeFees fees)

end Parsers

/-! ## The chain of the four stages -/

section Chain

variable {CurrencySymbol : Type} [DecidableEq CurrencySymbol]

/-- Modelled from the spec: one run of the chain of `FetchFeesAndCurrencies` and
`FetchFees` (lines 28-84) on given response bodies. `HttpFlow::HttpGet` is
declared outside `src/`; per the spec each stage hands its body to its parser,
a failure of the parser is a failure of the stage, and a failed stage ends
the run. The stages are, in order, deposit/withdraw fees, trading pairs,
precision/limits, and exchange fees on the pairs and limits of the two
stages before. -/
def runParserStages (env : Env CurrencySymbol)
    (coinInfo ticker restrictions commission : Document) (self : Exchange CurrencySymbol) :
    Except Failure Unit × Exchange CurrencySymbol :=
  match ParseDepositWithdrawFees env coinInfo self with
  | (.error e, self) => (.error e, self)
  | (.ok (), self) =>
    match ParseTradingPairs env ticker with
    | .error e => (.error e, self)
    | .ok pairs =>
      match ParseExchangeLimitsPrecision env restrictions self with
      | (.error e, self) => (.error e, self)
      | (.ok limits, self) => ParseExchangeFees env commission pairs limits self

end Chain

/-! ## Bootstrap and periodic refresh -/

/-- The four stages of the chain, named after their `Fetch` functions. -/
inductive Stage where
  | DepositWithdrawFees
  | TradingPairs
  | ExchangeLimitsPrecision
  | ExchangeFees
  deriving DecidableEq

/-- Modelled from the spec: what each stage reports to the callback it is given.
The four `Fetch` functions (lines 87-127) hand their work to
`HttpFlow::HttpGet`, which is declared outside `src/`; per the spec each stage
produces "either a typed result or a failure signal", here the arguments of
the one call of its callback, and an error thrown by a callback reaches the
caller of the chain. -/
structure StageReports (CurrencySymbol : Type) where
  depositWithdrawFees : Bool
  tradingPairs : Bool × trading_pairs_t CurrencySymbol
  exchangeLimitsPrecision : Bool × limit_quantities_t CurrencySymbol
  exchangeFees : trading_pairs_t CurrencySymbol → limit_quantities_t CurrencySymbol → Bool

/-- What the chain does to the outside, in the order it does it. -/
inductive FetchAction where
  | log_info (text : String)
  | fetch (stage : Stage) (async : Bool)
  | expires_from_now (seconds : Nat)
  | async_wait
  deriving DecidableEq

section Chains

variable {CurrencySymbol : Type}

/-- The member function `tradeogre::FetchFeesAndCurrencies` (lines 28-49); a
thrown string literal is the error of the outcome. -/
def FetchFeesAndCurrencies (reports : StageReports CurrencySymbol) :
    Except String Unit × List FetchAction :=
  let trace := [FetchAction.fetch Stage.DepositWithdrawFees false]
  if !reports.depositWithdrawFees then (.error "Cannot fetch deposit fees", trace)
  else
    let trace := trace ++ [FetchAction.fetch Stage.TradingPairs false]
    let (success, pairs) := reports.tradingPairs
    if !success then (.error "Cannot fetch trading pairs", trace)
    else
      let trace := trace ++ [FetchAction.fetch Stage.ExchangeLimitsPrecision false]
      let (success, limits) := reports.exchangeLimitsPrecision
      if !success then (.error "Cannot fetch limits", trace)
      else
        let trace := trace ++ [FetchAction.fetch Stage.ExchangeFees false]
        if !reports.exchangeFees pairs limits then (.error "Cannot fetch exchange fees", trace)
        else (.ok (), trace)

/-- The lambda `end` of `FetchFees` (lines 56-60). -/
def FetchFees_end (FETCH_FEES_PERIOD : Nat) (success : Bool) : List FetchAction :=
  [FetchAction.log_info
      (if success then "[tradeogre] End fetching fees, res = success"
        else "[tradeogre] End fetching fees, res = failed"),
    FetchAction.expires_from_now FETCH_FEES_PERIOD,
    FetchAction.async_wait]

/-- The member function `tradeogre::FetchFees` (lines 51-84); `err` tells
whether the timer reports an error, `FETCH_FEES_PERIOD` is a constant declared
outside `src/`. -/
def FetchFees (FETCH_FEES_PERIOD : Nat) (reports : StageReports CurrencySymbol) (err : Bool) :
    Except String Unit × List FetchAction :=
  if err then (.error "tradeogre::FetchFees", [])
  else
    let trace := [FetchAction.log_info "[tradeogre] Start fetching fees",
      FetchAction.fetch Stage.DepositWithdrawFees true]
    if !reports.depositWithdrawFees then
      (.ok (), trace ++ FetchFees_end FETCH_FEES_PERIOD reports.depositWithdrawFees)
    else
      let trace := trace ++ [FetchAction.fetch Stage.TradingPairs true]
      let (success, pairs) := reports.tradingPairs
      if !success then (.ok (), trace ++ FetchFees_end FETCH_FEES_PERIOD success)
      else
        let trace := trace ++ [FetchAction.fetch Stage.ExchangeLimitsPrecision true]
        let (success, limits) := reports.exchangeLimitsPrecision
        if !success then (.ok (), trace ++ FetchFees_end FETCH_FEES_PERIOD success)
        else
          let trace := trace ++ [FetchAction.fetch Stage.ExchangeFees true]
          (.ok (), trace ++ FetchFees_end FETCH_FEES_PERIOD (reports.exchangeFees pairs limits))

end Chains

/-! ## Order-book frame handler (the code under `#if FETCH_ORDERS`) -/

/-- The enum `Order::Direction`. -/
inductive Direction where
  | BUY
  | SELL
  deriving DecidableEq

/-- Modelled from the spec: the enum `Order::Action` (declared outside `src/`); the
source only ever names `UPDATE_OR_DELETE`, the spec lists "`{UPSERT, DELETE}` —
collapsed in the source into a single update-or-delete action". -/
inductive Action where
  | UPSERT
  | DELETE
  | UPDATE_OR_DELETE
  deriving DecidableEq

/-- An order as `Order(from, to, price, amount, direction)` builds it. -/
structure Order (CurrencySymbol : Type) where
  from_c : CurrencySymbol
  to_c : CurrencySymbol
  price : Currency CurrencySymbol
  amount : Currency CurrencySymbol
  direction : Direction
  deriving DecidableEq

/-- An order book as `OrderBook(this, from, to, orders, direction)` builds it. -/
structure OrderBook (CurrencySymbol : Type) where
  from_c : CurrencySymbol
  to_c : CurrencySymbol
  orders : List (Order CurrencySymbol)
  direction : Direction
  deriving DecidableEq

/-- The protobuf enum `OrderBookEvent_OrderType`: the source names `BID` only. -/
inductive OrderType where
  | BID
  | other (tag : Nat)
  deriving DecidableEq

/-- The protobuf message `OrderBookEvent`. -/
structure OrderBookEvent where
  order_type : OrderType
  price : String
  quantity : String
  deriving DecidableEq

/-- The fields read from `OrderBookChannelSubscribedResponse` and from
`OrderBookNotification`. -/
structure OrderBookMessage where
  currency_pair : String
  data : List OrderBookEvent

/-- The protobuf message `ErrorResponse`. -/
structure ErrorResponse where
  code : Int
  message : String

/-- A decoded `WsResponse`: its `meta().response_type()` with `msg()` decoded
under the schema the handler applies for that type. -/
inductive WsResponse where
  | ORDER_BOOK_CHANNEL_SUBSCRIBED (ocb : OrderBookMessage)
  | ORDER_BOOK_NOTIFY (ocb : OrderBookMessage)
  | ERROR (er : ErrorResponse)
  | unknown (response_type : Int)

/-- An inbound web-socket message: of size zero, or a decoded response. -/
inductive Message where
  | empty
  | frame (response : WsResponse)

/-- What the frame handler does to the outside, in the order it does it. -/
inductive Event (CurrencySymbol : Type) where
  | RegisterPong (ping_time : Nat)
  | RegisterPing (ping_time : Nat)
  | log_error (text : String)
  | postFull (books : List (OrderBook CurrencySymbol))
  | postDiff (order : Order CurrencySymbol) (exchange : String) (action : Action)

section Frames

variable {CurrencySymbol : Type} [DecidableEq CurrencySymbol]

/-- The static function `PushToOrders`: appends the decodable orders to
`orders_sell` and `orders_buy`, which are returned in that order. -/
def PushToOrders (env : Env CurrencySymbol) (from_c to_c : CurrencySymbol) :
    List OrderBookEvent → List (Order CurrencySymbol) → List (Order CurrencySymbol) →
      List (Order CurrencySymbol) × List (Order CurrencySymbol)
  | [], orders_sell, orders_buy => (orders_sell, orders_buy)
  | order :: rest, orders_sell, orders_buy =>
    let dir := if order.order_type = OrderType.BID then Direction.BUY else Direction.SELL
    match env.Number_FromStr order.price, env.Number_FromStr order.quantity with
    | some price, some amount =>
      if dir = Direction.BUY then
        PushToOrders env from_c to_c rest orders_sell
          (orders_buy ++ [⟨from_c, to_c, ⟨price, to_c⟩, ⟨amount, from_c⟩, dir⟩])
      else
        PushToOrders env from_c to_c rest
          (orders_sell ++ [⟨from_c, to_c, ⟨price, to_c⟩, ⟨amount, from_c⟩, dir⟩]) orders_buy
    | _, _ => PushToOrders env from_c to_c rest orders_sell orders_buy

/-- Lines 441-473 of the frame handler: what is done with the pair string and
the order list of a snapshot (`full = true`) or of a diff (`full = false`). -/
def handleOrders (env : Env CurrencySymbol) (full : Bool) (ocb : OrderBookMessage) :
    Except Failure Unit × List (Event CurrencySymbol) :=
  let parts := split ocb.currency_pair
  match vectorAt parts 0 with
  | .error e => (.error e, [])
  | .ok part0 =>
    match vectorAt parts 1 with
    | .error e => (.error e, [])
    | .ok part1 =>
      match env.currency_FromStr part0, env.currency_FromStr part1 with
      | some from_c, some to_c =>
        let (orders_sell, orders_buy) := PushToOrders env from_c to_c ocb.data [] []
        if full then
          let ob_sell : OrderBook CurrencySymbol := ⟨from_c, to_c, orders_sell, Direction.SELL⟩
          let ob_buy : OrderBook CurrencySymbol := ⟨from_c, to_c, orders_buy, Direction.BUY⟩
          (.ok (), [Event.postFull [ob_buy, ob_sell]])
        else
          (.ok (),
            orders_sell.map (fun c => Event.postDiff c "tradeogre" Action.UPDATE_OR_DELETE) ++
            orders_buy.map (fun c => Event.postDiff c "tradeogre" Action.UPDATE_OR_DELETE))
      | _, _ => (.ok (), [Event.log_error "[tradeogre] Unknown cur "])

/-- The message handler given to `ws_->Run` in `SetupOrderBook` (lines 401-474). -/
def onMessage (env : Env CurrencySymbol) (message : Message) (ping_time : Nat) :
    Except Failure Unit × List (Event CurrencySymbol) :=
  let registered : List (Event CurrencySymbol) :=
    [Event.RegisterPong ping_time, Event.RegisterPing ping_time]
  match message with
  | .empty => (.ok (), registered)
  | .frame (.ORDER_BOOK_CHANNEL_SUBSCRIBED ocb) =>
    ((handleOrders env true ocb).1, registered ++ (handleOrders env true ocb).2)
  | .frame (.ORDER_BOOK_NOTIFY ocb) =>
    ((handleOrders env false ocb).1, registered ++ (handleOrders env false ocb).2)
  | .frame (.ERROR _) => (.ok (), registered ++ [Event.log_error "[tradeogre] Error"])
  | .frame (.unknown _) =>
    (.ok (), registered ++ [Event.log_error "[tradeogre] Unknown message type "])

/-- The orders of the delta callbacks among a list of events, in scheduling
order. -/
def deltaCallbacks : List (Event CurrencySymbol) → List (Order CurrencySymbol)
  | [] => []
  | Event.postDiff order _ _ :: rest => order :: deltaCallbacks rest
  | _ :: rest => deltaCallbacks rest

/-- The batches of the full-update callbacks among a list of events, in
scheduling order. -/
def fullCallbacks : List (Event CurrencySymbol) → List (List (OrderBook CurrencySymbol))
  | [] => []
  | Event.postFull books :: rest => books :: fullCallbacks rest
  | _ :: rest => fullCallbacks rest

end Frames

/-! ## Vocabulary of the specification -/

section Vocabulary

variable {CurrencySymbol : Type} [DecidableEq CurrencySymbol]

/-- The asset a coin-info record names: its `"symbol"` read as a string and
looked up; `none` when the symbol is not recognized. -/
def recordAsset (env : Env CurrencySymbol) (coin : Value) : Option CurrencySymbol :=
  match coin.member "symbol" with
  | .ok (.string s) => env.currency_FromStr (c_str s)
  | _ => none

/-- The wallet status string of a record, when it has one. -/
def walletStatus (coin : Value) : Option String :=
  match coin.member "walletStatus" with
  | .ok (.string s) => some (c_str s)
  | _ => none

/-- The status under which the spec has a withdraw entry published: a string
that is neither `"down"` nor `"closed_cashout"`. -/
def withdrawOpen (coin : Value) : Bool :=
  match walletStatus coin with
  | some s => s != "down" && s != "closed_cashout"
  | none => false

/-- The status under which the spec has a deposit entry published: a string
that is none of `"down"`, `"closed_cashin"`, `"delisted"`. -/
def depositOpen (coin : Value) : Bool :=
  match walletStatus coin with
  | some s => s != "down" && s != "closed_cashin" && s != "delisted"
  | none => false

/-- The withdraw fee of a coin-info record: its numeric `withdrawFee` as a
decimal. -/
def withdrawFeeOf (env : Env CurrencySymbol) (coin : Value) : Option Number :=
  match coin.member "withdrawFee" >>= Value.GetDouble with
  | .ok d => env.Number_FromDouble d
  | .error _ => none

/-- The minimum withdraw amount of a coin-info record: its `minWithdrawAmount`
as a decimal, read from a number or from a string trimmed of white space. -/
def minWithdrawOf (env : Env CurrencySymbol) (coin : Value) : Option Number :=
  match coin.member "minWithdrawAmount" with
  | .ok (.int i) => env.Number_FromDouble (i : ℚ)
  | .ok (.real d) => env.Number_FromDouble d
  | .ok (.string s) => env.Number_FromStr (trim (c_str s))
  | _ => none

/-- The minimum deposit amount of a coin-info record: its numeric
`minDepositAmount` as a decimal. -/
def minDepositOf (env : Env CurrencySymbol) (coin : Value) : Option Number :=
  match coin.member "minDepositAmount" >>= Value.GetDouble with
  | .ok d => env.Number_FromDouble d
  | .error _ => none

/-- The pair a pair string names: its first two pieces at `/`, both recognized. -/
def pairOfString (env : Env CurrencySymbol) (s : String) :
    Option (CurrencySymbol × CurrencySymbol) :=
  match split s with
  | part0 :: part1 :: _ =>
    match env.currency_FromStr part0, env.currency_FromStr part1 with
    | some from_c, some to_c => some (from_c, to_c)
    | _, _ => none
  | _ => none

/-- The recognized pair of a ticker record, read from its `"symbol"`. -/
def tickerPair (env : Env CurrencySymbol) (coin : Value) :
    Option (CurrencySymbol × CurrencySymbol) :=
  match coin.member "symbol" with
  | .ok (.string s) => pairOfString env (c_str s)
  | _ => none

/-- The recognized pair of a restrictions record, read from its
`"currencyPair"`. -/
def restrictionPair (env : Env CurrencySymbol) (coin : Value) :
    Option (CurrencySymbol × CurrencySymbol) :=
  match coin.member "currencyPair" with
  | .ok (.string s) => pairOfString env (c_str s)
  | _ => none

/-- The `priceScale` of a restrictions record, when it has one that `GetInt64`
reads. -/
def priceScale (coin : Value) : Option Int :=
  match coin.member "priceScale" >>= Value.GetInt64 with
  | .ok s => some s
  | .error _ => none

/-- The `minLimitQuantity` of a restrictions record as a decimal, when the
record has a numeric one that `Number::FromDouble` converts. -/
def minLimitQuantity (env : Env CurrencySymbol) (coin : Value) : Option Number :=
  match coin.member "minLimitQuantity" >>= Value.GetDouble with
  | .ok d => env.Number_FromDouble d
  | .error _ => none

/-- The tick size of the spec for a scale `s`: `10^(D - s)` in the base asset. -/
def tickSize (env : Env CurrencySymbol) (s : Int) (base : CurrencySymbol) :
    Currency CurrencySymbol :=
  ⟨⟨10 ^ ((env.NUMBER_DECIMALS : Int) - s).toNat⟩, base⟩

/-- The record has a `priceScale` less than `0` or greater than `D`. -/
def scaleOutOfRange (env : Env CurrencySymbol) (coin : Value) : Prop :=
  ∃ s, priceScale coin = some s ∧ (s < 0 ∨ (env.NUMBER_DECIMALS : Int) < s)

/-- The record has no `priceScale`, or one less than `0` or greater than `D`. -/
def scaleRejected (env : Env CurrencySymbol) (coin : Value) : Prop :=
  coin.HasMember "priceScale" = .ok false ∨ scaleOutOfRange env coin

/-- The numeric field `name` of a record is present and equal to zero. -/
def fieldIsZero (coin : Value) (name : String) : Bool :=
  match coin.member name >>= Value.GetDouble with
  | .ok d => d == 0
  | .error _ => false

/-- All of `max_bid`, `min_ask`, `best_bid`, `best_ask` and `volume` are equal
to zero. -/
def allFiveZero (coin : Value) : Bool :=
  fieldIsZero coin "max_bid" && fieldIsZero coin "min_ask" && fieldIsZero coin "best_bid" &&
    fieldIsZero coin "best_ask" && fieldIsZero coin "volume"

/-- The pair the spec keeps for a ticker record: its recognized pair, unless
the five fields are all zero. -/
def survivingPair (env : Env CurrencySymbol) (coin : Value) :
    Option (CurrencySymbol × CurrencySymbol) :=
  if allFiveZero coin then none else tickerPair env coin

/-- The forward record the spec gives the pair `(A, B)`: zero base component,
rate `r` and minimum quantity `q`, all in `B`. -/
def forwardFee (r q : Number) (B : CurrencySymbol) : Fee CurrencySymbol :=
  ⟨⟨⟨0⟩, B⟩, ⟨r, B⟩, ⟨q, B⟩⟩

/-- The reverse record the spec gives the pair `(B, A)`: zero base component,
rate `r` and zero minimum quantity, all in `A`. -/
def reverseFee (r : Number) (A : CurrencySymbol) : Fee CurrencySymbol :=
  ⟨⟨⟨0⟩, A⟩, ⟨r, A⟩, ⟨⟨0⟩, A⟩⟩

/-- The order the spec reads from one event of a frame for the pair
`(from_c, to_c)`: price in the quote asset, quantity in the base asset, BUY for
a `BID` and SELL otherwise; `none` when price or quantity does not parse. -/
def decodeOrder (env : Env CurrencySymbol) (from_c to_c : CurrencySymbol)
    (order : OrderBookEvent) : Option (Order CurrencySymbol) :=
  match env.Number_FromStr order.price, env.Number_FromStr order.quantity with
  | some price, some amount =>
    some ⟨from_c, to_c, ⟨price, to_c⟩, ⟨amount, from_c⟩,
      if order.order_type = OrderType.BID then Direction.BUY else Direction.SELL⟩
  | _, _ => none

/-- The orders of a frame for the pair `(from_c, to_c)`, in input order. -/
def frameOrders (env : Env CurrencySymbol) (from_c to_c : CurrencySymbol)
    (data : List OrderBookEvent) : List (Order CurrencySymbol) :=
  data.filterMap (decodeOrder env from_c to_c)

/-- The orders of one side among a list of orders, in the order of the list. -/
def sideOf (side : Direction) (orders : List (Order CurrencySymbol)) :
    List (Order CurrencySymbol) :=
  orders.filter (fun o => decide (o.direction = side))

/-- Whether a stage reports success, the exchange-fee stage on the pairs and
limits the two stages before it report. -/
def stageSucceeds (reports : StageReports CurrencySymbol) : Stage → Bool
  | Stage.DepositWithdrawFees => reports.depositWithdrawFees
  | Stage.TradingPairs => reports.tradingPairs.1
  | Stage.ExchangeLimitsPrecision => reports.exchangeLimitsPrecision.1
  | Stage.ExchangeFees =>
    reports.exchangeFees reports.tradingPairs.2 reports.exchangeLimitsPrecision.2

/-- The four stages in the order the data dependencies fix. -/
def stageOrder : List Stage :=
  [Stage.DepositWithdrawFees, Stage.TradingPairs, Stage.ExchangeLimitsPrecision,
    Stage.ExchangeFees]

/-- The stages of a list up to and including the first one that fails, all of
them when none fails. -/
def throughFirstFailure (succeeds : Stage → Bool) : List Stage → List Stage
  | [] => []
  | stage :: rest =>
    if succeeds stage then stage :: throughFirstFailure succeeds rest else [stage]

/-- The stages a trace of the chain runs, in order. -/
def stagesRun : List FetchAction → List Stage
  | [] => []
  | FetchAction.fetch stage _ :: rest => stage :: stagesRun rest
  | _ :: rest => stagesRun rest

/-- The periods, in seconds, of the reschedulings of a trace: one for each
`expires_from_now` that is followed at once by `async_wait`. -/
def reschedulings : List FetchAction → List Nat
  | FetchAction.expires_from_now seconds :: FetchAction.async_wait :: rest =>
    seconds :: reschedulings rest
  | _ :: rest => reschedulings rest
  | [] => []

/-- The error the bootstrap throws for a failed stage. -/
def bootstrapError : Stage → String
  | Stage.DepositWithdrawFees => "Cannot fetch deposit fees"
  | Stage.TradingPairs => "Cannot fetch trading pairs"
  | Stage.ExchangeLimitsPrecision => "Cannot fetch limits"
  | Stage.ExchangeFees => "Cannot fetch exchange fees"

/-- Every component of the fee record is an amount in the asset `a`. -/
def denominatedIn (f : Fee CurrencySymbol) (a : CurrencySymbol) : Prop :=
  f.fixed.symbol = a ∧ f.rate.symbol = a ∧ f.minimum.symbol = a

/-- The global trade rate of an exchange-fee response: its string `"fee"` as a
decimal. -/
def globalRate (env : Env CurrencySymbol) (content : Document) : Option Number :=
  match content with
  | .Parsed root =>
    match root.member "fee" with
    | .ok (.string s) => env.Number_FromStr (c_str s)
    | _ => none
  | .ParseError => none

/-- The top-level `"success"` member is absent, is not a boolean, or is
false. -/
def successMissingOrFalse (members : List (String × Value)) : Prop :=
  Value.FindMember members "success" = none ∨
    (∃ v, Value.FindMember members "success" = some v ∧ v.IsBool = false) ∨
    Value.FindMember members "success" = some (.boolean false)

/-- The top-level member `name` is missing or not of the type that `isType`
tests. -/
def fieldMissingOrMistyped (isType : Value → Bool) (members : List (String × Value))
    (name : String) : Prop :=
  Value.FindMember members name = none ∨
    ∃ v, Value.FindMember members name = some v ∧ isType v = false

/-- The five ways the spec has an inbound frame handled. -/
inductive FrameKind where
  | snapshot
  | diff
  | error
  | heartbeat
  | unrecognized
  deriving DecidableEq

/-- The kind of an inbound message: one of size zero is a heartbeat, any other
goes by the response type of its metadata. -/
def frameKind : Message → FrameKind
  | .empty => FrameKind.heartbeat
  | .frame (.ORDER_BOOK_CHANNEL_SUBSCRIBED _) => FrameKind.snapshot
  | .frame (.ORDER_BOOK_NOTIFY _) => FrameKind.diff
  | .frame (.ERROR _) => FrameKind.error
  | .frame (.unknown _) => FrameKind.unrecognized

/-- The tick counts handed to the ping/pong tracker among a list of events, in
the order of the calls. -/
def trackerCalls : List (Event CurrencySymbol) → List Nat
  | [] => []
  | Event.RegisterPong ping_time :: rest => ping_time :: trackerCalls rest
  | Event.RegisterPing ping_time :: rest => ping_time :: trackerCalls rest
  | _ :: rest => trackerCalls rest

/-- The number of callbacks, full-update and delta, among a list of events. -/
def callbacksScheduled (events : List (Event CurrencySymbol)) : Nat :=
  (fullCallbacks events).length + (deltaCallbacks events).length

/-- The orders a list of events delivers: those of the books of its full-update
callbacks, then those of its delta callbacks. -/
def ordersDelivered (events : List (Event CurrencySymbol)) : List (Order CurrencySymbol) :=
  ((fullCallbacks events).flatten.map (fun book => book.orders)).flatten ++ deltaCallbacks events

/-- The price and the quantity of the event both parse as decimals. -/
def orderParses (env : Env CurrencySymbol) (order : OrderBookEvent) : Bool :=
  (env.Number_FromStr order.price).isSome && (env.Number_FromStr order.quantity).isSome

/-- The pair a pair string of the form `"A/B"` names: exactly two pieces at
`/`, both recognized. -/
def exactPairOfString (env : Env CurrencySymbol) (s : String) :
    Option (CurrencySymbol × CurrencySymbol) :=
  match split s with
  | [part0, part1] =>
    match env.currency_FromStr part0, env.currency_FromStr part1 with
    | some from_c, some to_c => some (from_c, to_c)
    | _, _ => none
  | _ => none

/-- The recognized pair of a restrictions record whose `"currencyPair"` is of
the form `"A/B"`. -/
def restrictionExactPair (env : Env CurrencySymbol) (coin : Value) :
    Option (CurrencySymbol × CurrencySymbol) :=
  match coin.member "currencyPair" with
  | .ok (.string s) => exactPairOfString env (c_str s)
  | _ => none

/-- No table of the exchange state holds a key twice. -/
def tablesDistinct (self : Exchange CurrencySymbol) : Prop :=
  self.supported_currencies.Nodup ∧ (self.withdraw_fees.map Prod.fst).Nodup ∧
    (self.deposit_fees.map Prod.fst).Nodup ∧ (self.price_precisions.map Prod.fst).Nodup ∧
    (self.exchange_fees.map Prod.fst).Nodup

end Vocabulary

/-! ## A concrete platform for evaluating the embedding -/

/-- Three of the asset identifiers the tests name. -/
inductive Coin where
  | BTC
  | ETH
  | BCH
  deriving DecidableEq

/-- Decimal digits of a string as a natural number, `none` if a character is
not a digit or the string is empty. -/
def digitsValue (s : String) : Option Nat :=
  if s.data = [] then none
  else s.data.foldl
    (fun acc c => acc.bind (fun n => if c.isDigit then some (10 * n + (c.toNat - 48)) else none))
    (some 0)

/-- A sample platform: three symbols, scale 8, numbers read as whole units. -/
def sampleEnv : Env Coin where
  currency_FromStr := fun s =>
    if s = "BTC" then some Coin.BTC
    else if s = "ETH" then some Coin.ETH
    else if s = "BCH" then some Coin.BCH
    else none
  Number_FromDouble := fun d => if d.den = 1 then some ⟨d.num * 100000000⟩ else none
  Number_FromStr := fun s => (digitsValue s).map (fun n => ⟨(n : Int) * 100000000⟩)
  NUMBER_DECIMALS := 8

/-- An exchange with no metadata yet. -/
def emptyExchange : Exchange Coin := ⟨[], [], [], [], []⟩

/-- A coin-info response: BTC closed for cash-out, an unknown symbol, ETH down. -/
def sampleCoinInfo : Value :=
  .object [("success", .boolean true), ("info", .array [
    .object [("symbol", .string "BTC"), ("walletStatus", .string "closed_cashout"),
      ("withdrawFee", .int 1), ("minWithdrawAmount", .string " 2 "),
      ("minDepositAmount", .real 3)],
    .object [("symbol", .string "XYZ")],
    .object [("symbol", .string "ETH"), ("walletStatus", .string "down")]])]

/-- An exchange-fee response with the global rate `"2"`. -/
def sampleCommission : Value :=
  .object [("success", .boolean true), ("fee", .string "2")]

/-- A minimum-limit map with an entry for BTC/ETH and one for ETH/BTC. -/
def sampleLimits : limit_quantities_t Coin :=
  [((Coin.BTC, Coin.ETH), ⟨34⟩), ((Coin.ETH, Coin.BTC), ⟨56⟩)]

/-- A ticker response: ETH/BTC with a volume, BCH/BTC all zero, and a pair of
an unknown symbol. -/
def sampleTicker : Value :=
  .array [
    .object [("symbol", .string "ETH/BTC"), ("max_bid", .int 0), ("min_ask", .int 0),
      ("best_bid", .real 0), ("best_ask", .int 0), ("volume", .real 5)],
    .object [("symbol", .string "BCH/BTC"), ("max_bid", .int 0), ("min_ask", .int 0),
      ("best_bid", .int 0), ("best_ask", .int 0), ("volume", .int 0)],
    .object [("symbol", .string "CAT/BTC"), ("max_bid", .int 1)]]

/-- A restrictions response with two records for BTC/ETH, of scales 2 and 3. -/
def sampleRestrictionsTwice : Value :=
  .object [("success", .boolean true), ("restrictions", .array [
    .object [("currencyPair", .string "BTC/ETH"), ("priceScale", .int 2),
      ("minLimitQuantity", .int 1)],
    .object [("currencyPair", .string "BTC/ETH"), ("priceScale", .int 3),
      ("minLimitQuantity", .int 1)]])]

/-- A restrictions response whose only record has no `priceScale`. -/
def sampleRestrictionsNoScale : Value :=
  .object [("success", .boolean true), ("restrictions", .array [
    .object [("currencyPair", .string "BTC/ETH"), ("minLimitQuantity", .int 1)]])]

/-- A restrictions response whose second record has the scale `D + 1 = 9`. -/
def sampleRestrictionsNine : Value :=
  .object [("success", .boolean true), ("restrictions", .array [
    .object [("currencyPair", .string "BCH/BTC"), ("priceScale", .int 4),
      ("minLimitQuantity", .int 1)],
    .object [("currencyPair", .string "BTC/ETH"), ("priceScale", .int 9),
      ("minLimitQuantity", .int 1)]])]

/-- An exchange that already has a withdraw fee for ETH. -/
def samplePrior : Exchange Coin :=
  ⟨[Coin.ETH], [(Coin.ETH, ⟨⟨⟨7⟩, Coin.ETH⟩, ⟨⟨0⟩, Coin.ETH⟩, ⟨⟨9⟩, Coin.ETH⟩⟩)], [], [], []⟩

/-- A diff frame for BTC/ETH: a bid followed by an ask. -/
def sampleDiff : OrderBookMessage :=
  ⟨"BTC/ETH", [⟨OrderType.BID, "1", "2"⟩, ⟨OrderType.other 1, "3", "4"⟩]⟩

/-- A diff frame for BTC/ETH with three bids. -/
def sampleDiffBids : OrderBookMessage :=
  ⟨"BTC/ETH", [⟨OrderType.BID, "1", "2"⟩, ⟨OrderType.BID, "3", "4"⟩, ⟨OrderType.BID, "5", "6"⟩]⟩

/-- A snapshot frame for BTC/ETH: a bid, an ask, and a second bid. -/
def sampleSnapshot : OrderBookMessage :=
  ⟨"BTC/ETH", [⟨OrderType.BID, "1", "2"⟩, ⟨OrderType.other 1, "3", "4"⟩,
    ⟨OrderType.BID, "5", "6"⟩]⟩

/-- A frame whose pair string has three parts, the first two recognized. -/
def sampleThreeParts : OrderBookMessage :=
  ⟨"BTC/ETH/BCH", [⟨OrderType.BID, "1", "2"⟩]⟩

/-- A frame whose pair string has an unknown second symbol. -/
def sampleUnknownPair : OrderBookMessage :=
  ⟨"BTC/CAT", [⟨OrderType.BID, "1", "2"⟩]⟩

/-- Stage reports in which the precision/limits stage fails. -/
def sampleReportsLimitsFail : StageReports Coin :=
  ⟨true, (true, [(Coin.BTC, Coin.ETH)]), (false, []), fun _ _ => true⟩

/-- A ticker response whose first record has a symbol without `/`. -/
def sampleTickerNoSlash : Value :=
  .array [
    .object [("symbol", .string "BTCETH"), ("max_bid", .int 1), ("min_ask", .int 1),
      ("best_bid", .int 1), ("best_ask", .int 1), ("volume", .int 1)],
    .object [("symbol", .string "ETH/BTC"), ("max_bid", .int 1), ("min_ask", .int 1),
      ("best_bid", .int 1), ("best_ask", .int 1), ("volume", .int 1)]]

/-- A restrictions response whose first record has a pair string without `/`. -/
def sampleRestrictionsNoSlash : Value :=
  .object [("success", .boolean true), ("restrictions", .array [
    .object [("currencyPair", .string "BTCETH"), ("priceScale", .int 4),
      ("minLimitQuantity", .int 1)],
    .object [("currencyPair", .string "BTC/ETH"), ("priceScale", .int 4),
      ("minLimitQuantity", .int 1)]])]

/-- A coin-info response: BTC closed for cash-out, without a `withdrawFee`. -/
def sampleCoinInfoCashoutNoFee : Value :=
  .object [("success", .boolean true), ("info", .array [
    .object [("symbol", .string "BTC"), ("walletStatus", .string "closed_cashout"),
      ("minWithdrawAmount", .int 2), ("minDepositAmount", .int 3)]])]

/-- A coin-info response: ETH down, with no fee fields at all. -/
def sampleCoinInfoDown : Value :=
  .object [("success", .boolean true), ("info", .array [
    .object [("symbol", .string "ETH"), ("walletStatus", .string "down")]])]

/-- A coin-info response with two open records for BTC, of different fees. -/
def sampleCoinInfoTwice : Value :=
  .object [("success", .boolean true), ("info", .array [
    .object [("symbol", .string "BTC"), ("walletStatus", .string "ok"),
      ("withdrawFee", .int 1), ("minWithdrawAmount", .string " 2 "),
      ("minDepositAmount", .int 3)],
    .object [("symbol", .string "BTC"), ("walletStatus", .string "ok"),
      ("withdrawFee", .int 4), ("minWithdrawAmount", .int 5),
      ("minDepositAmount", .int 6)]])]

/-- A restrictions response with one record, for BCH/BTC. -/
def sampleRestrictionsOneWay : Value :=
  .object [("success", .boolean true), ("restrictions", .array [
    .object [("currencyPair", .string "BCH/BTC"), ("priceScale", .int 4),
      ("minLimitQuantity", .int 1)]])]

/-- The members of a coin-info response without `"success"`. -/
def sampleMembersNoSuccess : List (String × Value) :=
  [("info", .array [])]

/-- A frame for BTC/ETH with four orders: a bid, a bid whose price is not a
decimal, an ask whose quantity is empty, and an ask. -/
def sampleBadOrders : OrderBookMessage :=
  ⟨"BTC/ETH", [⟨OrderType.BID, "1", "2"⟩, ⟨OrderType.BID, "x", "2"⟩,
    ⟨OrderType.other 1, "3", ""⟩, ⟨OrderType.other 2, "3", "4"⟩]⟩

/-- A coin-info response whose first record, for BTC, is complete and whose
second record, for ETH with an open wallet, has no `withdrawFee`. -/
def sampleCoinInfoLateFailure : Value :=
  .object [("success", .boolean true), ("info", .array [
    .object [("symbol", .string "BTC"), ("walletStatus", .string "ok"),
      ("withdrawFee", .int 1), ("minWithdrawAmount", .int 2), ("minDepositAmount", .int 3)],
    .object [("symbol", .string "ETH"), ("walletStatus", .string "ok"),
      ("minWithdrawAmount", .int 5), ("minDepositAmount", .int 6)]])]

/-- A restrictions response with two records for BTC/ETH, of scales 2 and 3
and of limits 1 and 7, and a record for BCH/BTC between them. -/
def sampleRestrictionsTwoLimits : Value :=
  .object [("success", .boolean true), ("restrictions", .array [
    .object [("currencyPair", .string "BTC/ETH"), ("priceScale", .int 2),
      ("minLimitQuantity", .int 1)],
    .object [("currencyPair", .string "BCH/BTC"), ("priceScale", .int 4),
      ("minLimitQuantity", .int 5)],
    .object [("currencyPair", .string "BTC/ETH"), ("priceScale", .int 3),
      ("minLimitQuantity", .int 7)]])]

/-- A restrictions response whose only record has a pair string of three
pieces, `"BTC/ETH/BCH"`. -/
def sampleRestrictionsThreeParts : Value :=
  .object [("success", .boolean true), ("restrictions", .array [
    .object [("currencyPair", .string "BTC/ETH/BCH"), ("priceScale", .int 4),
      ("minLimitQuantity", .int 1)]])]

end tradeogre

namespace tradeogre

/-! ## Lemmas: outcomes -/

@[simp] theorem Except.ok_bind {ε α β : Type} (a : α) (f : α → Except ε β) :
    (Except.ok a >>= f) = f a := rfl

@[simp] theorem Except.error_bind {ε α β : Type} (e : ε) (f : α → Except ε β) :
    (Except.error e >>= f) = Except.error e := rfl

@[simp] theorem Except.pure_eq_ok {ε α : Type} (a : α) :
    (pure a : Except ε α) = Except.ok a := rfl

@[simp] theorem Except.throw_eq_error {ε α : Type} (e : ε) :
    (throw e : Except ε α) = Except.error e := rfl

theorem Except.bind_eq_ok {ε α β : Type} (x : Except ε α) (f : α → Except ε β) (b : β) :
    (x >>= f) = Except.ok b ↔ ∃ a, x = Except.ok a ∧ f a = Except.ok b := by
  cases x <;> simp

/-! ## Lemmas: maps and sets -/

section MapLemmas

variable {K V : Type} [DecidableEq K]

theorem Map.find_append (m m' : Map K V) (k : K) :
    Map.find (m ++ m') k = (Map.find m k).orElse (fun _ => Map.find m' k) := by
  induction m with
  | nil => simp [Map.find]
  | cons p rest ih =>
    obtain ⟨k0, v0⟩ := p
    by_cases h : k0 = k
    · simp [Map.find, h]
    · simp only [List.cons_append, Map.find, h, if_false]
      exact ih

theorem Map.find_insert (m : Map K V) (k : K) (v : V) (key : K) :
    Map.find (Map.insert m k v) key =
      match Map.find m key with
      | some x => some x
      | none => if k = key then some v else none := by
  unfold Map.insert
  cases hk : Map.find m k with
  | some x =>
    simp only
    cases hkey : Map.find m key with
    | some y => rfl
    | none =>
      have : k ≠ key := by
        intro e
        rw [e, hkey] at hk
        cases hk
      simp [this]
  | none =>
    simp only [Map.find_append]
    cases hkey : Map.find m key with
    | some y => simp
    | none => simp [Map.find]

theorem Map.find_insert_isSome (m : Map K V) (k : K) (v : V) (key : K) :
    (Map.find (Map.insert m k v) key).isSome = true ↔
      (Map.find m key).isSome = true ∨ k = key := by
  rw [Map.find_insert]
  cases Map.find m key with
  | some y => simp
  | none => by_cases h : k = key <;> simp [h]

theorem CurrenciesSet.mem_insert {S : Type} [DecidableEq S] (s : CurrenciesSet S) (x y : S) :
    y ∈ CurrenciesSet.insert s x ↔ y ∈ s ∨ y = x := by
  unfold CurrenciesSet.insert
  by_cases h : x ∈ s
  · simp only [h, if_true]
    constructor
    · exact Or.inl
    · rintro (h' | h')
      · exact h'
      · exact h' ▸ h
  · simp [h]

end MapLemmas

/-! ## Lemmas: deposit and withdraw fees -/

set_option linter.unusedSectionVars false

variable {CurrencySymbol : Type} [DecidableEq CurrencySymbol]

theorem walletStatusNotDown_eq (coin : Value) (b : Bool) (h : walletStatusNotDown coin = .ok b) :
    b = (match walletStatus coin with | some s => s != "down" | none => false) := by
  unfold walletStatusNotDown at h
  unfold walletStatus
  cases coin <;> simp [Value.HasMember] at h
  rename_i ms
  simp only [Value.member]
  cases hm : Value.FindMember ms "walletStatus" with
  | none => simp [hm] at h; simp [h]
  | some w =>
    cases w <;> simp [hm, Value.member, Value.IsString, Value.GetString] at h ⊢ <;> simp [h]

theorem recordAsset_eq (env : Env CurrencySymbol) (coin a : Value) (str : String)
    (hm : coin.member "symbol" = .ok a) (hs : a.GetString = .ok str) :
    recordAsset env coin = env.currency_FromStr str := by
  unfold recordAsset
  rw [hm]
  cases a <;> simp [Value.GetString] at hs
  simp [hs]

theorem walletStatus_eq (coin a : Value) (str : String)
    (hm : coin.member "walletStatus" = .ok a) (hs : a.GetString = .ok str) :
    walletStatus coin = some str := by
  unfold walletStatus
  rw [hm]
  cases a <;> simp [Value.GetString] at hs
  simp [hs]

theorem coinInfoRecord_ok (env : Env CurrencySymbol) (coin : Value)
    (t t' : CoinInfoTables CurrencySymbol) (h : coinInfoRecord env coin t = .ok t') :
    match recordAsset env coin with
    | none => t' = t
    | some v =>
      t'.currencies = CurrenciesSet.insert t.currencies v ∧
      (if withdrawOpen coin then
          ∃ fee amount, withdrawFields env coin = .ok (fee, amount) ∧
            t'.withdraw_fees = Map.insert t.withdraw_fees v ⟨⟨fee, v⟩, ⟨⟨0⟩, v⟩, ⟨amount, v⟩⟩
        else t'.withdraw_fees = t.withdraw_fees) ∧
      (if depositOpen coin then
          ∃ minAmount, depositField env coin = .ok minAmount ∧
            t'.deposit_fees = Map.insert t.deposit_fees v ⟨⟨⟨0⟩, v⟩, ⟨⟨0⟩, v⟩, ⟨minAmount, v⟩⟩
        else t'.deposit_fees = t.deposit_fees) := by
  unfold coinInfoRecord at h
  simp only [Except.bind_eq_ok] at h
  obtain ⟨b, _, h⟩ := h
  cases b <;> simp [Except.bind_eq_ok] at h
  obtain ⟨a, hm, str, hs, h⟩ := h
  rw [recordAsset_eq env coin a str hm hs]
  cases hv : env.currency_FromStr str with
  | none =>
    rw [hv] at h
    simp at h
    simp [h]
  | some v =>
    rw [hv] at h
    simp only [Except.bind_eq_ok] at h
    obtain ⟨nd, hnd, h⟩ := h
    simp only []
    have hnd' := walletStatusNotDown_eq coin nd hnd
    cases nd with
    | false =>
      simp at h
      subst h
      have hw : withdrawOpen coin = false := by
        unfold withdrawOpen
        cases hws : walletStatus coin with
        | none => rfl
        | some s => rw [hws] at hnd'; simp at hnd'; simp [hnd']
      have hd : depositOpen coin = false := by
        unfold depositOpen
        cases hws : walletStatus coin with
        | none => rfl
        | some s => rw [hws] at hnd'; simp at hnd'; simp [hnd']
      simp [hw, hd]
    | true =>
      simp only [Bool.true_eq_false, if_false, Except.bind_eq_ok] at h
      obtain ⟨⟨fee, amount⟩, hwf, w, hwm, status, hst, minAmount, hdf, h⟩ := h
      have hws := walletStatus_eq coin w status hwm hst
      rw [hws] at hnd'
      simp at hnd'
      simp only [Except.ok.injEq] at h
      subst h
      simp only [withdrawOpen, depositOpen, hws]
      refine ⟨?_, ?_, ?_⟩
      · trivial
      · by_cases hc : status = "closed_cashout"
        · simp [hc]
        · have e : (status != "down" && status != "closed_cashout") = true := by
            simp [hnd', hc]
          rw [if_pos e, if_neg hc]
          exact ⟨fee, amount, hwf, rfl⟩
      · by_cases hc : ¬status = "closed_cashin" ∧ ¬status = "delisted"
        · have e : (status != "down" && status != "closed_cashin" && status != "delisted") = true := by
            simp [hnd', hc.1, hc.2]
          rw [if_pos e, if_pos hc]
          exact ⟨minAmount, hdf, rfl⟩
        · have e : ¬ (status != "down" && status != "closed_cashin" && status != "delisted") = true := by
            intro e
            simp at e
            exact hc ⟨e.1.2, e.2⟩
          rw [if_neg e, if_neg hc]

theorem coinInfoLoop_ok (env : Env CurrencySymbol) (recs : List Value) :
    ∀ (t t' : CoinInfoTables CurrencySymbol), coinInfoLoop env recs t = .ok t' →
      (∀ a, a ∈ t'.currencies ↔
        a ∈ t.currencies ∨ ∃ c ∈ recs, recordAsset env c = some a) ∧
      (∀ a, (Map.find t'.withdraw_fees a).isSome = true ↔
        (Map.find t.withdraw_fees a).isSome = true ∨
          ∃ c ∈ recs, recordAsset env c = some a ∧ withdrawOpen c = true) ∧
      (∀ a, (Map.find t'.deposit_fees a).isSome = true ↔
        (Map.find t.deposit_fees a).isSome = true ∨
          ∃ c ∈ recs, recordAsset env c = some a ∧ depositOpen c = true) := by
  induction recs with
  | nil =>
    intro t t' h
    simp [coinInfoLoop] at h
    subst h
    simp
  | cons coin rest ih =>
    intro t t' h
    simp only [coinInfoLoop, Except.bind_eq_ok] at h
    obtain ⟨t1, h1, h2⟩ := h
    obtain ⟨ihc, ihw, ihd⟩ := ih t1 t' h2
    have hrec := coinInfoRecord_ok env coin t t1 h1
    cases hv : recordAsset env coin with
    | none =>
      rw [hv] at hrec
      simp only at hrec
      subst hrec
      refine ⟨fun a => ?_, fun a => ?_, fun a => ?_⟩
      · rw [ihc a]; simp [hv]
      · rw [ihw a]; simp [hv]
      · rw [ihd a]; simp [hv]
    | some v =>
      rw [hv] at hrec
      simp only at hrec
      obtain ⟨hc, hw, hd⟩ := hrec
      refine ⟨fun a => ?_, fun a => ?_, fun a => ?_⟩
      · rw [ihc a, hc, CurrenciesSet.mem_insert]
        simp only [List.mem_cons, exists_eq_or_imp, hv, Option.some.injEq]
        constructor
        · rintro ((h | h) | h)
          · exact Or.inl h
          · exact Or.inr (Or.inl h.symm)
          · exact Or.inr (Or.inr h)
        · rintro (h | h | h)
          · exact Or.inl (Or.inl h)
          · exact Or.inl (Or.inr h.symm)
          · exact Or.inr h
      · rw [ihw a]
        simp only [List.mem_cons, exists_eq_or_imp, hv, Option.some.injEq]
        by_cases ho : withdrawOpen coin = true
        · rw [if_pos ho] at hw
          obtain ⟨fee, amount, _, hw⟩ := hw
          rw [hw, Map.find_insert_isSome]
          simp only [ho, and_true]
          tauto
        · rw [if_neg ho] at hw
          rw [hw]
          simp [ho]
      · rw [ihd a]
        simp only [List.mem_cons, exists_eq_or_imp, hv, Option.some.injEq]
        by_cases ho : depositOpen coin = true
        · rw [if_pos ho] at hd
          obtain ⟨minAmount, _, hd⟩ := hd
          rw [hd, Map.find_insert_isSome]
          simp only [ho, and_true]
          tauto
        · rw [if_neg ho] at hd
          rw [hd]
          simp [ho]

theorem buildDepositWithdrawFees_loop (env : Env CurrencySymbol) (root : Value)
    (info : List Value) (t : CoinInfoTables CurrencySymbol)
    (hinfo : root.member "info" = .ok (.array info))
    (h : buildDepositWithdrawFees env (.Parsed root) = .ok t) :
    coinInfoLoop env info ⟨[], [], []⟩ = .ok t := by
  simp only [buildDepositWithdrawFees, Except.bind_eq_ok] at h
  obtain ⟨_, _, b, _, h⟩ := h
  cases b <;> simp [Except.bind_eq_ok, hinfo, Value.IsArray, Value.GetArray] at h
  exact h

theorem ParseDepositWithdrawFees_accepts (env : Env CurrencySymbol) (content : Document)
    (self : Exchange CurrencySymbol)
    (h : (ParseDepositWithdrawFees env content self).1 = .ok ()) :
    ∃ t, buildDepositWithdrawFees env content = .ok t ∧
      (ParseDepositWithdrawFees env content self).2 = publishDepositWithdrawFees t self := by
  unfold ParseDepositWithdrawFees at h ⊢
  cases hb : buildDepositWithdrawFees env content with
  | error e => rw [hb] at h; cases h
  | ok t => exact ⟨t, rfl, rfl⟩

/-- C1: in an accepted coin-info response, for a recognized asset named by
exactly one record, whose wallet status string is `s`: the withdraw-fee table
built from the response has an entry for the asset iff `s` is neither `"down"`
nor `"closed_cashout"`, the deposit-fee table has one iff `s` is none of
`"down"`, `"closed_cashin"`, `"delisted"`, and the asset is in the supported
set built from the response whatever `s` is. -/
theorem wallet_status_gates_fee_entries (env : Env CurrencySymbol) (root : Value)
    (info : List Value) (self : Exchange CurrencySymbol) (a : CurrencySymbol)
    (coin : Value) (s : String)
    (haccept : (ParseDepositWithdrawFees env (.Parsed root) self).1 = .ok ())
    (hinfo : root.member "info" = .ok (.array info))
    (hone : info.filter (fun c => decide (recordAsset env c = some a)) = [coin])
    (hs : walletStatus coin = some s) :
    ∃ t, buildDepositWithdrawFees env (.Parsed root) = .ok t ∧
      ((Map.find t.withdraw_fees a).isSome = true ↔ (s ≠ "down" ∧ s ≠ "closed_cashout")) ∧
      ((Map.find t.deposit_fees a).isSome = true ↔
        (s ≠ "down" ∧ s ≠ "closed_cashin" ∧ s ≠ "delisted")) ∧
      a ∈ t.currencies := by
  obtain ⟨t, ht, _⟩ := ParseDepositWithdrawFees_accepts env _ self haccept
  have hloop := buildDepositWithdrawFees_loop env root info t hinfo ht
  obtain ⟨hc, hw, hd⟩ := coinInfoLoop_ok env info _ t hloop
  have hmem : ∀ c, (c ∈ info ∧ recordAsset env c = some a) ↔ c = coin := by
    intro c
    have := @List.mem_filter _ (fun c => decide (recordAsset env c = some a)) info c
    rw [hone] at this
    simp only [List.mem_singleton, decide_eq_true_eq] at this
    exact this.symm
  have hcoin := (hmem coin).2 rfl
  refine ⟨t, ht, ?_, ?_, ?_⟩
  · rw [hw a]
    simp only [Map.find, Option.isSome_none, Bool.false_eq_true, false_or]
    constructor
    · rintro ⟨c, hcm, hca, hco⟩
      have := (hmem c).1 ⟨hcm, hca⟩
      subst this
      simpa [withdrawOpen, hs] using hco
    · intro h
      exact ⟨coin, hcoin.1, hcoin.2, by simpa [withdrawOpen, hs] using h⟩
  · rw [hd a]
    simp only [Map.find, Option.isSome_none, Bool.false_eq_true, false_or]
    constructor
    · rintro ⟨c, hcm, hca, hco⟩
      have := (hmem c).1 ⟨hcm, hca⟩
      subst this
      simpa [depositOpen, hs, and_assoc] using hco
    · intro h
      exact ⟨coin, hcoin.1, hcoin.2, by simpa [depositOpen, hs, and_assoc] using h⟩
  · rw [hc a]
    exact Or.inr ⟨coin, hcoin.1, hcoin.2⟩

/-- Witness of C1 on `sampleCoinInfo`: BTC, closed for cash-out, has a deposit
entry and no withdraw entry. -/
theorem wallet_status_gates_fee_entries_witness :
    ∃ t, buildDepositWithdrawFees sampleEnv (.Parsed sampleCoinInfo) = .ok t ∧
      ((Map.find t.withdraw_fees Coin.BTC).isSome = true ↔
        ("closed_cashout" ≠ "down" ∧ "closed_cashout" ≠ "closed_cashout")) ∧
      ((Map.find t.deposit_fees Coin.BTC).isSome = true ↔
        ("closed_cashout" ≠ "down" ∧ "closed_cashout" ≠ "closed_cashin" ∧
          "closed_cashout" ≠ "delisted")) ∧
      Coin.BTC ∈ t.currencies :=
  wallet_status_gates_fee_entries sampleEnv sampleCoinInfo
    [.object [("symbol", .string "BTC"), ("walletStatus", .string "closed_cashout"),
      ("withdrawFee", .int 1), ("minWithdrawAmount", .string " 2 "),
      ("minDepositAmount", .real 3)],
    .object [("symbol", .string "XYZ")],
    .object [("symbol", .string "ETH"), ("walletStatus", .string "down")]]
    emptyExchange Coin.BTC
    (.object [("symbol", .string "BTC"), ("walletStatus", .string "closed_cashout"),
      ("withdrawFee", .int 1), ("minWithdrawAmount", .string " 2 "),
      ("minDepositAmount", .real 3)])
    "closed_cashout" (by rfl) (by rfl) (by rfl) (by rfl)

/-! ## Exchange fees -/

theorem Map.find_insert_of_some {K V : Type} [DecidableEq K] (m : Map K V) (k : K) (v x : V)
    (key : K) (h : Map.find m key = some x) : Map.find (Map.insert m k v) key = some x := by
  rw [Map.find_insert, h]

theorem Map.find_insert_of_ne {K V : Type} [DecidableEq K] (m : Map K V) (k : K) (v : V)
    (key : K) (h : k ≠ key) : Map.find (Map.insert m k v) key = Map.find m key := by
  rw [Map.find_insert]
  cases Map.find m key <;> simp [h]

theorem Map.find_insert_self {K V : Type} [DecidableEq K] (m : Map K V) (k : K) (v : V)
    (h : Map.find m k = none) : Map.find (Map.insert m k v) k = some v := by
  rw [Map.find_insert, h]
  simp

/-- The loop of `ParseExchangeFees` returns exactly when every listed pair has a
minimum limit. -/
theorem exchangeFeesLoop_isOk (fee : Number) (limits : limit_quantities_t CurrencySymbol)
    (pairs : trading_pairs_t CurrencySymbol) :
    ∀ fees : ExchangeFeesMap CurrencySymbol,
      (∃ fees', exchangeFeesLoop fee limits pairs fees = .ok fees') ↔
        ∀ c ∈ pairs, (Map.find limits c).isSome = true := by
  induction pairs with
  | nil => intro fees; simp [exchangeFeesLoop]
  | cons c rest ih =>
    intro fees
    unfold exchangeFeesLoop
    cases hc : Map.find limits c with
    | none => simp [hc]
    | some q =>
      simp only [List.mem_cons, forall_eq_or_imp, hc, Option.isSome_some, true_and]
      exact ih _

/-- The only way the loop of `ParseExchangeFees` fails is the missing-limit
error. -/
theorem exchangeFeesLoop_error (fee : Number) (limits : limit_quantities_t CurrencySymbol)
    (pairs : trading_pairs_t CurrencySymbol) :
    ∀ (fees : ExchangeFeesMap CurrencySymbol) (e : Failure),
      exchangeFeesLoop fee limits pairs fees = .error e →
        e = .runtime_error "tradeogre missing min limits for pairs " := by
  induction pairs with
  | nil => intro fees e h; simp [exchangeFeesLoop] at h
  | cons c rest ih =>
    intro fees e h
    unfold exchangeFeesLoop at h
    cases hc : Map.find limits c with
    | none => rw [hc] at h; simp at h; exact h.symm
    | some q => rw [hc] at h; exact ih _ e h

/-- An entry of the table is never replaced by a later pair. -/
theorem exchangeFeesLoop_keeps (fee : Number) (limits : limit_quantities_t CurrencySymbol)
    (pairs : trading_pairs_t CurrencySymbol) :
    ∀ (fees fees' : ExchangeFeesMap CurrencySymbol) (key : CurrencySymbol × CurrencySymbol)
      (x : Fee CurrencySymbol),
      exchangeFeesLoop fee limits pairs fees = .ok fees' → Map.find fees key = some x →
        Map.find fees' key = some x := by
  induction pairs with
  | nil =>
    intro fees fees' key x h hx
    simp [exchangeFeesLoop] at h
    rw [← h]; exact hx
  | cons c rest ih =>
    intro fees fees' key x h hx
    unfold exchangeFeesLoop at h
    cases hc : Map.find limits c with
    | none => rw [hc] at h; cases h
    | some q =>
      rw [hc] at h
      refine ih _ fees' key x h ?_
      exact Map.find_insert_of_some _ _ _ _ _ (Map.find_insert_of_some _ _ _ _ _ hx)

/-- A listed pair whose reverse is not listed gets its forward record, and its
reverse gets the reverse record, unless the table had these keys already. -/
theorem exchangeFeesLoop_entries (fee : Number) (limits : limit_quantities_t CurrencySymbol)
    (pairs : trading_pairs_t CurrencySymbol) :
    ∀ (fees fees' : ExchangeFeesMap CurrencySymbol) (A B : CurrencySymbol) (q : Number),
      exchangeFeesLoop fee limits pairs fees = .ok fees' →
      (A, B) ∈ pairs → (B, A) ∉ pairs → Map.find limits (A, B) = some q →
      Map.find fees (A, B) = none → Map.find fees (B, A) = none →
        Map.find fees' (A, B) = some (forwardFee fee q B) ∧
          Map.find fees' (B, A) = some (reverseFee fee A) := by
  induction pairs with
  | nil => intro fees fees' A B q _ hmem; cases hmem
  | cons c rest ih =>
    intro fees fees' A B q h hmem hrev hq hAB hBA
    unfold exchangeFeesLoop at h
    cases hc : Map.find limits c with
    | none => rw [hc] at h; cases h
    | some qc =>
      rw [hc] at h
      simp only at h
      have hne : (B, A) ≠ c := fun e => hrev (e ▸ List.mem_cons_self _ _)
      have hrest : (B, A) ∉ rest := fun e => hrev (List.mem_cons_of_mem _ e)
      have hAB' : (A, B) ≠ (B, A) := fun e => hrev (e ▸ hmem)
      by_cases hcAB : c = (A, B)
      · subst hcAB
        rw [hq] at hc
        cases hc
        have h1 : Map.find (Map.insert fees (A, B) (forwardFee fee q B)) (A, B) =
            some (forwardFee fee q B) := Map.find_insert_self _ _ _ hAB
        have h2 : Map.find (Map.insert fees (A, B) (forwardFee fee q B)) (B, A) = none := by
          rw [Map.find_insert_of_ne _ _ _ _ hAB']; exact hBA
        exact ⟨exchangeFeesLoop_keeps fee limits rest _ fees' _ _ h
            (Map.find_insert_of_some _ _ _ _ _ h1),
          exchangeFeesLoop_keeps fee limits rest _ fees' _ _ h
            (Map.find_insert_self _ _ _ h2)⟩
      · have hmem' : (A, B) ∈ rest := by
          cases hmem with
          | head => exact absurd rfl hcAB
          | tail _ h' => exact h'
        have hc2 : (c.2, c.1) ≠ (A, B) := by
          intro e
          apply hne
          cases c
          simp only [Prod.mk.injEq] at e ⊢
          exact ⟨e.2.symm, e.1.symm⟩
        have hc3 : (c.2, c.1) ≠ (B, A) := by
          intro e
          apply hcAB
          cases c
          simp only [Prod.mk.injEq] at e ⊢
          exact ⟨e.2, e.1⟩
        refine ih _ fees' A B q h hmem' hrest hq ?_ ?_
        · rw [Map.find_insert_of_ne _ _ _ _ hc2, Map.find_insert_of_ne _ _ _ _ hcAB]
          exact hAB
        · rw [Map.find_insert_of_ne _ _ _ _ hc3, Map.find_insert_of_ne _ _ _ _ (Ne.symm hne)]
          exact hBA

/-- With `success` true and a parseable string `fee`, the part of
`ParseExchangeFees` before the table is published is its loop. -/
theorem buildExchangeFees_eq_loop (env : Env CurrencySymbol) (root : Value) (feeText : String)
    (r : Number) (pairs : trading_pairs_t CurrencySymbol)
    (limits : limit_quantities_t CurrencySymbol)
    (hsuccess : root.member "success" = .ok (.boolean true))
    (hfee : root.member "fee" = .ok (.string feeText))
    (hr : env.Number_FromStr (c_str feeText) = some r) :
    buildExchangeFees env (.Parsed root) pairs limits = exchangeFeesLoop r limits pairs [] := by
  cases root <;> simp [Value.member] at hsuccess
  rename_i ms
  cases h1 : Value.FindMember ms "success" with
  | none => simp [h1] at hsuccess
  | some v1 =>
    cases h2 : Value.FindMember ms "fee" with
    | none => simp [Value.member, h2] at hfee
    | some v2 =>
      simp [h1] at hsuccess
      simp [Value.member, h2] at hfee
      subst hsuccess hfee
      simp [buildExchangeFees, checkSuccess, Value.HasMember, Value.member, h1, h2,
        Value.IsBool, Value.GetBool, Value.IsString, Value.GetString, hr]

/-- C2, counterexample: with the pair list `[(BTC, ETH), (ETH, BTC)]` and a
minimum limit for both, the response is accepted, `(ETH, BTC)` is listed with
minimum limit `56`, and yet the table handed to `SetExchangeFees` maps
`(ETH, BTC)` to the reverse record of `(BTC, ETH)`, of minimum zero, not to its
forward record. -/
theorem exchange_fees_reverse_listed_counterexample :
    Map.find sampleLimits (Coin.ETH, Coin.BTC) = some ⟨56⟩ ∧
      (∃ fees, ParseExchangeFees sampleEnv (.Parsed sampleCommission)
          [(Coin.BTC, Coin.ETH), (Coin.ETH, Coin.BTC)] sampleLimits emptyExchange
          = (.ok (), emptyExchange.SetExchangeFees fees) ∧
        Map.find fees (Coin.ETH, Coin.BTC) = some (reverseFee ⟨200000000⟩ Coin.BTC)) ∧
      reverseFee ⟨200000000⟩ Coin.BTC ≠ forwardFee ⟨200000000⟩ ⟨56⟩ Coin.BTC := by
  refine ⟨rfl, ⟨_, rfl, rfl⟩, ?_⟩
  decide

/-- C2, amended: with `success` true, a parseable rate `r` and a limit for
every listed pair, `ParseExchangeFees` returns and, for each listed pair
`(A, B)` of minimum limit `q` whose reverse `(B, A)` is not itself listed, the
table it hands to `SetExchangeFees` maps `(A, B)` to `(0, r, q)` in `B` and
`(B, A)` to `(0, r, 0)` in `A`, whatever the other pairs of the list are. -/
theorem exchange_fees_forward_and_reverse (env : Env CurrencySymbol) (root : Value)
    (feeText : String) (r : Number) (pairs : trading_pairs_t CurrencySymbol)
    (limits : limit_quantities_t CurrencySymbol) (self : Exchange CurrencySymbol)
    (A B : CurrencySymbol) (q : Number)
    (hsuccess : root.member "success" = .ok (.boolean true))
    (hfee : root.member "fee" = .ok (.string feeText))
    (hr : env.Number_FromStr (c_str feeText) = some r)
    (hlimits : ∀ c ∈ pairs, (Map.find limits c).isSome = true)
    (hlisted : (A, B) ∈ pairs) (hq : Map.find limits (A, B) = some q)
    (hrev : (B, A) ∉ pairs) :
    ∃ fees, ParseExchangeFees env (.Parsed root) pairs limits self
        = (.ok (), self.SetExchangeFees fees) ∧
      Map.find fees (A, B) = some (forwardFee r q B) ∧
      Map.find fees (B, A) = some (reverseFee r A) := by
  obtain ⟨fees, hfees⟩ := (exchangeFeesLoop_isOk r limits pairs []).2 hlimits
  have hb := buildExchangeFees_eq_loop env root feeText r pairs limits hsuccess hfee hr
  have he := exchangeFeesLoop_entries r limits pairs [] fees A B q hfees hlisted hrev hq rfl rfl
  refine ⟨fees, ?_, he.1, he.2⟩
  simp only [ParseExchangeFees, hb, hfees]

/-- Witness of the amended C2: the single pair `(BTC, ETH)` with limit `34`. -/
theorem exchange_fees_forward_and_reverse_witness :
    ∃ fees, ParseExchangeFees sampleEnv (.Parsed sampleCommission) [(Coin.BTC, Coin.ETH)]
        sampleLimits emptyExchange = (.ok (), emptyExchange.SetExchangeFees fees) ∧
      Map.find fees (Coin.BTC, Coin.ETH) = some (forwardFee ⟨200000000⟩ ⟨34⟩ Coin.ETH) ∧
      Map.find fees (Coin.ETH, Coin.BTC) = some (reverseFee ⟨200000000⟩ Coin.BTC) :=
  exchange_fees_forward_and_reverse sampleEnv sampleCommission "2" ⟨200000000⟩
    [(Coin.BTC, Coin.ETH)] sampleLimits emptyExchange Coin.BTC Coin.ETH ⟨34⟩
    (by rfl) (by rfl) (by rfl) (by decide) (by decide) (by rfl) (by decide)

/-- C3: with `success` true and a parseable string `fee`, `ParseExchangeFees`
throws exactly when some listed pair has no entry in the minimum-limit map, the
error being the missing-limit one; it returns otherwise; and when it throws the
exchange state, its exchange-fee table included, is left as it was. -/
theorem exchange_fees_fail_iff_limit_missing (env : Env CurrencySymbol) (root : Value)
    (feeText : String) (r : Number) (pairs : trading_pairs_t CurrencySymbol)
    (limits : limit_quantities_t CurrencySymbol) (self : Exchange CurrencySymbol)
    (hsuccess : root.member "success" = .ok (.boolean true))
    (hfee : root.member "fee" = .ok (.string feeText))
    (hr : env.Number_FromStr (c_str feeText) = some r) :
    ((ParseExchangeFees env (.Parsed root) pairs limits self).1 =
        .error (.runtime_error "tradeogre missing min limits for pairs ") ↔
      ∃ c ∈ pairs, Map.find limits c = none) ∧
    ((ParseExchangeFees env (.Parsed root) pairs limits self).1 = .ok () ↔
      ¬ ∃ c ∈ pairs, Map.find limits c = none) ∧
    (∀ e, (ParseExchangeFees env (.Parsed root) pairs limits self).1 = .error e →
      (ParseExchangeFees env (.Parsed root) pairs limits self).2 = self) := by
  have hb := buildExchangeFees_eq_loop env root feeText r pairs limits hsuccess hfee hr
  have hall : (¬ ∃ c ∈ pairs, Map.find limits c = none) ↔
      ∀ c ∈ pairs, (Map.find limits c).isSome = true := by
    simp only [not_exists, not_and]
    constructor
    · intro h c hc
      cases hf : Map.find limits c with
      | none => exact absurd hf (h c hc)
      | some x => rfl
    · intro h c hc hf
      have := h c hc
      rw [hf] at this
      cases this
  have hok := exchangeFeesLoop_isOk r limits pairs []
  simp only [ParseExchangeFees, hb]
  cases hl : exchangeFeesLoop r limits pairs [] with
  | error e =>
    have he := exchangeFeesLoop_error r limits pairs [] e hl
    subst he
    have hno : ¬ ∀ c ∈ pairs, (Map.find limits c).isSome = true := by
      intro h
      obtain ⟨fees, hfees⟩ := hok.2 h
      rw [hl] at hfees
      cases hfees
    refine ⟨⟨fun _ => ?_, fun _ => rfl⟩, ⟨fun h => (by cases h), fun h => ?_⟩, fun _ _ => rfl⟩
    · by_contra hcon
      exact hno (hall.1 hcon)
    · exact absurd (hall.1 h) hno
  | ok fees =>
    have hyes : ∀ c ∈ pairs, (Map.find limits c).isSome = true := hok.1 ⟨fees, hl⟩
    refine ⟨⟨fun h => (by cases h), fun h => ?_⟩, ⟨fun _ => hall.2 hyes, fun _ => rfl⟩,
      fun e h => (by cases h)⟩
    exact absurd h (hall.2 hyes)

/-- Witness of C3: `(BCH, BTC)` is listed and has no minimum limit. -/
theorem exchange_fees_fail_iff_limit_missing_witness :
    ((ParseExchangeFees sampleEnv (.Parsed sampleCommission)
        [(Coin.BTC, Coin.ETH), (Coin.BCH, Coin.BTC)] sampleLimits emptyExchange).1 =
        .error (.runtime_error "tradeogre missing min limits for pairs ") ↔
      ∃ c ∈ [(Coin.BTC, Coin.ETH), (Coin.BCH, Coin.BTC)], Map.find sampleLimits c = none) ∧
    ((ParseExchangeFees sampleEnv (.Parsed sampleCommission)
        [(Coin.BTC, Coin.ETH), (Coin.BCH, Coin.BTC)] sampleLimits emptyExchange).1 = .ok () ↔
      ¬ ∃ c ∈ [(Coin.BTC, Coin.ETH), (Coin.BCH, Coin.BTC)], Map.find sampleLimits c = none) ∧
    (∀ e, (ParseExchangeFees sampleEnv (.Parsed sampleCommission)
        [(Coin.BTC, Coin.ETH), (Coin.BCH, Coin.BTC)] sampleLimits emptyExchange).1 = .error e →
      (ParseExchangeFees sampleEnv (.Parsed sampleCommission)
        [(Coin.BTC, Coin.ETH), (Coin.BCH, Coin.BTC)] sampleLimits emptyExchange).2
        = emptyExchange) :=
  exchange_fees_fail_iff_limit_missing sampleEnv sampleCommission "2" ⟨200000000⟩
    [(Coin.BTC, Coin.ETH), (Coin.BCH, Coin.BTC)] sampleLimits emptyExchange rfl rfl rfl

/-! ## Trading pairs -/

theorem fieldIsZero_eq (coin a : Value) (d : ℚ) (name : String)
    (hm : coin.member name = .ok a) (hd : a.GetDouble = .ok d) :
    fieldIsZero coin name = (d == 0) := by
  simp [fieldIsZero, hm, hd]

theorem tickerAllZero_eq (coin : Value) (b : Bool) (h : tickerAllZero coin = .ok b) :
    b = allFiveZero coin := by
  simp only [tickerAllZero, Except.bind_eq_ok] at h
  obtain ⟨a1, m1, d1, g1, h⟩ := h
  have f1 := fieldIsZero_eq coin a1 d1 _ m1 g1
  by_cases z1 : d1 = 0
  swap
  · simp [z1] at h
    simp [allFiveZero, f1, z1, h]
  simp only [z1, bne_self_eq_false, Bool.false_eq_true, if_false, Except.bind_eq_ok] at h
  obtain ⟨_, _, a2, m2, d2, g2, h⟩ := h
  have f2 := fieldIsZero_eq coin a2 d2 _ m2 g2
  by_cases z2 : d2 = 0
  swap
  · simp [z2] at h
    simp [allFiveZero, f2, z2, h]
  simp only [z2, bne_self_eq_false, Bool.false_eq_true, if_false, Except.bind_eq_ok] at h
  obtain ⟨_, _, a3, m3, d3, g3, h⟩ := h
  have f3 := fieldIsZero_eq coin a3 d3 _ m3 g3
  by_cases z3 : d3 = 0
  swap
  · simp [z3] at h
    simp [allFiveZero, f3, z3, h]
  simp only [z3, bne_self_eq_false, Bool.false_eq_true, if_false, Except.bind_eq_ok] at h
  obtain ⟨_, _, a4, m4, d4, g4, h⟩ := h
  have f4 := fieldIsZero_eq coin a4 d4 _ m4 g4
  by_cases z4 : d4 = 0
  swap
  · simp [z4] at h
    simp [allFiveZero, f4, z4, h]
  simp only [z4, bne_self_eq_false, Bool.false_eq_true, if_false, Except.bind_eq_ok] at h
  obtain ⟨_, _, a5, m5, d5, g5, h⟩ := h
  have f5 := fieldIsZero_eq coin a5 d5 _ m5 g5
  simp at h
  simp [allFiveZero, f1, f2, f3, f4, f5, z1, z2, z3, z4, ← h]

theorem vectorAt_zero_one (parts : List String) (p0 p1 : String)
    (h0 : vectorAt parts 0 = .ok p0) (h1 : vectorAt parts 1 = .ok p1) :
    ∃ rest, parts = p0 :: p1 :: rest := by
  match parts, h0, h1 with
  | [], h0, _ => simp [vectorAt] at h0
  | [_], _, h1 => simp [vectorAt] at h1
  | a :: b :: rest, h0, h1 =>
    simp [vectorAt] at h0 h1
    exact ⟨rest, by rw [h0, h1]⟩

theorem tradingPairRecord_ok (env : Env CurrencySymbol) (coin : Value)
    (pairs pairs' : trading_pairs_t CurrencySymbol)
    (h : tradingPairRecord env coin pairs = .ok pairs') :
    pairs' = pairs ++ (survivingPair env coin).toList := by
  unfold tradingPairRecord at h
  simp only [Except.bind_eq_ok] at h
  obtain ⟨b, _, h⟩ := h
  cases b <;> simp [Except.bind_eq_ok] at h
  obtain ⟨a, hm, str, hs, p0, h0, p1, h1, h⟩ := h
  obtain ⟨rest, hparts⟩ := vectorAt_zero_one _ p0 p1 h0 h1
  have hpair : tickerPair env coin =
      match env.currency_FromStr p0, env.currency_FromStr p1 with
      | some from_c, some to_c => some (from_c, to_c)
      | _, _ => none := by
    unfold tickerPair
    rw [hm]
    cases a <;> simp [Value.GetString] at hs
    subst hs
    simp only [pairOfString, hparts]
  unfold survivingPair
  rw [hpair]
  cases hf : env.currency_FromStr p0 with
  | none => rw [hf] at h; simp at h; simp [h]
  | some from_c =>
    cases ht : env.currency_FromStr p1 with
    | none => rw [hf, ht] at h; simp at h; simp [h]
    | some to_c =>
      rw [hf, ht] at h
      simp only [Except.bind_eq_ok] at h
      obtain ⟨z, hz, h⟩ := h
      have hz' := tickerAllZero_eq coin z hz
      rw [← hz']
      cases z <;> simp at h <;> simp [h]

theorem tradingPairLoop_ok (env : Env CurrencySymbol) (recs : List Value) :
    ∀ (pairs pairs' : trading_pairs_t CurrencySymbol),
      tradingPairLoop env recs pairs = .ok pairs' →
        pairs' = pairs ++ recs.filterMap (survivingPair env) := by
  induction recs with
  | nil => intro pairs pairs' h; simp [tradingPairLoop] at h; simp [h]
  | cons coin rest ih =>
    intro pairs pairs' h
    simp only [tradingPairLoop, Except.bind_eq_ok] at h
    obtain ⟨p1, h1, h2⟩ := h
    rw [ih p1 pairs' h2, tradingPairRecord_ok env coin pairs p1 h1]
    cases hsp : survivingPair env coin <;> simp [List.filterMap_cons, hsp]

/-- C4: when `ParseTradingPairs` accepts a response, the response is an array
and the returned list is, in input order, the recognized `(base, quote)` pair
of each record whose `max_bid`, `min_ask`, `best_bid`, `best_ask` and `volume`
are not all equal to zero; a record with all five equal to zero contributes
nothing, and a record with a recognized pair and one of the five different from
zero contributes its pair. -/
theorem trading_pairs_are_surviving_records (env : Env CurrencySymbol) (content : Document)
    (pairs : trading_pairs_t CurrencySymbol)
    (h : ParseTradingPairs env content = .ok pairs) :
    ∃ recs, content = .Parsed (.array recs) ∧
      pairs = recs.filterMap (survivingPair env) ∧
      (∀ coin ∈ recs, allFiveZero coin = true → survivingPair env coin = none) ∧
      (∀ coin ∈ recs, ∀ p, tickerPair env coin = some p →
        ∀ name ∈ ["max_bid", "min_ask", "best_bid", "best_ask", "volume"],
          fieldIsZero coin name = false → survivingPair env coin = some p ∧ p ∈ pairs) := by
  cases content with
  | ParseError => simp [ParseTradingPairs] at h
  | Parsed document =>
    cases document <;> simp [ParseTradingPairs, Value.IsArray, Value.GetArray] at h
    rename_i recs
    have hp := tradingPairLoop_ok env recs [] pairs h
    simp only [List.nil_append] at hp
    refine ⟨recs, rfl, hp, ?_, ?_⟩
    · intro coin _ hz
      simp [survivingPair, hz]
    · intro coin hcoin p hpair name hname hnz
      have hz : allFiveZero coin = false := by
        simp only [List.mem_cons, List.mem_singleton, List.not_mem_nil, or_false] at hname
        unfold allFiveZero
        rcases hname with e | e | e | e | e <;> subst e <;> simp [hnz]
      have hs : survivingPair env coin = some p := by
        simp [survivingPair, hz, hpair]
      refine ⟨hs, ?_⟩
      rw [hp, List.mem_filterMap]
      exact ⟨coin, hcoin, hs⟩

/-- Witness of C4 on `sampleTicker`: only ETH/BTC survives. -/
theorem trading_pairs_are_surviving_records_witness :
    ∃ recs, Document.Parsed sampleTicker = .Parsed (.array recs) ∧
      [(Coin.ETH, Coin.BTC)] = recs.filterMap (survivingPair sampleEnv) ∧
      (∀ coin ∈ recs, allFiveZero coin = true → survivingPair sampleEnv coin = none) ∧
      (∀ coin ∈ recs, ∀ p, tickerPair sampleEnv coin = some p →
        ∀ name ∈ ["max_bid", "min_ask", "best_bid", "best_ask", "volume"],
          fieldIsZero coin name = false →
            survivingPair sampleEnv coin = some p ∧ p ∈ [(Coin.ETH, Coin.BTC)]) :=
  trading_pairs_are_surviving_records sampleEnv (.Parsed sampleTicker)
    [(Coin.ETH, Coin.BTC)] rfl

/-! ## Price precision and minimum limits -/

theorem restrictionRecord_ok (env : Env CurrencySymbol) (coin : Value)
    (t t' : RestrictionTables CurrencySymbol)
    (h : restrictionRecord env coin t = .ok t') :
    match restrictionPair env coin with
    | none => t' = t
    | some pair =>
      ∃ s limit, priceScale coin = some s ∧ 0 ≤ s ∧ s ≤ (env.NUMBER_DECIMALS : Int) ∧
        minLimitQuantity env coin = some limit ∧
        t'.precisions = Map.insert t.precisions pair (tickSize env s pair.1) ∧
        t'.min_limit_quantity = Map.insert t.min_limit_quantity pair limit := by
  unfold restrictionRecord at h
  simp only [Except.bind_eq_ok] at h
  obtain ⟨b, _, h⟩ := h
  cases b <;> simp [Except.bind_eq_ok] at h
  obtain ⟨a, hm, str, hs, p0, h0, p1, h1, h⟩ := h
  obtain ⟨rest, hparts⟩ := vectorAt_zero_one _ p0 p1 h0 h1
  have hpair : restrictionPair env coin =
      match env.currency_FromStr p0, env.currency_FromStr p1 with
      | some from_c, some to_c => some (from_c, to_c)
      | _, _ => none := by
    unfold restrictionPair
    rw [hm]
    cases a <;> simp [Value.GetString] at hs
    subst hs
    simp only [pairOfString, hparts]
  rw [hpair]
  cases hf : env.currency_FromStr p0 with
  | none => rw [hf] at h; simp at h; simp [h]
  | some from_c =>
    cases ht : env.currency_FromStr p1 with
    | none => rw [hf, ht] at h; simp at h; simp [h]
    | some to_c =>
      rw [hf, ht] at h
      simp only [Except.bind_eq_ok] at h
      obtain ⟨b, _, h⟩ := h
      cases b <;> simp [Except.bind_eq_ok] at h
      obtain ⟨v, hv, s, hsc, h⟩ := h
      by_cases hr : (env.NUMBER_DECIMALS : Int) < s ∨ s < 0
      · rw [if_pos hr] at h; cases h
      rw [if_neg hr] at h
      simp only [Except.bind_eq_ok] at h
      obtain ⟨b, _, h⟩ := h
      cases b <;> simp [Except.bind_eq_ok] at h
      obtain ⟨w, hw, d, hd, h⟩ := h
      cases hl : env.Number_FromDouble d with
      | none => rw [hl] at h; cases h
      | some limit =>
        rw [hl] at h
        simp only [Except.ok.injEq] at h
        subst h
        simp only [not_or, not_lt] at hr
        refine ⟨s, limit, ?_, hr.2, hr.1, ?_, rfl, rfl⟩
        · simp [priceScale, hv, hsc]
        · simp [minLimitQuantity, hw, hd, hl]

theorem restrictionLoop_append (env : Env CurrencySymbol) (l1 l2 : List Value) :
    ∀ (t t' : RestrictionTables CurrencySymbol),
      restrictionLoop env (l1 ++ l2) t = .ok t' →
        ∃ t1, restrictionLoop env l1 t = .ok t1 ∧ restrictionLoop env l2 t1 = .ok t' := by
  induction l1 with
  | nil => intro t t' h; exact ⟨t, rfl, h⟩
  | cons c rest ih =>
    intro t t' h
    simp only [List.cons_append, restrictionLoop, Except.bind_eq_ok] at h ⊢
    obtain ⟨t0, h0, h⟩ := h
    obtain ⟨t1, h1, h2⟩ := ih t0 t' h
    exact ⟨t1, ⟨t0, h0, h1⟩, h2⟩

/-- Entries of the two tables are never replaced by a later record. -/
theorem restrictionLoop_keeps (env : Env CurrencySymbol) (recs : List Value) :
    ∀ (t t' : RestrictionTables CurrencySymbol) (key : CurrencySymbol × CurrencySymbol),
      restrictionLoop env recs t = .ok t' →
        (∀ x, Map.find t.precisions key = some x → Map.find t'.precisions key = some x) ∧
        (∀ x, Map.find t.min_limit_quantity key = some x →
          Map.find t'.min_limit_quantity key = some x) := by
  induction recs with
  | nil => intro t t' key h; simp [restrictionLoop] at h; subst h; exact ⟨fun _ h => h, fun _ h => h⟩
  | cons coin rest ih =>
    intro t t' key h
    simp only [restrictionLoop, Except.bind_eq_ok] at h
    obtain ⟨t1, h1, h2⟩ := h
    obtain ⟨ihp, ihl⟩ := ih t1 t' key h2
    have hrec := restrictionRecord_ok env coin t t1 h1
    cases hp : restrictionPair env coin with
    | none =>
      rw [hp] at hrec
      simp only at hrec
      subst hrec
      exact ⟨ihp, ihl⟩
    | some pair =>
      rw [hp] at hrec
      obtain ⟨s, limit, _, _, _, _, e1, e2⟩ := hrec
      refine ⟨fun x hx => ihp x ?_, fun x hx => ihl x ?_⟩
      · rw [e1]; exact Map.find_insert_of_some _ _ _ _ _ hx
      · rw [e2]; exact Map.find_insert_of_some _ _ _ _ _ hx

/-- Records of other pairs leave the entries of a key as they are. -/
theorem restrictionLoop_skips (env : Env CurrencySymbol) (recs : List Value) :
    ∀ (t t' : RestrictionTables CurrencySymbol) (key : CurrencySymbol × CurrencySymbol),
      restrictionLoop env recs t = .ok t' →
      (∀ c ∈ recs, restrictionPair env c ≠ some key) →
        Map.find t'.precisions key = Map.find t.precisions key ∧
        Map.find t'.min_limit_quantity key = Map.find t.min_limit_quantity key := by
  induction recs with
  | nil => intro t t' key h _; simp [restrictionLoop] at h; subst h; exact ⟨rfl, rfl⟩
  | cons coin rest ih =>
    intro t t' key h hne
    simp only [restrictionLoop, Except.bind_eq_ok] at h
    obtain ⟨t1, h1, h2⟩ := h
    obtain ⟨ihp, ihl⟩ := ih t1 t' key h2 (fun c hc => hne c (List.mem_cons_of_mem _ hc))
    have hrec := restrictionRecord_ok env coin t t1 h1
    have hcoin := hne coin (List.mem_cons_self _ _)
    cases hp : restrictionPair env coin with
    | none =>
      rw [hp] at hrec
      simp only at hrec
      subst hrec
      exact ⟨ihp, ihl⟩
    | some pair =>
      rw [hp] at hrec hcoin
      obtain ⟨s, limit, _, _, _, _, e1, e2⟩ := hrec
      have hk : pair ≠ key := fun e => hcoin (by rw [e])
      rw [ihp, ihl, e1, e2]
      exact ⟨Map.find_insert_of_ne _ _ _ _ hk, Map.find_insert_of_ne _ _ _ _ hk⟩

/-- What the first record of a pair contributes is what both tables hold for
that pair at the end of the loop. -/
theorem restrictionLoop_first (env : Env CurrencySymbol) (pre post : List Value) (coin : Value)
    (t' : RestrictionTables CurrencySymbol) (pair : CurrencySymbol × CurrencySymbol)
    (h : restrictionLoop env (pre ++ coin :: post) ⟨[], []⟩ = .ok t')
    (hpair : restrictionPair env coin = some pair)
    (hfirst : ∀ c ∈ pre, restrictionPair env c ≠ some pair) :
    ∃ s limit, priceScale coin = some s ∧ 0 ≤ s ∧ s ≤ (env.NUMBER_DECIMALS : Int) ∧
      minLimitQuantity env coin = some limit ∧
      Map.find t'.precisions pair = some (tickSize env s pair.1) ∧
      Map.find t'.min_limit_quantity pair = some limit := by
  obtain ⟨t1, h1, h2⟩ := restrictionLoop_append env pre (coin :: post) _ t' h
  obtain ⟨hp1, hl1⟩ := restrictionLoop_skips env pre _ t1 pair h1 hfirst
  simp only [restrictionLoop, Except.bind_eq_ok] at h2
  obtain ⟨t2, hrec, h3⟩ := h2
  have hrec := restrictionRecord_ok env coin t1 t2 hrec
  rw [hpair] at hrec
  obtain ⟨s, limit, hs, h0, hD, hl, e1, e2⟩ := hrec
  obtain ⟨kp, kl⟩ := restrictionLoop_keeps env post t2 t' pair h3
  refine ⟨s, limit, hs, h0, hD, hl, kp _ ?_, kl _ ?_⟩
  · rw [e1]; exact Map.find_insert_self _ _ _ (by rw [hp1]; rfl)
  · rw [e2]; exact Map.find_insert_self _ _ _ (by rw [hl1]; rfl)

theorem buildExchangeLimitsPrecision_loop (env : Env CurrencySymbol) (root : Value)
    (recs : List Value) (t : RestrictionTables CurrencySymbol)
    (hrecs : root.member "restrictions" = .ok (.array recs))
    (h : buildExchangeLimitsPrecision env (.Parsed root) = .ok t) :
    restrictionLoop env recs ⟨[], []⟩ = .ok t := by
  simp only [buildExchangeLimitsPrecision, Except.bind_eq_ok] at h
  obtain ⟨_, _, b, _, h⟩ := h
  cases b <;> simp [Except.bind_eq_ok, hrecs, Value.IsArray, Value.GetArray] at h
  exact h

theorem ParseExchangeLimitsPrecision_accepts (env : Env CurrencySymbol) (content : Document)
    (self : Exchange CurrencySymbol) (limits : limit_quantities_t CurrencySymbol)
    (h : (ParseExchangeLimitsPrecision env content self).1 = .ok limits) :
    ∃ t, buildExchangeLimitsPrecision env content = .ok t ∧ limits = t.min_limit_quantity ∧
      (ParseExchangeLimitsPrecision env content self).2 = self.SetPricePrecisions t.precisions := by
  unfold ParseExchangeLimitsPrecision at h ⊢
  cases hb : buildExchangeLimitsPrecision env content with
  | error e => rw [hb] at h; cases h
  | ok t =>
    rw [hb] at h
    simp only [Except.ok.injEq] at h
    exact ⟨t, rfl, h.symm, rfl⟩

theorem restrictionPair_some (env : Env CurrencySymbol) (coin : Value)
    (pair : CurrencySymbol × CurrencySymbol) (h : restrictionPair env coin = some pair) :
    ∃ ms str p0 p1 rest, coin = .object ms ∧
      Value.FindMember ms "currencyPair" = some (.string str) ∧
      split (c_str str) = p0 :: p1 :: rest ∧
      env.currency_FromStr p0 = some pair.1 ∧ env.currency_FromStr p1 = some pair.2 := by
  unfold restrictionPair at h
  cases coin <;> simp [Value.member] at h
  rename_i ms
  cases hm : Value.FindMember ms "currencyPair" with
  | none => simp [hm] at h
  | some v =>
    cases v <;> simp [hm] at h
    rename_i str
    unfold pairOfString at h
    match hsp : split (c_str str), h with
    | [], h => simp [hsp] at h
    | [_], h => simp [hsp] at h
    | p0 :: p1 :: rest, h =>
      cases hf : env.currency_FromStr p0 with
      | none => simp [hsp, hf] at h
      | some a =>
        cases ht : env.currency_FromStr p1 with
        | none => simp [hsp, hf, ht] at h
        | some b =>
          simp [hsp, hf, ht] at h
          subst h
          exact ⟨ms, str, p0, p1, rest, rfl, hm, hsp, hf, ht⟩

/-- Outcome of one restrictions record that carries a recognized pair, a
`priceScale` that `GetInt64` reads when present, and a convertible
`minLimitQuantity`. -/
theorem restrictionRecord_outcome (env : Env CurrencySymbol) (coin : Value)
    (t : RestrictionTables CurrencySymbol) (pair : CurrencySymbol × CurrencySymbol)
    (limit : Number)
    (hpair : restrictionPair env coin = some pair)
    (hscale : coin.HasMember "priceScale" = .ok true → ∃ s, priceScale coin = some s)
    (hlimit : minLimitQuantity env coin = some limit) :
    (scaleRejected env coin →
      ∃ msg, restrictionRecord env coin t = .error (.runtime_error msg)) ∧
    (¬ scaleRejected env coin → ∃ t', restrictionRecord env coin t = .ok t') := by
  unfold scaleRejected scaleOutOfRange
  obtain ⟨ms, str, p0, p1, rest, hcoin, hm, hsp, hf, ht⟩ := restrictionPair_some env coin pair hpair
  subst hcoin
  have hlim : ∃ w d, Value.FindMember ms "minLimitQuantity" = some w ∧ w.GetDouble = .ok d ∧
      env.Number_FromDouble d = some limit := by
    unfold minLimitQuantity at hlimit
    simp only [Value.member] at hlimit
    cases hw : Value.FindMember ms "minLimitQuantity" with
    | none => simp [hw] at hlimit
    | some w =>
      cases hd : w.GetDouble with
      | error e => simp [hw, hd] at hlimit
      | ok d => simp [hw, hd] at hlimit; exact ⟨w, d, rfl, hd, hlimit⟩
  obtain ⟨w, d, hw, hd, hconv⟩ := hlim
  cases hps : Value.FindMember ms "priceScale" with
  | none =>
    refine ⟨fun _ => ⟨"Missing priceScale", ?_⟩, fun hn => absurd (Or.inl ?_) hn⟩
    · simp [restrictionRecord, Value.HasMember, Value.member, hm, Value.GetString, hsp,
        vectorAt, hf, ht, hps]
    · simp [Value.HasMember, hps]
  | some v =>
    obtain ⟨s, hs⟩ := hscale (by simp [Value.HasMember, hps])
    have hv : v.GetInt64 = .ok s := by
      unfold priceScale at hs
      simp only [Value.member, hps, Except.pure_eq_ok, Except.ok_bind] at hs
      cases hg : v.GetInt64 with
      | error e => simp [hg] at hs
      | ok s' => simp [hg] at hs; rw [hs]
    have hhas : ¬ (Value.object ms).HasMember "priceScale" = .ok false := by
      simp [Value.HasMember, hps]
    by_cases hr : s < 0 ∨ (env.NUMBER_DECIMALS : Int) < s
    · refine ⟨fun _ => ⟨"tradePrecision should be between 0 and NUMBER_DECIMALS included", ?_⟩,
        fun hn => absurd (Or.inr ⟨s, hs, hr⟩) hn⟩
      have hr' : (env.NUMBER_DECIMALS : Int) < s ∨ s < 0 := hr.symm
      simp [restrictionRecord, Value.HasMember, Value.member, hm, Value.GetString, hsp,
        vectorAt, hf, ht, hps, hv, hr']
    · refine ⟨fun hb => ?_, fun _ => ?_⟩
      · rcases hb with hb | ⟨s', hs', hb⟩
        · exact absurd hb hhas
        · rw [hs] at hs'
          cases hs'
          exact absurd hb hr
      · have hr' : ¬ ((env.NUMBER_DECIMALS : Int) < s ∨ s < 0) := fun h => hr h.symm
        simp [restrictionRecord, Value.HasMember, Value.member, hm, Value.GetString, hsp,
          vectorAt, hf, ht, hps, hv, hr', hw, hd, hconv]

/-- Outcome of the loop over records that all carry a recognized pair, a
`priceScale` that `GetInt64` reads when present, and a convertible
`minLimitQuantity`. -/
theorem restrictionLoop_outcome (env : Env CurrencySymbol) (recs : List Value)
    (hpair : ∀ c ∈ recs, (restrictionPair env c).isSome = true)
    (hscale : ∀ c ∈ recs, c.HasMember "priceScale" = .ok true → ∃ s, priceScale c = some s)
    (hlimit : ∀ c ∈ recs, (minLimitQuantity env c).isSome = true) :
    ∀ t : RestrictionTables CurrencySymbol,
      ((∃ c ∈ recs, scaleRejected env c) →
        ∃ msg, restrictionLoop env recs t = .error (.runtime_error msg)) ∧
      ((¬ ∃ c ∈ recs, scaleRejected env c) → ∃ t', restrictionLoop env recs t = .ok t') := by
  induction recs with
  | nil =>
    intro t
    exact ⟨fun ⟨c, hc, _⟩ => absurd hc (List.not_mem_nil c), fun _ => ⟨t, rfl⟩⟩
  | cons coin rest ih =>
    intro t
    have hp := hpair coin (List.mem_cons_self _ _)
    have hl := hlimit coin (List.mem_cons_self _ _)
    obtain ⟨pair, hp⟩ := Option.isSome_iff_exists.1 hp
    obtain ⟨limit, hl⟩ := Option.isSome_iff_exists.1 hl
    obtain ⟨hbad, hgood⟩ := restrictionRecord_outcome env coin t pair limit hp
      (hscale coin (List.mem_cons_self _ _)) hl
    have ih' := ih (fun c hc => hpair c (List.mem_cons_of_mem _ hc))
      (fun c hc => hscale c (List.mem_cons_of_mem _ hc))
      (fun c hc => hlimit c (List.mem_cons_of_mem _ hc))
    by_cases hc : scaleRejected env coin
    · obtain ⟨msg, hmsg⟩ := hbad hc
      refine ⟨fun _ => ⟨msg, ?_⟩, fun hn => absurd ⟨coin, List.mem_cons_self _ _, hc⟩ hn⟩
      simp [restrictionLoop, hmsg]
    · obtain ⟨t1, ht1⟩ := hgood hc
      obtain ⟨ihbad, ihgood⟩ := ih' t1
      refine ⟨fun ⟨c, hcm, hcb⟩ => ?_, fun hn => ?_⟩
      · have hcr : c ∈ rest := by
          cases hcm with
          | head => exact absurd hcb hc
          | tail _ h => exact h
        obtain ⟨msg, hmsg⟩ := ihbad ⟨c, hcr, hcb⟩
        exact ⟨msg, by simp [restrictionLoop, ht1, hmsg]⟩
      · obtain ⟨t', ht'⟩ := ihgood (fun ⟨c, hcm, hcb⟩ => hn ⟨c, List.mem_cons_of_mem _ hcm, hcb⟩)
        exact ⟨t', by simp [restrictionLoop, ht1, ht']⟩

/-- With `success` true and an array `restrictions`, the part of
`ParseExchangeLimitsPrecision` before the table is published is its loop. -/
theorem buildExchangeLimitsPrecision_eq_loop (env : Env CurrencySymbol) (root : Value)
    (recs : List Value)
    (hsuccess : root.member "success" = .ok (.boolean true))
    (hrecs : root.member "restrictions" = .ok (.array recs)) :
    buildExchangeLimitsPrecision env (.Parsed root) = restrictionLoop env recs ⟨[], []⟩ := by
  cases root <;> simp [Value.member] at hsuccess
  rename_i ms
  cases h1 : Value.FindMember ms "success" with
  | none => simp [h1] at hsuccess
  | some v1 =>
    cases h2 : Value.FindMember ms "restrictions" with
    | none => simp [Value.member, h2] at hrecs
    | some v2 =>
      simp [h1] at hsuccess
      simp [Value.member, h2] at hrecs
      subst hsuccess hrecs
      simp [buildExchangeLimitsPrecision, checkSuccess, Value.HasMember, Value.member, h1, h2,
        Value.IsBool, Value.GetBool, Value.IsArray, Value.GetArray]

/-- C5, counterexample: in an accepted response with two records for BTC/ETH,
of scales 2 and 3, the second record has a recognized pair and a scale within
`[0, D]`, and yet the tick size of `(BTC, ETH)` in the table handed to
`SetPricePrecisions` is the one of scale 2, which differs from the one of
scale 3. -/
theorem tick_size_second_record_counterexample :
    restrictionPair sampleEnv (.object [("currencyPair", .string "BTC/ETH"),
        ("priceScale", .int 3), ("minLimitQuantity", .int 1)]) = some (Coin.BTC, Coin.ETH) ∧
      priceScale (.object [("currencyPair", .string "BTC/ETH"),
        ("priceScale", .int 3), ("minLimitQuantity", .int 1)]) = some 3 ∧
      (∃ t : RestrictionTables Coin, ParseExchangeLimitsPrecision sampleEnv (.Parsed sampleRestrictionsTwice)
          emptyExchange
          = (.ok t.min_limit_quantity, emptyExchange.SetPricePrecisions t.precisions) ∧
        Map.find t.precisions (Coin.BTC, Coin.ETH) = some (tickSize sampleEnv 2 Coin.BTC)) ∧
      tickSize sampleEnv 2 Coin.BTC ≠ tickSize sampleEnv 3 Coin.BTC := by
  refine ⟨rfl, rfl, ⟨⟨_, _⟩, rfl, rfl⟩, ?_⟩
  decide

/-- C5, amended: in an accepted restrictions response, the first record that
carries the recognized pair `(A, B)`, of integer `priceScale` `s`, has
`0 ≤ s ≤ D` and fixes the tick size of `(A, B)` in the table handed to
`SetPricePrecisions`: it is `10^(D - s)` in the base asset `A`, which is `1`
for `s = D` and `10^D` for `s = 0`. -/
theorem first_record_fixes_tick_size (env : Env CurrencySymbol) (root : Value)
    (pre post : List Value) (coin : Value) (self : Exchange CurrencySymbol)
    (limits : limit_quantities_t CurrencySymbol) (A B : CurrencySymbol) (s : Int)
    (haccept : (ParseExchangeLimitsPrecision env (.Parsed root) self).1 = .ok limits)
    (hrecs : root.member "restrictions" = .ok (.array (pre ++ coin :: post)))
    (hpair : restrictionPair env coin = some (A, B))
    (hfirst : ∀ c ∈ pre, restrictionPair env c ≠ some (A, B))
    (hscale : priceScale coin = some s) :
    0 ≤ s ∧ s ≤ (env.NUMBER_DECIMALS : Int) ∧
      ∃ t : RestrictionTables CurrencySymbol, ParseExchangeLimitsPrecision env (.Parsed root) self
          = (.ok t.min_limit_quantity, self.SetPricePrecisions t.precisions) ∧
        Map.find t.precisions (A, B)
          = some ⟨⟨10 ^ ((env.NUMBER_DECIMALS : Int) - s).toNat⟩, A⟩ ∧
        (s = (env.NUMBER_DECIMALS : Int) → Map.find t.precisions (A, B) = some ⟨⟨1⟩, A⟩) ∧
        (s = 0 → Map.find t.precisions (A, B) = some ⟨⟨10 ^ env.NUMBER_DECIMALS⟩, A⟩) := by
  obtain ⟨t, ht, _, _⟩ := ParseExchangeLimitsPrecision_accepts env _ self limits haccept
  have hloop := buildExchangeLimitsPrecision_loop env root _ t hrecs ht
  obtain ⟨s', limit, hs', h0, hD, _, hfind, _⟩ :=
    restrictionLoop_first env pre post coin t (A, B) hloop hpair hfirst
  rw [hscale] at hs'
  cases hs'
  have hfind' : Map.find t.precisions (A, B)
      = some ⟨⟨10 ^ ((env.NUMBER_DECIMALS : Int) - s).toNat⟩, A⟩ := hfind
  refine ⟨h0, hD, t, ?_, hfind', fun e => ?_, fun e => ?_⟩
  · simp only [ParseExchangeLimitsPrecision, ht]
  · rw [hfind', e]
    simp
  · rw [hfind', e]
    simp

/-- Witness of the amended C5: the first record of `sampleRestrictionsTwice`. -/
theorem first_record_fixes_tick_size_witness :
    0 ≤ (2 : Int) ∧ (2 : Int) ≤ (sampleEnv.NUMBER_DECIMALS : Int) ∧
      ∃ t : RestrictionTables Coin, ParseExchangeLimitsPrecision sampleEnv
          (.Parsed sampleRestrictionsTwice) emptyExchange
          = (.ok t.min_limit_quantity, emptyExchange.SetPricePrecisions t.precisions) ∧
        Map.find t.precisions (Coin.BTC, Coin.ETH)
          = some ⟨⟨10 ^ ((sampleEnv.NUMBER_DECIMALS : Int) - 2).toNat⟩, Coin.BTC⟩ ∧
        ((2 : Int) = (sampleEnv.NUMBER_DECIMALS : Int) →
          Map.find t.precisions (Coin.BTC, Coin.ETH) = some ⟨⟨1⟩, Coin.BTC⟩) ∧
        ((2 : Int) = 0 →
          Map.find t.precisions (Coin.BTC, Coin.ETH)
            = some ⟨⟨10 ^ sampleEnv.NUMBER_DECIMALS⟩, Coin.BTC⟩) :=
  first_record_fixes_tick_size sampleEnv sampleRestrictionsTwice []
    [.object [("currencyPair", .string "BTC/ETH"), ("priceScale", .int 3),
      ("minLimitQuantity", .int 1)]]
    (.object [("currencyPair", .string "BTC/ETH"), ("priceScale", .int 2),
      ("minLimitQuantity", .int 1)])
    emptyExchange [((Coin.BTC, Coin.ETH), ⟨100000000⟩)] Coin.BTC Coin.ETH 2
    (by rfl) (by rfl) (by rfl) (fun _ h => absurd h (List.not_mem_nil _)) (by rfl)

/-- C6, counterexample: the only record of `sampleRestrictionsNoScale` carries
a recognized pair and a `minLimitQuantity`, no record has a `priceScale` less
than `0` or greater than `D`, and yet the parse fails with a hard error, the
one for a missing `priceScale`. -/
theorem precision_fails_without_scale_counterexample :
    (ParseExchangeLimitsPrecision sampleEnv (.Parsed sampleRestrictionsNoScale) emptyExchange).1
        = .error (.runtime_error "Missing priceScale") ∧
      (∀ c ∈ [Value.object [("currencyPair", .string "BTC/ETH"), ("minLimitQuantity", .int 1)]],
        restrictionPair sampleEnv c = some (Coin.BTC, Coin.ETH) ∧
          minLimitQuantity sampleEnv c = some ⟨100000000⟩) ∧
      ¬ ∃ c ∈ [Value.object [("currencyPair", .string "BTC/ETH"), ("minLimitQuantity", .int 1)]],
        scaleOutOfRange sampleEnv c := by
  refine ⟨rfl, ?_, ?_⟩
  · intro c hc
    rw [List.mem_singleton] at hc
    subst hc
    exact ⟨rfl, rfl⟩
  · rintro ⟨c, hc, s, hs, _⟩
    rw [List.mem_singleton] at hc
    subst hc
    simp [priceScale, Value.member, Value.FindMember] at hs

/-- C6, amended: for a restrictions response with `success` true and an array
`restrictions` whose records all carry a recognized pair, a `priceScale` that
is an int64 integer whenever it is present, and a numeric `minLimitQuantity`
that converts to a decimal, `ParseExchangeLimitsPrecision` throws exactly when
some record has no `priceScale` or one less than `0` or greater than `D`, and
returns otherwise; a record of scale `D + 1` or `-1` makes it throw; and when
it throws the exchange state, its precision table included, is left as it
was. -/
theorem precision_fails_iff_scale_rejected (env : Env CurrencySymbol) (root : Value)
    (recs : List Value) (self : Exchange CurrencySymbol)
    (hsuccess : root.member "success" = .ok (.boolean true))
    (hrecs : root.member "restrictions" = .ok (.array recs))
    (hpair : ∀ c ∈ recs, (restrictionPair env c).isSome = true)
    (hscale : ∀ c ∈ recs, c.HasMember "priceScale" = .ok true → ∃ s, priceScale c = some s)
    (hlimit : ∀ c ∈ recs, (minLimitQuantity env c).isSome = true) :
    ((∃ msg, (ParseExchangeLimitsPrecision env (.Parsed root) self).1
        = .error (.runtime_error msg)) ↔ ∃ c ∈ recs, scaleRejected env c) ∧
    ((∃ limits, (ParseExchangeLimitsPrecision env (.Parsed root) self).1 = .ok limits) ↔
      ¬ ∃ c ∈ recs, scaleRejected env c) ∧
    (∀ c ∈ recs, (priceScale c = some ((env.NUMBER_DECIMALS : Int) + 1) ∨
        priceScale c = some (-1)) →
      ∃ msg, (ParseExchangeLimitsPrecision env (.Parsed root) self).1
        = .error (.runtime_error msg)) ∧
    (∀ e, (ParseExchangeLimitsPrecision env (.Parsed root) self).1 = .error e →
      (ParseExchangeLimitsPrecision env (.Parsed root) self).2 = self) := by
  have hb := buildExchangeLimitsPrecision_eq_loop env root recs hsuccess hrecs
  obtain ⟨hbad, hgood⟩ := restrictionLoop_outcome env recs hpair hscale hlimit ⟨[], []⟩
  have key : ((∃ msg, (ParseExchangeLimitsPrecision env (.Parsed root) self).1
        = .error (.runtime_error msg)) ↔ ∃ c ∈ recs, scaleRejected env c) ∧
      ((∃ limits, (ParseExchangeLimitsPrecision env (.Parsed root) self).1 = .ok limits) ↔
        ¬ ∃ c ∈ recs, scaleRejected env c) ∧
      (∀ e, (ParseExchangeLimitsPrecision env (.Parsed root) self).1 = .error e →
        (ParseExchangeLimitsPrecision env (.Parsed root) self).2 = self) := by
    simp only [ParseExchangeLimitsPrecision, hb]
    by_cases hex : ∃ c ∈ recs, scaleRejected env c
    · obtain ⟨msg, hmsg⟩ := hbad hex
      rw [hmsg]
      refine ⟨⟨fun _ => hex, fun _ => ⟨msg, rfl⟩⟩, ⟨fun ⟨_, h⟩ => (by cases h), fun h => absurd hex h⟩,
        fun _ _ => rfl⟩
    · obtain ⟨t', ht'⟩ := hgood hex
      rw [ht']
      refine ⟨⟨fun ⟨_, h⟩ => (by cases h), fun h => absurd h hex⟩,
        ⟨fun _ => hex, fun _ => ⟨_, rfl⟩⟩, fun _ h => (by cases h)⟩
  refine ⟨key.1, key.2.1, ?_, key.2.2⟩
  intro c hc hs
  refine key.1.2 ⟨c, hc, Or.inr ?_⟩
  rcases hs with hs | hs
  · exact ⟨_, hs, Or.inr (by omega)⟩
  · exact ⟨_, hs, Or.inl (by omega)⟩

/-- Witness of the amended C6 on `sampleRestrictionsNine`, whose second record
has the scale `D + 1`. -/
theorem precision_fails_iff_scale_rejected_witness :
    ∃ msg, (ParseExchangeLimitsPrecision sampleEnv (.Parsed sampleRestrictionsNine)
      emptyExchange).1 = .error (.runtime_error msg) :=
  (precision_fails_iff_scale_rejected sampleEnv sampleRestrictionsNine
    [.object [("currencyPair", .string "BCH/BTC"), ("priceScale", .int 4),
      ("minLimitQuantity", .int 1)],
    .object [("currencyPair", .string "BTC/ETH"), ("priceScale", .int 9),
      ("minLimitQuantity", .int 1)]]
    emptyExchange rfl rfl
    (by intro c hc; simp only [List.mem_cons, List.mem_singleton, List.not_mem_nil, or_false] at hc
        rcases hc with e | e <;> subst e <;> rfl)
    (by intro c hc _; simp only [List.mem_cons, List.mem_singleton, List.not_mem_nil, or_false] at hc
        rcases hc with e | e <;> subst e
        · exact ⟨4, rfl⟩
        · exact ⟨9, rfl⟩)
    (by intro c hc; simp only [List.mem_cons, List.mem_singleton, List.not_mem_nil, or_false] at hc
        rcases hc with e | e <;> subst e <;> rfl)).2.2.1
    (.object [("currencyPair", .string "BTC/ETH"), ("priceScale", .int 9),
      ("minLimitQuantity", .int 1)])
    (by simp) (Or.inl rfl)

/-! ## Publication of the tables -/

theorem ParseExchangeFees_accepts (env : Env CurrencySymbol) (content : Document)
    (pairs : trading_pairs_t CurrencySymbol) (limits : limit_quantities_t CurrencySymbol)
    (self : Exchange CurrencySymbol)
    (h : (ParseExchangeFees env content pairs limits self).1 = .ok ()) :
    ∃ fees, buildExchangeFees env content pairs limits = .ok fees ∧
      (ParseExchangeFees env content pairs limits self).2 = self.SetExchangeFees fees := by
  unfold ParseExchangeFees at h ⊢
  cases hb : buildExchangeFees env content pairs limits with
  | error e => rw [hb] at h; cases h
  | ok fees => exact ⟨fees, rfl, rfl⟩

/-- C7, counterexample: `sampleCoinInfo` is accepted and the withdraw-fee table
computed from it is empty, yet afterwards the exchange still has the withdraw
fee for ETH of the state before. -/
theorem withdraw_table_kept_counterexample :
    (ParseDepositWithdrawFees sampleEnv (.Parsed sampleCoinInfo) samplePrior).1 = .ok () ∧
      (∃ t, buildDepositWithdrawFees sampleEnv (.Parsed sampleCoinInfo) = .ok t ∧
        t.withdraw_fees = []) ∧
      (ParseDepositWithdrawFees sampleEnv (.Parsed sampleCoinInfo) samplePrior).2.withdraw_fees
        = samplePrior.withdraw_fees ∧
      samplePrior.withdraw_fees ≠ [] := by
  refine ⟨rfl, ⟨_, rfl, rfl⟩, rfl, ?_⟩
  decide

/-- C7, amended: after an accepted `ParseDepositWithdrawFees` the supported set
is the one computed from the response, and each of the withdraw-fee and
deposit-fee tables is the one computed from the response when that one is not
empty and the table of the state before when it is empty; after an accepted
`ParseExchangeLimitsPrecision` the precision table, and after an accepted
`ParseExchangeFees` the exchange-fee table, is the one computed from the
response; every other table is left as it was. -/
theorem accepted_parse_publishes_tables (env : Env CurrencySymbol)
    (coinInfo restrictions commission : Document) (pairs : trading_pairs_t CurrencySymbol)
    (limits limits' : limit_quantities_t CurrencySymbol) (self : Exchange CurrencySymbol)
    (h1 : (ParseDepositWithdrawFees env coinInfo self).1 = .ok ())
    (h2 : (ParseExchangeLimitsPrecision env restrictions self).1 = .ok limits')
    (h3 : (ParseExchangeFees env commission pairs limits self).1 = .ok ()) :
    (∃ t, buildDepositWithdrawFees env coinInfo = .ok t ∧
      (ParseDepositWithdrawFees env coinInfo self).2.supported_currencies = t.currencies ∧
      (t.withdraw_fees ≠ [] →
        (ParseDepositWithdrawFees env coinInfo self).2.withdraw_fees = t.withdraw_fees) ∧
      (t.withdraw_fees = [] →
        (ParseDepositWithdrawFees env coinInfo self).2.withdraw_fees = self.withdraw_fees) ∧
      (t.deposit_fees ≠ [] →
        (ParseDepositWithdrawFees env coinInfo self).2.deposit_fees = t.deposit_fees) ∧
      (t.deposit_fees = [] →
        (ParseDepositWithdrawFees env coinInfo self).2.deposit_fees = self.deposit_fees) ∧
      (ParseDepositWithdrawFees env coinInfo self).2.price_precisions = self.price_precisions ∧
      (ParseDepositWithdrawFees env coinInfo self).2.exchange_fees = self.exchange_fees) ∧
    (∃ t, buildExchangeLimitsPrecision env restrictions = .ok t ∧
      (ParseExchangeLimitsPrecision env restrictions self).2 =
        { self with price_precisions := t.precisions }) ∧
    (∃ fees, buildExchangeFees env commission pairs limits = .ok fees ∧
      (ParseExchangeFees env commission pairs limits self).2 =
        { self with exchange_fees := fees }) := by
  obtain ⟨t1, hb1, hp1⟩ := ParseDepositWithdrawFees_accepts env coinInfo self h1
  obtain ⟨t2, hb2, _, hp2⟩ := ParseExchangeLimitsPrecision_accepts env restrictions self limits' h2
  obtain ⟨fees, hb3, hp3⟩ := ParseExchangeFees_accepts env commission pairs limits self h3
  refine ⟨⟨t1, hb1, ?_⟩, ⟨t2, hb2, hp2⟩, ⟨fees, hb3, hp3⟩⟩
  rw [hp1]
  unfold publishDepositWithdrawFees
  simp only [Exchange.SetSupportedCurrencies, Exchange.SetWithdrawFees, Exchange.SetDepositFees]
  cases hw : t1.withdraw_fees <;> cases hd : t1.deposit_fees <;> simp

/-- Witness of the amended C7 on the sample responses. -/
theorem accepted_parse_publishes_tables_witness :
    ∃ fees, buildExchangeFees sampleEnv (.Parsed sampleCommission) [(Coin.BTC, Coin.ETH)]
        sampleLimits = .ok fees ∧
      (ParseExchangeFees sampleEnv (.Parsed sampleCommission) [(Coin.BTC, Coin.ETH)]
        sampleLimits samplePrior).2 = { samplePrior with exchange_fees := fees } :=
  (accepted_parse_publishes_tables sampleEnv (.Parsed sampleCoinInfo)
    (.Parsed sampleRestrictionsTwice) (.Parsed sampleCommission) [(Coin.BTC, Coin.ETH)]
    sampleLimits [((Coin.BTC, Coin.ETH), ⟨100000000⟩)] samplePrior (by rfl) (by rfl) (by rfl)).2.2

/-! ## Two runs of the chain -/

theorem Map.find_eq_none {K V : Type} [DecidableEq K] (m : Map K V) (k : K) :
    Map.find m k = none ↔ k ∉ m.map Prod.fst := by
  induction m with
  | nil => simp [Map.find]
  | cons p rest ih =>
    obtain ⟨k0, v0⟩ := p
    by_cases h : k0 = k
    · simp [Map.find, h]
    · simp only [Map.find, h, if_false, List.map_cons, List.mem_cons, not_or]
      rw [ih]
      exact ⟨fun h' => ⟨fun e => h e.symm, h'⟩, fun h' => h'.2⟩

theorem Map.insert_nodup {K V : Type} [DecidableEq K] (m : Map K V) (k : K) (v : V)
    (h : (m.map Prod.fst).Nodup) : ((Map.insert m k v).map Prod.fst).Nodup := by
  unfold Map.insert
  cases hf : Map.find m k with
  | some x => exact h
  | none =>
    have hk := (Map.find_eq_none m k).1 hf
    simp only [List.map_append, List.map_cons, List.map_nil]
    rw [List.nodup_append]
    refine ⟨h, List.nodup_singleton k, ?_⟩
    intro a ha hb
    rw [List.mem_singleton] at hb
    exact hk (hb ▸ ha)

theorem CurrenciesSet.insert_keeps_nodup {S : Type} [DecidableEq S] (s : CurrenciesSet S) (x : S)
    (h : List.Nodup s) : List.Nodup (CurrenciesSet.insert s x) := by
  unfold CurrenciesSet.insert
  by_cases hx : x ∈ s
  · simp only [hx, if_true]; exact h
  · simp only [hx, if_false]
    rw [List.nodup_append]
    refine ⟨h, List.nodup_singleton x, ?_⟩
    intro a ha hb
    rw [List.mem_singleton] at hb
    exact hx (hb ▸ ha)

theorem coinInfoLoop_nodup (env : Env CurrencySymbol) (recs : List Value) :
    ∀ (t t' : CoinInfoTables CurrencySymbol), coinInfoLoop env recs t = .ok t' →
      List.Nodup t.currencies ∧ (t.withdraw_fees.map Prod.fst).Nodup ∧
        (t.deposit_fees.map Prod.fst).Nodup →
      List.Nodup t'.currencies ∧ (t'.withdraw_fees.map Prod.fst).Nodup ∧
        (t'.deposit_fees.map Prod.fst).Nodup := by
  induction recs with
  | nil => intro t t' h hn; simp [coinInfoLoop] at h; subst h; exact hn
  | cons coin rest ih =>
    intro t t' h hn
    simp only [coinInfoLoop, Except.bind_eq_ok] at h
    obtain ⟨t1, h1, h2⟩ := h
    refine ih t1 t' h2 ?_
    have hrec := coinInfoRecord_ok env coin t t1 h1
    cases hv : recordAsset env coin with
    | none => rw [hv] at hrec; simp only at hrec; subst hrec; exact hn
    | some v =>
      rw [hv] at hrec
      obtain ⟨hc, hw, hd⟩ := hrec
      refine ⟨hc ▸ CurrenciesSet.insert_keeps_nodup _ _ hn.1, ?_, ?_⟩
      · split at hw
        · obtain ⟨_, _, _, hw⟩ := hw
          rw [hw]; exact Map.insert_nodup _ _ _ hn.2.1
        · rw [hw]; exact hn.2.1
      · split at hd
        · obtain ⟨_, _, hd⟩ := hd
          rw [hd]; exact Map.insert_nodup _ _ _ hn.2.2
        · rw [hd]; exact hn.2.2

theorem restrictionLoop_nodup (env : Env CurrencySymbol) (recs : List Value) :
    ∀ (t t' : RestrictionTables CurrencySymbol), restrictionLoop env recs t = .ok t' →
      (t.precisions.map Prod.fst).Nodup → (t'.precisions.map Prod.fst).Nodup := by
  induction recs with
  | nil => intro t t' h hn; simp [restrictionLoop] at h; subst h; exact hn
  | cons coin rest ih =>
    intro t t' h hn
    simp only [restrictionLoop, Except.bind_eq_ok] at h
    obtain ⟨t1, h1, h2⟩ := h
    refine ih t1 t' h2 ?_
    have hrec := restrictionRecord_ok env coin t t1 h1
    cases hp : restrictionPair env coin with
    | none => rw [hp] at hrec; simp only at hrec; subst hrec; exact hn
    | some pair =>
      rw [hp] at hrec
      obtain ⟨_, _, _, _, _, _, e1, _⟩ := hrec
      rw [e1]; exact Map.insert_nodup _ _ _ hn

theorem exchangeFeesLoop_nodup (fee : Number) (limits : limit_quantities_t CurrencySymbol)
    (pairs : trading_pairs_t CurrencySymbol) :
    ∀ (fees fees' : ExchangeFeesMap CurrencySymbol),
      exchangeFeesLoop fee limits pairs fees = .ok fees' →
      (fees.map Prod.fst).Nodup → (fees'.map Prod.fst).Nodup := by
  induction pairs with
  | nil => intro fees fees' h hn; simp [exchangeFeesLoop] at h; subst h; exact hn
  | cons c rest ih =>
    intro fees fees' h hn
    unfold exchangeFeesLoop at h
    cases hc : Map.find limits c with
    | none => rw [hc] at h; cases h
    | some q =>
      rw [hc] at h
      exact ih _ fees' h (Map.insert_nodup _ _ _ (Map.insert_nodup _ _ _ hn))

theorem buildDepositWithdrawFees_nodup (env : Env CurrencySymbol) (content : Document)
    (t : CoinInfoTables CurrencySymbol) (h : buildDepositWithdrawFees env content = .ok t) :
    List.Nodup t.currencies ∧ (t.withdraw_fees.map Prod.fst).Nodup ∧
      (t.deposit_fees.map Prod.fst).Nodup := by
  cases content with
  | ParseError => simp [buildDepositWithdrawFees] at h
  | Parsed root =>
    simp only [buildDepositWithdrawFees, Except.bind_eq_ok] at h
    obtain ⟨_, _, b, _, h⟩ := h
    cases b <;> simp [Except.bind_eq_ok] at h
    obtain ⟨w, _, h⟩ := h
    cases hw : w.IsArray <;> simp [hw, Except.bind_eq_ok] at h
    obtain ⟨_, _, info, _, h⟩ := h
    exact coinInfoLoop_nodup env info _ t h ⟨List.nodup_nil, List.nodup_nil, List.nodup_nil⟩

theorem buildExchangeLimitsPrecision_nodup (env : Env CurrencySymbol) (content : Document)
    (t : RestrictionTables CurrencySymbol)
    (h : buildExchangeLimitsPrecision env content = .ok t) :
    (t.precisions.map Prod.fst).Nodup := by
  cases content with
  | ParseError => simp [buildExchangeLimitsPrecision] at h
  | Parsed root =>
    simp only [buildExchangeLimitsPrecision, Except.bind_eq_ok] at h
    obtain ⟨_, _, b, _, h⟩ := h
    cases b <;> simp [Except.bind_eq_ok] at h
    obtain ⟨w, _, h⟩ := h
    cases hw : w.IsArray <;> simp [hw, Except.bind_eq_ok] at h
    obtain ⟨_, _, recs, _, h⟩ := h
    exact restrictionLoop_nodup env recs _ t h List.nodup_nil

theorem buildExchangeFees_nodup (env : Env CurrencySymbol) (content : Document)
    (pairs : trading_pairs_t CurrencySymbol) (limits : limit_quantities_t CurrencySymbol)
    (fees : ExchangeFeesMap CurrencySymbol)
    (h : buildExchangeFees env content pairs limits = .ok fees) :
    (fees.map Prod.fst).Nodup := by
  cases content with
  | ParseError => simp [buildExchangeFees] at h
  | Parsed root =>
    simp only [buildExchangeFees, Except.bind_eq_ok] at h
    obtain ⟨_, _, b, _, h⟩ := h
    cases b <;> simp [Except.bind_eq_ok] at h
    obtain ⟨w, _, h⟩ := h
    cases hw : w.IsString <;> simp [hw, Except.bind_eq_ok] at h
    obtain ⟨_, _, str, _, h⟩ := h
    cases hf : env.Number_FromStr str with
    | none => rw [hf] at h; cases h
    | some fee =>
      rw [hf] at h
      exact exchangeFeesLoop_nodup fee limits pairs [] fees h List.nodup_nil

theorem publishDepositWithdrawFees_distinct (t : CoinInfoTables CurrencySymbol)
    (self : Exchange CurrencySymbol)
    (ht : List.Nodup t.currencies ∧ (t.withdraw_fees.map Prod.fst).Nodup ∧
      (t.deposit_fees.map Prod.fst).Nodup)
    (hs : tablesDistinct self) : tablesDistinct (publishDepositWithdrawFees t self) := by
  obtain ⟨hc, hw, hd⟩ := ht
  obtain ⟨_, sw, sd, sp, se⟩ := hs
  unfold publishDepositWithdrawFees tablesDistinct
  simp only [Exchange.SetSupportedCurrencies, Exchange.SetWithdrawFees, Exchange.SetDepositFees]
  split <;> split <;> exact ⟨hc, by assumption, by assumption, sp, se⟩

/-- C8: running the four parser stages a second time on the same response
bodies ends the same way and leaves the exchange state (supported set, withdraw
fees, deposit fees, price precisions, exchange fees) equal to the state after
the first run, whatever the initial state; and when no table of the initial
state holds a key twice, no table does after a run. -/
theorem parser_stages_idempotent (env : Env CurrencySymbol)
    (coinInfo ticker restrictions commission : Document) (self : Exchange CurrencySymbol) :
    runParserStages env coinInfo ticker restrictions commission
        (runParserStages env coinInfo ticker restrictions commission self).2 =
      runParserStages env coinInfo ticker restrictions commission self ∧
    (tablesDistinct self →
      tablesDistinct (runParserStages env coinInfo ticker restrictions commission self).2) := by
  refine ⟨?_, ?_⟩
  swap
  · intro hs
    unfold runParserStages ParseDepositWithdrawFees ParseExchangeLimitsPrecision ParseExchangeFees
    cases h1 : buildDepositWithdrawFees env coinInfo with
    | error e => exact hs
    | ok t1 =>
      have hp := publishDepositWithdrawFees_distinct t1 self
        (buildDepositWithdrawFees_nodup env coinInfo t1 h1) hs
      cases h2 : ParseTradingPairs env ticker with
      | error e => exact hp
      | ok pairs =>
        cases h3 : buildExchangeLimitsPrecision env restrictions with
        | error e => exact hp
        | ok t3 =>
          have h3n := buildExchangeLimitsPrecision_nodup env restrictions t3 h3
          have hq : tablesDistinct
              ((publishDepositWithdrawFees t1 self).SetPricePrecisions t3.precisions) :=
            ⟨hp.1, hp.2.1, hp.2.2.1, h3n, hp.2.2.2.2⟩
          cases h4 : buildExchangeFees env commission pairs t3.min_limit_quantity with
          | error e => simp only [h4]; exact hq
          | ok fees =>
            simp only [h4]
            exact ⟨hp.1, hp.2.1, hp.2.2.1, h3n,
              buildExchangeFees_nodup env commission pairs _ fees h4⟩
  unfold runParserStages ParseDepositWithdrawFees ParseExchangeLimitsPrecision ParseExchangeFees
  cases h1 : buildDepositWithdrawFees env coinInfo with
  | error e => simp [h1]
  | ok t1 =>
    cases h2 : ParseTradingPairs env ticker with
    | error e =>
      simp only [h1, h2]
      unfold publishDepositWithdrawFees
      simp only [Exchange.SetSupportedCurrencies, Exchange.SetWithdrawFees,
        Exchange.SetDepositFees]
      cases hw : t1.withdraw_fees <;> cases hd : t1.deposit_fees <;> simp
    | ok pairs =>
      cases h3 : buildExchangeLimitsPrecision env restrictions with
      | error e =>
        simp only [h1, h2, h3]
        unfold publishDepositWithdrawFees
        simp only [Exchange.SetSupportedCurrencies, Exchange.SetWithdrawFees,
          Exchange.SetDepositFees]
        cases hw : t1.withdraw_fees <;> cases hd : t1.deposit_fees <;> simp
      | ok t3 =>
        cases h4 : buildExchangeFees env commission pairs t3.min_limit_quantity with
        | error e =>
          simp only [h1, h2, h3, h4]
          unfold publishDepositWithdrawFees
          simp only [Exchange.SetSupportedCurrencies, Exchange.SetWithdrawFees,
            Exchange.SetDepositFees, Exchange.SetPricePrecisions]
          cases hw : t1.withdraw_fees <;> cases hd : t1.deposit_fees <;> simp
        | ok fees =>
          simp only [h1, h2, h3, h4]
          unfold publishDepositWithdrawFees
          simp only [Exchange.SetSupportedCurrencies, Exchange.SetWithdrawFees,
            Exchange.SetDepositFees, Exchange.SetPricePrecisions, Exchange.SetExchangeFees]
          cases hw : t1.withdraw_fees <;> cases hd : t1.deposit_fees <;> simp


/-- Witness of C8 on the sample responses, from `samplePrior`. -/
theorem parser_stages_idempotent_witness :
    tablesDistinct (runParserStages sampleEnv (.Parsed sampleCoinInfo) (.Parsed sampleTicker)
      (.Parsed sampleRestrictionsTwice) (.Parsed sampleCommission) samplePrior).2 :=
  (parser_stages_idempotent sampleEnv (.Parsed sampleCoinInfo) (.Parsed sampleTicker)
    (.Parsed sampleRestrictionsTwice) (.Parsed sampleCommission) samplePrior).2
    (by simp [tablesDistinct, samplePrior])

/-! ## Order-book frames -/

/-- The function `PushToOrders` appends the sell orders of the frame to `orders_sell` and
its buy orders to `orders_buy`, each in input order. -/
theorem PushToOrders_eq (env : Env CurrencySymbol) (from_c to_c : CurrencySymbol)
    (data : List OrderBookEvent) :
    ∀ orders_sell orders_buy : List (Order CurrencySymbol),
      PushToOrders env from_c to_c data orders_sell orders_buy =
        (orders_sell ++ sideOf Direction.SELL (frameOrders env from_c to_c data),
          orders_buy ++ sideOf Direction.BUY (frameOrders env from_c to_c data)) := by
  induction data with
  | nil => intro s b; simp [PushToOrders, frameOrders, sideOf]
  | cons order rest ih =>
    intro s b
    unfold PushToOrders
    cases hp : env.Number_FromStr order.price with
    | none =>
      simp only [ih]
      simp [frameOrders, decodeOrder, hp, List.filterMap_cons]
    | some price =>
      cases hq : env.Number_FromStr order.quantity with
      | none =>
        simp only [ih]
        simp [frameOrders, decodeOrder, hp, hq, List.filterMap_cons]
      | some amount =>
        by_cases hb : order.order_type = OrderType.BID
        · simp only [hb, if_true, ih]
          simp [frameOrders, decodeOrder, hp, hq, hb, List.filterMap_cons, sideOf,
            List.filter_cons]
        · simp only [hb, if_false, ih]
          simp [frameOrders, decodeOrder, hp, hq, hb, List.filterMap_cons, sideOf,
            List.filter_cons]

theorem pairOfString_some (env : Env CurrencySymbol) (s : String) (A B : CurrencySymbol)
    (h : pairOfString env s = some (A, B)) :
    ∃ p0 p1 rest, split s = p0 :: p1 :: rest ∧ env.currency_FromStr p0 = some A ∧
      env.currency_FromStr p1 = some B := by
  unfold pairOfString at h
  match hsp : split s, h with
  | [], h => simp [hsp] at h
  | [_], h => simp [hsp] at h
  | p0 :: p1 :: rest, h =>
    cases hf : env.currency_FromStr p0 with
    | none => simp [hsp, hf] at h
    | some a =>
      cases ht : env.currency_FromStr p1 with
      | none => simp [hsp, hf, ht] at h
      | some b =>
        simp [hsp, hf, ht] at h
        obtain ⟨h1, h2⟩ := h
        subst h1 h2
        exact ⟨p0, p1, rest, rfl, hf, ht⟩

/-- What the handler posts for a diff frame of a recognized pair. -/
theorem handleOrders_diff (env : Env CurrencySymbol) (ocb : OrderBookMessage)
    (A B : CurrencySymbol) (hpair : pairOfString env ocb.currency_pair = some (A, B)) :
    handleOrders env false ocb =
      (.ok (),
        (sideOf Direction.SELL (frameOrders env A B ocb.data) ++
          sideOf Direction.BUY (frameOrders env A B ocb.data)).map
            (fun c => Event.postDiff c "tradeogre" Action.UPDATE_OR_DELETE)) := by
  obtain ⟨p0, p1, rest, hsp, hf, ht⟩ := pairOfString_some env _ A B hpair
  simp [handleOrders, hsp, vectorAt, hf, ht, PushToOrders_eq]

theorem deltaCallbacks_postDiff (orders : List (Order CurrencySymbol)) (name : String)
    (action : Action) :
    deltaCallbacks (orders.map (fun c => Event.postDiff c name action)) = orders := by
  induction orders with
  | nil => rfl
  | cons o rest ih => simp [deltaCallbacks, ih]

theorem sideOf_perm (orders : List (Order CurrencySymbol)) :
    List.Perm (sideOf Direction.SELL orders ++ sideOf Direction.BUY orders) orders := by
  have h := List.filter_append_perm (fun o : Order CurrencySymbol => decide (o.direction = Direction.SELL))
    orders
  have e : sideOf Direction.BUY orders =
      orders.filter (fun o => !decide (o.direction = Direction.SELL)) := by
    unfold sideOf
    congr 1
    funext o
    cases o.direction <;> simp
  rw [e]
  exact h

theorem deltaCallbacks_onMessage_diff (env : Env CurrencySymbol) (ocb : OrderBookMessage)
    (ping_time : Nat) (A B : CurrencySymbol)
    (hpair : pairOfString env ocb.currency_pair = some (A, B)) :
    deltaCallbacks (onMessage env (.frame (.ORDER_BOOK_NOTIFY ocb)) ping_time).2 =
      sideOf Direction.SELL (frameOrders env A B ocb.data) ++
        sideOf Direction.BUY (frameOrders env A B ocb.data) := by
  simp only [onMessage, handleOrders_diff env ocb A B hpair, List.cons_append, List.nil_append,
    deltaCallbacks]
  exact deltaCallbacks_postDiff _ _ _

theorem frameOrders_length (env : Env CurrencySymbol) (A B : CurrencySymbol)
    (data : List OrderBookEvent)
    (hall : ∀ e ∈ data, (decodeOrder env A B e).isSome = true) :
    (frameOrders env A B data).length = data.length := by
  induction data with
  | nil => rfl
  | cons e rest ih =>
    obtain ⟨o, ho⟩ := Option.isSome_iff_exists.1 (hall e (List.mem_cons_self _ _))
    have := ih (fun x hx => hall x (List.mem_cons_of_mem _ hx))
    unfold frameOrders at this ⊢
    simp [List.filterMap_cons, ho, this]

theorem frameOrders_direction (env : Env CurrencySymbol) (A B : CurrencySymbol)
    (data : List OrderBookEvent) (o : Order CurrencySymbol)
    (ho : o ∈ frameOrders env A B data) :
    ∃ e ∈ data, o.direction =
      if e.order_type = OrderType.BID then Direction.BUY else Direction.SELL := by
  unfold frameOrders at ho
  rw [List.mem_filterMap] at ho
  obtain ⟨e, he, hd⟩ := ho
  refine ⟨e, he, ?_⟩
  unfold decodeOrder at hd
  cases hp : env.Number_FromStr e.price with
  | none => simp [hp] at hd
  | some price =>
    cases hq : env.Number_FromStr e.quantity with
    | none => simp [hp, hq] at hd
    | some amount =>
      simp [hp, hq] at hd
      rw [← hd]

/-- C9, counterexample: the diff frame `sampleDiff` has a recognized pair and
two orders, a bid then an ask, both decodable; the two delta callbacks are
scheduled with the ask first, which is not the input order. -/
theorem diff_callbacks_input_order_counterexample :
    pairOfString sampleEnv sampleDiff.currency_pair = some (Coin.BTC, Coin.ETH) ∧
      frameOrders sampleEnv Coin.BTC Coin.ETH sampleDiff.data =
        [⟨Coin.BTC, Coin.ETH, ⟨⟨100000000⟩, Coin.ETH⟩, ⟨⟨200000000⟩, Coin.BTC⟩, Direction.BUY⟩,
         ⟨Coin.BTC, Coin.ETH, ⟨⟨300000000⟩, Coin.ETH⟩, ⟨⟨400000000⟩, Coin.BTC⟩, Direction.SELL⟩] ∧
      deltaCallbacks (onMessage sampleEnv (.frame (.ORDER_BOOK_NOTIFY sampleDiff)) 0).2 =
        [⟨Coin.BTC, Coin.ETH, ⟨⟨300000000⟩, Coin.ETH⟩, ⟨⟨400000000⟩, Coin.BTC⟩, Direction.SELL⟩,
         ⟨Coin.BTC, Coin.ETH, ⟨⟨100000000⟩, Coin.ETH⟩, ⟨⟨200000000⟩, Coin.BTC⟩, Direction.BUY⟩] ∧
      deltaCallbacks (onMessage sampleEnv (.frame (.ORDER_BOOK_NOTIFY sampleDiff)) 0).2 ≠
        frameOrders sampleEnv Coin.BTC Coin.ETH sampleDiff.data := by
  refine ⟨rfl, rfl, rfl, ?_⟩
  decide

/-- C9, amended: for a diff frame of a recognized pair whose `n` orders all have
a parseable price and quantity, the handler schedules exactly `n` delta
callbacks, one per order: the orders passed are a rearrangement of the frame's
order list, and they come in input order when the orders of the frame are all
on one side. -/
theorem diff_callbacks_one_per_order (env : Env CurrencySymbol) (ocb : OrderBookMessage)
    (ping_time : Nat) (A B : CurrencySymbol)
    (hpair : pairOfString env ocb.currency_pair = some (A, B))
    (hall : ∀ e ∈ ocb.data, (decodeOrder env A B e).isSome = true) :
    (deltaCallbacks (onMessage env (.frame (.ORDER_BOOK_NOTIFY ocb)) ping_time).2).length
        = ocb.data.length ∧
      List.Perm (deltaCallbacks (onMessage env (.frame (.ORDER_BOOK_NOTIFY ocb)) ping_time).2)
        (frameOrders env A B ocb.data) ∧
      (((∀ e ∈ ocb.data, e.order_type = OrderType.BID) ∨
          (∀ e ∈ ocb.data, e.order_type ≠ OrderType.BID)) →
        deltaCallbacks (onMessage env (.frame (.ORDER_BOOK_NOTIFY ocb)) ping_time).2
          = frameOrders env A B ocb.data) := by
  rw [deltaCallbacks_onMessage_diff env ocb ping_time A B hpair]
  have hperm := sideOf_perm (frameOrders env A B ocb.data)
  refine ⟨?_, hperm, ?_⟩
  · rw [hperm.length_eq]
    exact frameOrders_length env A B ocb.data hall
  · rintro (hside | hside)
    · have hbuy : ∀ o ∈ frameOrders env A B ocb.data, o.direction = Direction.BUY := by
        intro o ho
        obtain ⟨e, he, hd⟩ := frameOrders_direction env A B ocb.data o ho
        rw [hd, if_pos (hside e he)]
      have e1 : sideOf Direction.SELL (frameOrders env A B ocb.data) = [] := by
        unfold sideOf
        rw [List.filter_eq_nil_iff]
        intro o ho
        simp [hbuy o ho]
      have e2 : sideOf Direction.BUY (frameOrders env A B ocb.data)
          = frameOrders env A B ocb.data := by
        unfold sideOf
        rw [List.filter_eq_self]
        intro o ho
        simp [hbuy o ho]
      rw [e1, e2, List.nil_append]
    · have hsell : ∀ o ∈ frameOrders env A B ocb.data, o.direction = Direction.SELL := by
        intro o ho
        obtain ⟨e, he, hd⟩ := frameOrders_direction env A B ocb.data o ho
        rw [hd, if_neg (hside e he)]
      have e1 : sideOf Direction.BUY (frameOrders env A B ocb.data) = [] := by
        unfold sideOf
        rw [List.filter_eq_nil_iff]
        intro o ho
        simp [hsell o ho]
      have e2 : sideOf Direction.SELL (frameOrders env A B ocb.data)
          = frameOrders env A B ocb.data := by
        unfold sideOf
        rw [List.filter_eq_self]
        intro o ho
        simp [hsell o ho]
      rw [e1, e2, List.append_nil]

/-- Witness of the amended C9: the three bids of `sampleDiffBids` give three
delta callbacks. -/
theorem diff_callbacks_one_per_order_witness :
    (deltaCallbacks (onMessage sampleEnv (.frame (.ORDER_BOOK_NOTIFY sampleDiffBids)) 0).2).length
      = 3 :=
  (diff_callbacks_one_per_order sampleEnv sampleDiffBids 0 Coin.BTC Coin.ETH (by rfl)
    (by decide)).1

/-- C10: for a diff frame of a recognized pair, the handler, after registering
the tick count, posts the delta callbacks of the sell-side orders of the frame
in input order and then those of its buy-side orders in input order, each with
the exchange name `"tradeogre"` and the action `UPDATE_OR_DELETE`, and nothing
else. -/
theorem diff_callbacks_sell_side_first (env : Env CurrencySymbol) (ocb : OrderBookMessage)
    (ping_time : Nat) (A B : CurrencySymbol)
    (hpair : pairOfString env ocb.currency_pair = some (A, B)) :
    onMessage env (.frame (.ORDER_BOOK_NOTIFY ocb)) ping_time =
      (.ok (),
        [Event.RegisterPong ping_time, Event.RegisterPing ping_time] ++
          (sideOf Direction.SELL (frameOrders env A B ocb.data) ++
            sideOf Direction.BUY (frameOrders env A B ocb.data)).map
              (fun c => Event.postDiff c "tradeogre" Action.UPDATE_OR_DELETE)) := by
  obtain ⟨part0, part1, rest, hsplit, hfrom, hto⟩ := pairOfString_some env _ A B hpair
  have hpush := PushToOrders_eq env A B ocb.data [] []
  simp only [List.nil_append] at hpush
  have hdiff : handleOrders env false ocb =
      (.ok (),
        (sideOf Direction.SELL (frameOrders env A B ocb.data) ++
          sideOf Direction.BUY (frameOrders env A B ocb.data)).map
            (fun c => Event.postDiff c "tradeogre" Action.UPDATE_OR_DELETE)) := by
    simp [handleOrders, hsplit, vectorAt, hfrom, hto, hpush]
  unfold onMessage
  simp only [hdiff]

/-- Witness of C10 on `sampleDiff`. -/
theorem diff_callbacks_sell_side_first_witness :
    onMessage sampleEnv (.frame (.ORDER_BOOK_NOTIFY sampleDiff)) 5 =
      (.ok (),
        [Event.RegisterPong 5, Event.RegisterPing 5] ++
          (sideOf Direction.SELL (frameOrders sampleEnv Coin.BTC Coin.ETH sampleDiff.data) ++
            sideOf Direction.BUY (frameOrders sampleEnv Coin.BTC Coin.ETH sampleDiff.data)).map
              (fun c => Event.postDiff c "tradeogre" Action.UPDATE_OR_DELETE)) :=
  diff_callbacks_sell_side_first sampleEnv sampleDiff 5 Coin.BTC Coin.ETH (by rfl)

/-! ## Snapshot frames and unrecognized pairs -/

/-- What the handler posts for a snapshot frame of a recognized pair. -/
theorem handleOrders_full (env : Env CurrencySymbol) (ocb : OrderBookMessage)
    (A B : CurrencySymbol) (hpair : pairOfString env ocb.currency_pair = some (A, B)) :
    handleOrders env true ocb =
      (.ok (),
        [Event.postFull
          [⟨A, B, sideOf Direction.BUY (frameOrders env A B ocb.data), Direction.BUY⟩,
           ⟨A, B, sideOf Direction.SELL (frameOrders env A B ocb.data), Direction.SELL⟩]]) := by
  obtain ⟨p0, p1, rest, hsp, hf, ht⟩ := pairOfString_some env _ A B hpair
  simp [handleOrders, hsp, vectorAt, hf, ht, PushToOrders_eq]

/-- The orders of one side of a frame are the decoded events of that side. -/
theorem sideOf_frameOrders (env : Env CurrencySymbol) (A B : CurrencySymbol)
    (data : List OrderBookEvent) :
    sideOf Direction.BUY (frameOrders env A B data) =
        frameOrders env A B (data.filter (fun e => decide (e.order_type = OrderType.BID))) ∧
      sideOf Direction.SELL (frameOrders env A B data) =
        frameOrders env A B (data.filter (fun e => !decide (e.order_type = OrderType.BID))) := by
  induction data with
  | nil => exact ⟨rfl, rfl⟩
  | cons e rest ih =>
    obtain ⟨ihb, ihs⟩ := ih
    unfold frameOrders sideOf at ihb ihs ⊢
    cases hd : decodeOrder env A B e with
    | none =>
      by_cases hb : e.order_type = OrderType.BID
      · simp [List.filterMap_cons, List.filter_cons, hd, hb, ihb, ihs]
      · simp [List.filterMap_cons, List.filter_cons, hd, hb, ihb, ihs]
    | some o =>
      have ho : o.direction =
          if e.order_type = OrderType.BID then Direction.BUY else Direction.SELL := by
        unfold decodeOrder at hd
        cases hp : env.Number_FromStr e.price with
        | none => simp [hp] at hd
        | some price =>
          cases hq : env.Number_FromStr e.quantity with
          | none => simp [hp, hq] at hd
          | some amount => simp [hp, hq] at hd; rw [← hd]
      by_cases hb : e.order_type = OrderType.BID
      · rw [if_pos hb] at ho
        simp [List.filterMap_cons, List.filter_cons, hd, hb, ho, ihb, ihs]
      · rw [if_neg hb] at ho
        simp [List.filterMap_cons, List.filter_cons, hd, hb, ho, ihb, ihs]

/-- C11: for a snapshot frame of a recognized pair `(A, B)` whose orders all
have a parseable price and quantity, the handler, after registering the tick
count, posts exactly one full-update callback and no delta callback; the
callback carries two order books for `(A, B)`, the BUY one first with the
orders of the events tagged `BID` and the SELL one second with the orders of
the other events, each in input order and one order per event. -/
theorem snapshot_posts_buy_and_sell_books (env : Env CurrencySymbol) (ocb : OrderBookMessage)
    (ping_time : Nat) (A B : CurrencySymbol)
    (hpair : pairOfString env ocb.currency_pair = some (A, B))
    (hall : ∀ e ∈ ocb.data, (decodeOrder env A B e).isSome = true) :
    (onMessage env (.frame (.ORDER_BOOK_CHANNEL_SUBSCRIBED ocb)) ping_time).1 = .ok () ∧
      deltaCallbacks (onMessage env (.frame (.ORDER_BOOK_CHANNEL_SUBSCRIBED ocb)) ping_time).2
        = [] ∧
      fullCallbacks (onMessage env (.frame (.ORDER_BOOK_CHANNEL_SUBSCRIBED ocb)) ping_time).2
        = [[⟨A, B, frameOrders env A B
              (ocb.data.filter (fun e => decide (e.order_type = OrderType.BID))), Direction.BUY⟩,
            ⟨A, B, frameOrders env A B
              (ocb.data.filter (fun e => !decide (e.order_type = OrderType.BID))),
              Direction.SELL⟩]] ∧
      (frameOrders env A B
          (ocb.data.filter (fun e => decide (e.order_type = OrderType.BID)))).length
        = (ocb.data.filter (fun e => decide (e.order_type = OrderType.BID))).length ∧
      (frameOrders env A B
          (ocb.data.filter (fun e => !decide (e.order_type = OrderType.BID)))).length
        = (ocb.data.filter (fun e => !decide (e.order_type = OrderType.BID))).length := by
  have hfull := handleOrders_full env ocb A B hpair
  obtain ⟨hbuy, hsell⟩ := sideOf_frameOrders env A B ocb.data
  rw [hbuy, hsell] at hfull
  have hevents : onMessage env (.frame (.ORDER_BOOK_CHANNEL_SUBSCRIBED ocb)) ping_time =
      (.ok (), [Event.RegisterPong ping_time, Event.RegisterPing ping_time,
        Event.postFull
          [⟨A, B, frameOrders env A B
              (ocb.data.filter (fun e => decide (e.order_type = OrderType.BID))), Direction.BUY⟩,
           ⟨A, B, frameOrders env A B
              (ocb.data.filter (fun e => !decide (e.order_type = OrderType.BID))),
              Direction.SELL⟩]]) := by
    unfold onMessage
    simp only [hfull, List.cons_append, List.nil_append]
  rw [hevents]
  refine ⟨rfl, rfl, rfl, ?_, ?_⟩
  · exact frameOrders_length env A B _ (fun e he => hall e (List.mem_of_mem_filter he))
  · exact frameOrders_length env A B _ (fun e he => hall e (List.mem_of_mem_filter he))

/-- Witness of C11 on `sampleSnapshot`: two bids and one ask give books of
sizes 2 and 1. -/
theorem snapshot_posts_buy_and_sell_books_witness :
    (fullCallbacks (onMessage sampleEnv (.frame (.ORDER_BOOK_CHANNEL_SUBSCRIBED sampleSnapshot))
        0).2).map (fun books => books.map (fun book => (book.direction, book.orders.length)))
      = [[(Direction.BUY, 2), (Direction.SELL, 1)]] := by
  have h := (snapshot_posts_buy_and_sell_books sampleEnv sampleSnapshot 0 Coin.BTC Coin.ETH
    (by rfl) (by decide)).2.2.1
  rw [h]
  rfl

/-- C12, counterexample: the pair string of `sampleThreeParts` has three parts,
and yet the handler posts one delta callback for it as a diff frame and one
full-update callback for it as a snapshot frame, for the pair of its first two
parts. -/
theorem three_part_pair_counterexample :
    split sampleThreeParts.currency_pair = ["BTC", "ETH", "BCH"] ∧
      deltaCallbacks (onMessage sampleEnv (.frame (.ORDER_BOOK_NOTIFY sampleThreeParts)) 0).2 =
        [⟨Coin.BTC, Coin.ETH, ⟨⟨100000000⟩, Coin.ETH⟩, ⟨⟨200000000⟩, Coin.BTC⟩,
          Direction.BUY⟩] ∧
      fullCallbacks
          (onMessage sampleEnv (.frame (.ORDER_BOOK_CHANNEL_SUBSCRIBED sampleThreeParts)) 0).2 =
        [[⟨Coin.BTC, Coin.ETH,
            [⟨Coin.BTC, Coin.ETH, ⟨⟨100000000⟩, Coin.ETH⟩, ⟨⟨200000000⟩, Coin.BTC⟩,
              Direction.BUY⟩], Direction.BUY⟩,
          ⟨Coin.BTC, Coin.ETH, [], Direction.SELL⟩]] := by
  refine ⟨?_, ?_, ?_⟩
  · decide
  · rfl
  · rfl

/-- C12, amended: for a snapshot or diff frame whose pair string has at least
two parts at `/`, the first or the second of which is not a recognized asset
symbol, the handler registers the tick count, logs one error and posts neither
a full-update callback nor a delta callback. -/
theorem unrecognized_pair_posts_nothing (env : Env CurrencySymbol) (ocb : OrderBookMessage)
    (ping_time : Nat) (part0 part1 : String) (rest : List String)
    (hsplit : split ocb.currency_pair = part0 :: part1 :: rest)
    (hunknown : env.currency_FromStr part0 = none ∨ env.currency_FromStr part1 = none) :
    (onMessage env (.frame (.ORDER_BOOK_CHANNEL_SUBSCRIBED ocb)) ping_time =
        (.ok (), [Event.RegisterPong ping_time, Event.RegisterPing ping_time,
          Event.log_error "[tradeogre] Unknown cur "]) ∧
      fullCallbacks (onMessage env (.frame (.ORDER_BOOK_CHANNEL_SUBSCRIBED ocb)) ping_time).2
        = [] ∧
      deltaCallbacks (onMessage env (.frame (.ORDER_BOOK_CHANNEL_SUBSCRIBED ocb)) ping_time).2
        = []) ∧
    (onMessage env (.frame (.ORDER_BOOK_NOTIFY ocb)) ping_time =
        (.ok (), [Event.RegisterPong ping_time, Event.RegisterPing ping_time,
          Event.log_error "[tradeogre] Unknown cur "]) ∧
      fullCallbacks (onMessage env (.frame (.ORDER_BOOK_NOTIFY ocb)) ping_time).2 = [] ∧
      deltaCallbacks (onMessage env (.frame (.ORDER_BOOK_NOTIFY ocb)) ping_time).2 = []) := by
  have hdrop : ∀ full : Bool, handleOrders env full ocb =
      (.ok (), [Event.log_error "[tradeogre] Unknown cur "]) := by
    intro full
    rcases hunknown with h | h
    · simp [handleOrders, hsplit, vectorAt, h]
    · cases h0 : env.currency_FromStr part0 <;> simp [handleOrders, hsplit, vectorAt, h, h0]
  have hfull : onMessage env (.frame (.ORDER_BOOK_CHANNEL_SUBSCRIBED ocb)) ping_time =
      (.ok (), [Event.RegisterPong ping_time, Event.RegisterPing ping_time,
        Event.log_error "[tradeogre] Unknown cur "]) := by
    unfold onMessage
    simp only [hdrop true, List.cons_append, List.nil_append]
  have hdiff : onMessage env (.frame (.ORDER_BOOK_NOTIFY ocb)) ping_time =
      (.ok (), [Event.RegisterPong ping_time, Event.RegisterPing ping_time,
        Event.log_error "[tradeogre] Unknown cur "]) := by
    unfold onMessage
    simp only [hdrop false, List.cons_append, List.nil_append]
  rw [hfull, hdiff]
  exact ⟨⟨rfl, rfl, rfl⟩, ⟨rfl, rfl, rfl⟩⟩

/-- Witness of the amended C12 on `sampleUnknownPair`. -/
theorem unrecognized_pair_posts_nothing_witness :
    fullCallbacks (onMessage sampleEnv (.frame (.ORDER_BOOK_CHANNEL_SUBSCRIBED sampleUnknownPair))
        3).2 = [] ∧
      deltaCallbacks (onMessage sampleEnv (.frame (.ORDER_BOOK_NOTIFY sampleUnknownPair)) 3).2
        = [] :=
  ⟨(unrecognized_pair_posts_nothing sampleEnv sampleUnknownPair 3 "BTC" "CAT" []
      (by decide) (Or.inr (by rfl))).1.2.1,
    (unrecognized_pair_posts_nothing sampleEnv sampleUnknownPair 3 "BTC" "CAT" []
      (by decide) (Or.inr (by rfl))).2.2.2⟩

/-! ## Bootstrap and periodic refresh -/

/-- C13: in a refresh cycle without a timer error, whatever the four stages
report, the stages run are deposit/withdraw fees, trading pairs,
precision/limits, exchange fees in that order up to and including the first
one that fails (all four when none fails), and after them the cycle logs its
end and reschedules the next cycle exactly once, `FETCH_FEES_PERIOD` seconds
later; the cycle itself does not throw. -/
theorem refresh_cycle_stops_at_first_failure (FETCH_FEES_PERIOD : Nat)
    (reports : StageReports CurrencySymbol) :
    (FetchFees FETCH_FEES_PERIOD reports false).1 = .ok () ∧
      stagesRun (FetchFees FETCH_FEES_PERIOD reports false).2 =
        throughFirstFailure (stageSucceeds reports) stageOrder ∧
      reschedulings (FetchFees FETCH_FEES_PERIOD reports false).2 = [FETCH_FEES_PERIOD] ∧
      ∃ before success,
        (FetchFees FETCH_FEES_PERIOD reports false).2 =
          before ++ FetchFees_end FETCH_FEES_PERIOD success ∧
        stagesRun before = throughFirstFailure (stageSucceeds reports) stageOrder ∧
        (success = true ↔ ∀ stage ∈ stageOrder, stageSucceeds reports stage = true) := by
  obtain ⟨first, ⟨second, pairs⟩, ⟨third, limits⟩, fourth⟩ := reports
  cases first
  · refine ⟨rfl, rfl, rfl, [FetchAction.log_info "[tradeogre] Start fetching fees",
      FetchAction.fetch Stage.DepositWithdrawFees true], false, rfl, rfl, ?_⟩
    simp [stageOrder, stageSucceeds]
  cases second
  · refine ⟨rfl, rfl, rfl, [FetchAction.log_info "[tradeogre] Start fetching fees",
      FetchAction.fetch Stage.DepositWithdrawFees true,
      FetchAction.fetch Stage.TradingPairs true], false, rfl, rfl, ?_⟩
    simp [stageOrder, stageSucceeds]
  cases third
  · refine ⟨rfl, rfl, rfl, [FetchAction.log_info "[tradeogre] Start fetching fees",
      FetchAction.fetch Stage.DepositWithdrawFees true,
      FetchAction.fetch Stage.TradingPairs true,
      FetchAction.fetch Stage.ExchangeLimitsPrecision true], false, rfl, rfl, ?_⟩
    simp [stageOrder, stageSucceeds]
  cases hfourth : fourth pairs limits
  · refine ⟨rfl, ?_, ?_, [FetchAction.log_info "[tradeogre] Start fetching fees",
      FetchAction.fetch Stage.DepositWithdrawFees true,
      FetchAction.fetch Stage.TradingPairs true,
      FetchAction.fetch Stage.ExchangeLimitsPrecision true,
      FetchAction.fetch Stage.ExchangeFees true], false, ?_, ?_, ?_⟩
    · simp [FetchFees, FetchFees_end, stagesRun, throughFirstFailure, stageOrder, stageSucceeds,
        hfourth]
    · simp [FetchFees, FetchFees_end, reschedulings]
    · simp [FetchFees, hfourth]
    · simp [stagesRun, throughFirstFailure, stageOrder, stageSucceeds, hfourth]
    · simp [stageOrder, stageSucceeds, hfourth]
  · refine ⟨rfl, ?_, ?_, [FetchAction.log_info "[tradeogre] Start fetching fees",
      FetchAction.fetch Stage.DepositWithdrawFees true,
      FetchAction.fetch Stage.TradingPairs true,
      FetchAction.fetch Stage.ExchangeLimitsPrecision true,
      FetchAction.fetch Stage.ExchangeFees true], true, ?_, ?_, ?_⟩
    · simp [FetchFees, FetchFees_end, stagesRun, throughFirstFailure, stageOrder, stageSucceeds,
        hfourth]
    · simp [FetchFees, FetchFees_end, reschedulings]
    · simp [FetchFees, hfourth]
    · simp [stagesRun, throughFirstFailure, stageOrder, stageSucceeds, hfourth]
    · simp [stageOrder, stageSucceeds, hfourth]

/-- C14: the one-shot bootstrap throws exactly when one of the four stages
reports failure; what it throws is the error of the first failing stage in the
order deposit/withdraw fees, trading pairs, precision/limits, exchange fees;
the stages run are those up to and including that one; and when the four
stages succeed it returns without an error. -/
theorem bootstrap_throws_first_failure (reports : StageReports CurrencySymbol) :
    ((∃ msg, (FetchFeesAndCurrencies reports).1 = .error msg) ↔
        ∃ stage ∈ stageOrder, stageSucceeds reports stage = false) ∧
      (∀ stage, stageOrder.find? (fun s => !stageSucceeds reports s) = some stage →
        (FetchFeesAndCurrencies reports).1 = .error (bootstrapError stage)) ∧
      stagesRun (FetchFeesAndCurrencies reports).2 =
        throughFirstFailure (stageSucceeds reports) stageOrder ∧
      ((∀ stage ∈ stageOrder, stageSucceeds reports stage = true) →
        (FetchFeesAndCurrencies reports).1 = .ok ()) := by
  obtain ⟨first, ⟨second, pairs⟩, ⟨third, limits⟩, fourth⟩ := reports
  cases first
  · refine ⟨⟨fun _ => ⟨Stage.DepositWithdrawFees, by simp [stageOrder], rfl⟩,
      fun _ => ⟨_, rfl⟩⟩, ?_, rfl, ?_⟩
    · intro stage h
      simp [stageOrder, stageSucceeds] at h
      subst h
      rfl
    · intro h
      have := h Stage.DepositWithdrawFees (by simp [stageOrder])
      simp [stageSucceeds] at this
  cases second
  · refine ⟨⟨fun _ => ⟨Stage.TradingPairs, by simp [stageOrder], rfl⟩,
      fun _ => ⟨_, rfl⟩⟩, ?_, rfl, ?_⟩
    · intro stage h
      simp [stageOrder, stageSucceeds] at h
      subst h
      rfl
    · intro h
      have := h Stage.TradingPairs (by simp [stageOrder])
      simp [stageSucceeds] at this
  cases third
  · refine ⟨⟨fun _ => ⟨Stage.ExchangeLimitsPrecision, by simp [stageOrder], rfl⟩,
      fun _ => ⟨_, rfl⟩⟩, ?_, rfl, ?_⟩
    · intro stage h
      simp [stageOrder, stageSucceeds] at h
      subst h
      rfl
    · intro h
      have := h Stage.ExchangeLimitsPrecision (by simp [stageOrder])
      simp [stageSucceeds] at this
  cases hfourth : fourth pairs limits
  · have hout : (FetchFeesAndCurrencies
        (⟨true, (true, pairs), (true, limits), fourth⟩ : StageReports CurrencySymbol)).1 =
        .error "Cannot fetch exchange fees" := by
      simp [FetchFeesAndCurrencies, hfourth]
    refine ⟨⟨fun _ => ⟨Stage.ExchangeFees, by simp [stageOrder], by simp [stageSucceeds, hfourth]⟩,
      fun _ => ⟨_, hout⟩⟩, ?_, ?_, ?_⟩
    · intro stage h
      simp [stageOrder, stageSucceeds, hfourth] at h
      subst h
      exact hout
    · simp [FetchFeesAndCurrencies, stagesRun, throughFirstFailure, stageOrder, stageSucceeds,
        hfourth]
    · intro h
      have := h Stage.ExchangeFees (by simp [stageOrder])
      simp [stageSucceeds, hfourth] at this
  · have hout : (FetchFeesAndCurrencies
        (⟨true, (true, pairs), (true, limits), fourth⟩ : StageReports CurrencySymbol)).1 =
        .ok () := by
      simp [FetchFeesAndCurrencies, hfourth]
    refine ⟨⟨fun ⟨msg, h⟩ => ?_, fun ⟨stage, hs, hf⟩ => ?_⟩, ?_, ?_, fun _ => hout⟩
    · rw [hout] at h
      cases h
    · simp [stageOrder] at hs
      rcases hs with e | e | e | e <;> subst e <;> simp [stageSucceeds, hfourth] at hf
    · intro stage h
      simp [stageOrder, stageSucceeds, hfourth] at h
    · simp [FetchFeesAndCurrencies, stagesRun, throughFirstFailure, stageOrder, stageSucceeds,
        hfourth]

/-- Witness of C14 on `sampleReportsLimitsFail`: the bootstrap throws the
error of the precision/limits stage after running three stages. -/
theorem bootstrap_throws_first_failure_witness :
    (FetchFeesAndCurrencies sampleReportsLimitsFail).1 = .error "Cannot fetch limits" ∧
      stagesRun (FetchFeesAndCurrencies sampleReportsLimitsFail).2 =
        [Stage.DepositWithdrawFees, Stage.TradingPairs, Stage.ExchangeLimitsPrecision] := by
  have h := bootstrap_throws_first_failure sampleReportsLimitsFail
  exact ⟨h.2.1 Stage.ExchangeLimitsPrecision (by decide), h.2.2.1⟩

/-! ## Records that cannot be mapped, and required fields -/

/-- C15, the code at the failing inputs: a ticker record and a restrictions
record whose pair string has no `/` make the parser read the second element of
a one-element vector; the parse does not go on to the records after it. -/
theorem pair_without_separator_reads_past_end :
    split "BTCETH" = ["BTCETH"] ∧
      ParseTradingPairs sampleEnv (.Parsed sampleTickerNoSlash) =
        .error (.undefined "vector::operator[]: index out of range") ∧
      ParseExchangeLimitsPrecision sampleEnv (.Parsed sampleRestrictionsNoSlash) emptyExchange =
        (.error (.undefined "vector::operator[]: index out of range"), emptyExchange) := by
  refine ⟨?_, ?_, ?_⟩
  · decide
  · rfl
  · rfl

theorem recordAsset_some (env : Env CurrencySymbol) (coin : Value) (v : CurrencySymbol)
    (h : recordAsset env coin = some v) :
    ∃ ms str, coin = .object ms ∧ Value.FindMember ms "symbol" = some (.string str) ∧
      env.currency_FromStr (c_str str) = some v := by
  unfold recordAsset at h
  cases coin <;> simp [Value.member] at h
  rename_i ms
  cases hm : Value.FindMember ms "symbol" with
  | none => simp [hm] at h
  | some a =>
    cases a <;> simp [hm] at h
    exact ⟨ms, _, rfl, hm, h⟩

theorem walletStatus_some (ms : List (String × Value)) (s : String)
    (h : walletStatus (.object ms) = some s) :
    ∃ str, Value.FindMember ms "walletStatus" = some (.string str) ∧ s = c_str str := by
  unfold walletStatus at h
  simp only [Value.member] at h
  cases hm : Value.FindMember ms "walletStatus" with
  | none => simp [hm] at h
  | some a =>
    cases a <;> simp [hm] at h
    exact ⟨_, rfl, h.symm⟩

/-- A record that fails whatever the tables are makes the loop fail. -/
theorem coinInfoLoop_fails (env : Env CurrencySymbol) (coin : Value)
    (hfail : ∀ t, ∃ e, coinInfoRecord env coin t = .error e) (recs : List Value)
    (hmem : coin ∈ recs) :
    ∀ t : CoinInfoTables CurrencySymbol, ∃ e, coinInfoLoop env recs t = .error e := by
  induction recs with
  | nil => cases hmem
  | cons c rest ih =>
    intro t
    unfold coinInfoLoop
    cases hc : coinInfoRecord env c t with
    | error e => exact ⟨e, rfl⟩
    | ok t1 =>
      cases hmem with
      | head =>
        obtain ⟨e, he⟩ := hfail t
        rw [he] at hc
        cases hc
      | tail _ h => exact ih h t1

theorem buildDepositWithdrawFees_fails (env : Env CurrencySymbol) (root : Value)
    (info : List Value) (hinfo : root.member "info" = .ok (.array info))
    (hloop : ∃ e, coinInfoLoop env info ⟨[], [], []⟩ = .error e) :
    ∃ e, buildDepositWithdrawFees env (.Parsed root) = .error e := by
  cases hb : buildDepositWithdrawFees env (.Parsed root) with
  | error e => exact ⟨e, rfl⟩
  | ok t =>
    have := buildDepositWithdrawFees_loop env root info t hinfo hb
    obtain ⟨e, he⟩ := hloop
    rw [he] at this
    cases this

/-- C16, counterexample: the only record of `sampleCoinInfoCashoutNoFee` names
BTC with the status `"closed_cashout"` and has no `withdrawFee`, and the parse
fails with a hard error for the whole response. -/
theorem closed_cashout_needs_withdraw_fee_counterexample :
    recordAsset sampleEnv (.object [("symbol", .string "BTC"),
        ("walletStatus", .string "closed_cashout"), ("minWithdrawAmount", .int 2),
        ("minDepositAmount", .int 3)]) = some Coin.BTC ∧
      walletStatus (.object [("symbol", .string "BTC"),
        ("walletStatus", .string "closed_cashout"), ("minWithdrawAmount", .int 2),
        ("minDepositAmount", .int 3)]) = some "closed_cashout" ∧
      Value.HasMember (.object [("symbol", .string "BTC"),
        ("walletStatus", .string "closed_cashout"), ("minWithdrawAmount", .int 2),
        ("minDepositAmount", .int 3)]) "withdrawFee" = .ok false ∧
      ParseDepositWithdrawFees sampleEnv (.Parsed sampleCoinInfoCashoutNoFee) emptyExchange =
        (.error (.runtime_error "Missing withdrawFee or minWithdrawAmount"), emptyExchange) := by
  refine ⟨?_, ?_, ?_, ?_⟩
  · rfl
  · rfl
  · rfl
  · rfl

/-- C16, amended: `withdrawFee` and `minWithdrawAmount` are required of every
record of a recognized asset whose wallet status is a string other than
`"down"`. A record of status `"down"` is accepted whatever fields it has or
lacks, only its asset being added to the supported set; a record of any other
status string, `"closed_cashout"` included, that lacks either field throws the
missing-field error, and every response that has `info` as an array holding
such a record fails, leaving the exchange state as it was. -/
theorem withdraw_fields_required_unless_down (env : Env CurrencySymbol) (coin : Value)
    (v : CurrencySymbol) (s : String)
    (hasset : recordAsset env coin = some v) (hs : walletStatus coin = some s) :
    (s = "down" → ∀ t : CoinInfoTables CurrencySymbol,
      coinInfoRecord env coin t =
        .ok ⟨t.withdraw_fees, t.deposit_fees, CurrenciesSet.insert t.currencies v⟩) ∧
    (s ≠ "down" →
      (coin.HasMember "withdrawFee" = .ok false ∨
        coin.HasMember "minWithdrawAmount" = .ok false) →
      (∀ t : CoinInfoTables CurrencySymbol, coinInfoRecord env coin t =
        .error (.runtime_error "Missing withdrawFee or minWithdrawAmount")) ∧
      (∀ (root : Value) (info : List Value) (self : Exchange CurrencySymbol),
        root.member "info" = .ok (.array info) → coin ∈ info →
          ∃ e, ParseDepositWithdrawFees env (.Parsed root) self = (.error e, self))) := by
  obtain ⟨ms, str, hcoin, hsym, hv⟩ := recordAsset_some env coin v hasset
  subst hcoin
  obtain ⟨ws, hws, hsws⟩ := walletStatus_some ms s hs
  subst hsws
  refine ⟨fun hdown t => ?_, fun hnot hlack => ?_⟩
  · simp [coinInfoRecord, Value.HasMember, Value.member, hsym, Value.GetString, hv,
      walletStatusNotDown, hws, Value.IsString, hdown]
  · have hrecord : ∀ t : CoinInfoTables CurrencySymbol,
        coinInfoRecord env (.object ms) t =
          .error (.runtime_error "Missing withdrawFee or minWithdrawAmount") := by
      intro t
      have hlack' : Value.FindMember ms "withdrawFee" = none ∨
          Value.FindMember ms "minWithdrawAmount" = none := by
        rcases hlack with h | h
        · left
          simp only [Value.HasMember, Except.pure_eq_ok, Except.ok.injEq] at h
          cases hf : Value.FindMember ms "withdrawFee" with
          | none => rfl
          | some x => simp [hf] at h
        · right
          simp only [Value.HasMember, Except.pure_eq_ok, Except.ok.injEq] at h
          cases hf : Value.FindMember ms "minWithdrawAmount" with
          | none => rfl
          | some x => simp [hf] at h
      rcases hlack' with h | h
      · simp [coinInfoRecord, Value.HasMember, Value.member, hsym, Value.GetString, hv,
          walletStatusNotDown, hws, Value.IsString, hnot, withdrawFields, h]
      · cases hw : Value.FindMember ms "withdrawFee" <;>
          simp [coinInfoRecord, Value.HasMember, Value.member, hsym, Value.GetString, hv,
            walletStatusNotDown, hws, Value.IsString, hnot, withdrawFields, h, hw]
    refine ⟨hrecord, fun root info self hinfo hmem => ?_⟩
    have hloop := coinInfoLoop_fails env (.object ms) (fun t => ⟨_, hrecord t⟩) info hmem
      ⟨[], [], []⟩
    obtain ⟨e, he⟩ := buildDepositWithdrawFees_fails env root info hinfo hloop
    exact ⟨e, by simp only [ParseDepositWithdrawFees, he]⟩

/-- Witness of the amended C16 on the record of `sampleCoinInfoDown`. -/
theorem withdraw_fields_required_unless_down_witness :
    coinInfoRecord sampleEnv
        (.object [("symbol", .string "ETH"), ("walletStatus", .string "down")])
        (⟨[], [], []⟩ : CoinInfoTables Coin) =
      .ok ⟨[], [], CurrenciesSet.insert [] Coin.ETH⟩ :=
  (withdraw_fields_required_unless_down sampleEnv
    (.object [("symbol", .string "ETH"), ("walletStatus", .string "down")]) Coin.ETH "down"
    (by rfl) (by rfl)).1 rfl ⟨[], [], []⟩

/-! ## Stored fee records -/

theorem parseMinWithdrawAmount_value (env : Env CurrencySymbol) (ms : List (String × Value))
    (field : Value) (amount : Option Number)
    (hfield : Value.FindMember ms "minWithdrawAmount" = some field)
    (h : parseMinWithdrawAmount env field = .ok amount) :
    minWithdrawOf env (.object ms) = amount := by
  unfold minWithdrawOf
  simp only [Value.member, hfield, Except.pure_eq_ok]
  cases field <;>
    simp [parseMinWithdrawAmount, Value.IsNumber, Value.GetString, Value.GetDouble] at h ⊢ <;>
    exact h

theorem withdrawFields_values (env : Env CurrencySymbol) (coin : Value) (f m : Number)
    (h : withdrawFields env coin = .ok (f, m)) :
    withdrawFeeOf env coin = some f ∧ minWithdrawOf env coin = some m := by
  unfold withdrawFields at h
  simp only [Except.bind_eq_ok] at h
  obtain ⟨b1, hb1, h⟩ := h
  cases b1 <;> simp [Except.bind_eq_ok] at h
  obtain ⟨hb2, w, hw, d, hd, field, hfield, amount, hamount, h⟩ := h
  cases coin <;> simp [Value.member] at hw hfield
  rename_i ms
  have hfield' : Value.FindMember ms "minWithdrawAmount" = some field := by
    cases hx : Value.FindMember ms "minWithdrawAmount" with
    | none => simp [hx] at hfield
    | some x => simp [hx] at hfield; rw [hfield]
  have hmin := parseMinWithdrawAmount_value env ms field amount hfield' hamount
  have hfee : withdrawFeeOf env (.object ms) = env.Number_FromDouble d := by
    unfold withdrawFeeOf
    cases hx : Value.FindMember ms "withdrawFee" with
    | none => simp [hx] at hw
    | some x =>
      simp [hx] at hw
      subst hw
      simp [Value.member, hx, hd]
  rw [hfee, hmin]
  cases hf : env.Number_FromDouble d with
  | none => simp [hf] at h
  | some f' =>
    cases amount with
    | none => simp [hf] at h
    | some m' =>
      simp [hf] at h
      rw [h.1, h.2]
      exact ⟨rfl, rfl⟩

theorem depositField_value (env : Env CurrencySymbol) (coin : Value) (d : Number)
    (h : depositField env coin = .ok d) : minDepositOf env coin = some d := by
  unfold depositField at h
  simp only [Except.bind_eq_ok] at h
  obtain ⟨b, hb, h⟩ := h
  cases b <;> simp [Except.bind_eq_ok] at h
  obtain ⟨w, hw, q, hq, h⟩ := h
  unfold minDepositOf
  simp only [hw, Except.ok_bind, hq]
  cases hf : env.Number_FromDouble q with
  | none => simp [hf] at h
  | some d' => simp [hf] at h; rw [h]

theorem coinInfoLoop_append (env : Env CurrencySymbol) (l1 l2 : List Value) :
    ∀ (t t' : CoinInfoTables CurrencySymbol),
      coinInfoLoop env (l1 ++ l2) t = .ok t' →
        ∃ t1, coinInfoLoop env l1 t = .ok t1 ∧ coinInfoLoop env l2 t1 = .ok t' := by
  induction l1 with
  | nil => intro t t' h; exact ⟨t, rfl, h⟩
  | cons c rest ih =>
    intro t t' h
    simp only [List.cons_append, coinInfoLoop, Except.bind_eq_ok] at h ⊢
    obtain ⟨t0, h0, h⟩ := h
    obtain ⟨t1, h1, h2⟩ := ih t0 t' h
    exact ⟨t1, ⟨t0, h0, h1⟩, h2⟩

/-- Entries of the two fee tables are never replaced by a later record. -/
theorem coinInfoLoop_keeps (env : Env CurrencySymbol) (recs : List Value) :
    ∀ (t t' : CoinInfoTables CurrencySymbol) (a : CurrencySymbol),
      coinInfoLoop env recs t = .ok t' →
        (∀ x, Map.find t.withdraw_fees a = some x → Map.find t'.withdraw_fees a = some x) ∧
        (∀ x, Map.find t.deposit_fees a = some x → Map.find t'.deposit_fees a = some x) := by
  induction recs with
  | nil => intro t t' a h; simp [coinInfoLoop] at h; subst h; exact ⟨fun _ h => h, fun _ h => h⟩
  | cons coin rest ih =>
    intro t t' a h
    simp only [coinInfoLoop, Except.bind_eq_ok] at h
    obtain ⟨t1, h1, h2⟩ := h
    obtain ⟨ihw, ihd⟩ := ih t1 t' a h2
    have hrec := coinInfoRecord_ok env coin t t1 h1
    cases hv : recordAsset env coin with
    | none =>
      rw [hv] at hrec
      simp only at hrec
      subst hrec
      exact ⟨ihw, ihd⟩
    | some v =>
      rw [hv] at hrec
      obtain ⟨_, hw, hd⟩ := hrec
      refine ⟨fun x hx => ihw x ?_, fun x hx => ihd x ?_⟩
      · split at hw
        · obtain ⟨_, _, _, hw⟩ := hw
          rw [hw]; exact Map.find_insert_of_some _ _ _ _ _ hx
        · rw [hw]; exact hx
      · split at hd
        · obtain ⟨_, _, hd⟩ := hd
          rw [hd]; exact Map.find_insert_of_some _ _ _ _ _ hx
        · rw [hd]; exact hx

/-- Records that do not open the withdraw entry of an asset leave it as it
is, and likewise for its deposit entry. -/
theorem coinInfoLoop_skips (env : Env CurrencySymbol) (recs : List Value) :
    ∀ (t t' : CoinInfoTables CurrencySymbol) (a : CurrencySymbol),
      coinInfoLoop env recs t = .ok t' →
        ((∀ c ∈ recs, ¬ (recordAsset env c = some a ∧ withdrawOpen c = true)) →
          Map.find t'.withdraw_fees a = Map.find t.withdraw_fees a) ∧
        ((∀ c ∈ recs, ¬ (recordAsset env c = some a ∧ depositOpen c = true)) →
          Map.find t'.deposit_fees a = Map.find t.deposit_fees a) := by
  induction recs with
  | nil => intro t t' a h; simp [coinInfoLoop] at h; subst h; exact ⟨fun _ => rfl, fun _ => rfl⟩
  | cons coin rest ih =>
    intro t t' a h
    simp only [coinInfoLoop, Except.bind_eq_ok] at h
    obtain ⟨t1, h1, h2⟩ := h
    obtain ⟨ihw, ihd⟩ := ih t1 t' a h2
    have hrec := coinInfoRecord_ok env coin t t1 h1
    cases hv : recordAsset env coin with
    | none =>
      rw [hv] at hrec
      simp only at hrec
      subst hrec
      exact ⟨fun hn => ihw (fun c hc => hn c (List.mem_cons_of_mem _ hc)),
        fun hn => ihd (fun c hc => hn c (List.mem_cons_of_mem _ hc))⟩
    | some v =>
      rw [hv] at hrec
      obtain ⟨_, hw, hd⟩ := hrec
      refine ⟨fun hn => ?_, fun hn => ?_⟩
      · rw [ihw (fun c hc => hn c (List.mem_cons_of_mem _ hc))]
        have hcoin := hn coin (List.mem_cons_self _ _)
        split at hw
        · rename_i ho
          obtain ⟨_, _, _, hw⟩ := hw
          have hne : v ≠ a := fun e => hcoin ⟨by rw [hv, e], ho⟩
          rw [hw]; exact Map.find_insert_of_ne _ _ _ _ hne
        · rw [hw]
      · rw [ihd (fun c hc => hn c (List.mem_cons_of_mem _ hc))]
        have hcoin := hn coin (List.mem_cons_self _ _)
        split at hd
        · rename_i ho
          obtain ⟨_, hd⟩ := hd
          have hne : v ≠ a := fun e => hcoin ⟨by rw [hv, e], ho⟩
          rw [hd.2]; exact Map.find_insert_of_ne _ _ _ _ hne
        · rw [hd]

/-- C17, counterexample: `sampleCoinInfoTwice` is accepted; its second record
names BTC with a status that permits both entries, withdraw fee `4`, minimum
withdraw amount `5` and minimum deposit amount `6` (in units of `10^-8`), and
yet the records stored for BTC are those of the first record. -/
theorem stored_fee_of_second_record_counterexample :
    recordAsset sampleEnv (.object [("symbol", .string "BTC"), ("walletStatus", .string "ok"),
        ("withdrawFee", .int 4), ("minWithdrawAmount", .int 5),
        ("minDepositAmount", .int 6)]) = some Coin.BTC ∧
      withdrawFeeOf sampleEnv (.object [("symbol", .string "BTC"),
        ("walletStatus", .string "ok"), ("withdrawFee", .int 4), ("minWithdrawAmount", .int 5),
        ("minDepositAmount", .int 6)]) = some ⟨400000000⟩ ∧
      minWithdrawOf sampleEnv (.object [("symbol", .string "BTC"),
        ("walletStatus", .string "ok"), ("withdrawFee", .int 4), ("minWithdrawAmount", .int 5),
        ("minDepositAmount", .int 6)]) = some ⟨500000000⟩ ∧
      minDepositOf sampleEnv (.object [("symbol", .string "BTC"),
        ("walletStatus", .string "ok"), ("withdrawFee", .int 4), ("minWithdrawAmount", .int 5),
        ("minDepositAmount", .int 6)]) = some ⟨600000000⟩ ∧
      (∃ t : CoinInfoTables Coin,
        buildDepositWithdrawFees sampleEnv (.Parsed sampleCoinInfoTwice) = .ok t ∧
        Map.find t.withdraw_fees Coin.BTC =
          some ⟨⟨⟨100000000⟩, Coin.BTC⟩, ⟨⟨0⟩, Coin.BTC⟩, ⟨⟨200000000⟩, Coin.BTC⟩⟩ ∧
        Map.find t.deposit_fees Coin.BTC =
          some ⟨⟨⟨0⟩, Coin.BTC⟩, ⟨⟨0⟩, Coin.BTC⟩, ⟨⟨300000000⟩, Coin.BTC⟩⟩) ∧
      (⟨⟨⟨100000000⟩, Coin.BTC⟩, ⟨⟨0⟩, Coin.BTC⟩, ⟨⟨200000000⟩, Coin.BTC⟩⟩ : Fee Coin) ≠
        ⟨⟨⟨400000000⟩, Coin.BTC⟩, ⟨⟨0⟩, Coin.BTC⟩, ⟨⟨500000000⟩, Coin.BTC⟩⟩ := by
  refine ⟨?_, ?_, ?_, ?_, ?_, ?_⟩
  · rfl
  · rfl
  · rfl
  · rfl
  · exact ⟨_, rfl, rfl, rfl⟩
  · decide

/-- C17, amended: in an accepted coin-info response, for a record of a
recognized asset `a` with withdraw fee `f`, minimum withdraw amount `m` and
minimum deposit amount `d`: when its status permits the withdraw entry and no
earlier record of `a` does, the withdraw-fee record stored for `a` is
`(f, 0, m)`; when its status permits the deposit entry and no earlier record
of `a` does, the deposit-fee record stored for `a` is `(0, 0, d)`; every
component is an amount in `a`. -/
theorem first_open_record_fixes_fee_records (env : Env CurrencySymbol) (root : Value)
    (pre post : List Value) (coin : Value) (self : Exchange CurrencySymbol)
    (a : CurrencySymbol) (f m d : Number)
    (haccept : (ParseDepositWithdrawFees env (.Parsed root) self).1 = .ok ())
    (hinfo : root.member "info" = .ok (.array (pre ++ coin :: post)))
    (hasset : recordAsset env coin = some a)
    (hf : withdrawFeeOf env coin = some f) (hm : minWithdrawOf env coin = some m)
    (hd : minDepositOf env coin = some d) :
    ∃ t : CoinInfoTables CurrencySymbol,
      buildDepositWithdrawFees env (.Parsed root) = .ok t ∧
      (withdrawOpen coin = true →
        (∀ c ∈ pre, ¬ (recordAsset env c = some a ∧ withdrawOpen c = true)) →
          Map.find t.withdraw_fees a = some ⟨⟨f, a⟩, ⟨⟨0⟩, a⟩, ⟨m, a⟩⟩) ∧
      (depositOpen coin = true →
        (∀ c ∈ pre, ¬ (recordAsset env c = some a ∧ depositOpen c = true)) →
          Map.find t.deposit_fees a = some ⟨⟨⟨0⟩, a⟩, ⟨⟨0⟩, a⟩, ⟨d, a⟩⟩) := by
  obtain ⟨t, ht, _⟩ := ParseDepositWithdrawFees_accepts env _ self haccept
  have hloop := buildDepositWithdrawFees_loop env root _ t hinfo ht
  obtain ⟨t1, hpre, hrest⟩ := coinInfoLoop_append env pre (coin :: post) _ t hloop
  simp only [coinInfoLoop, Except.bind_eq_ok] at hrest
  obtain ⟨t2, hrec, hpost⟩ := hrest
  have hrec' := coinInfoRecord_ok env coin t1 t2 hrec
  rw [hasset] at hrec'
  obtain ⟨_, hw, hdep⟩ := hrec'
  obtain ⟨skipw, skipd⟩ := coinInfoLoop_skips env pre _ t1 a hpre
  obtain ⟨keepw, keepd⟩ := coinInfoLoop_keeps env post t2 t a hpost
  refine ⟨t, ht, fun hopen hfirst => ?_, fun hopen hfirst => ?_⟩
  · rw [if_pos hopen] at hw
    obtain ⟨fee, amount, hfields, hw⟩ := hw
    obtain ⟨hfee, hamount⟩ := withdrawFields_values env coin fee amount hfields
    rw [hf] at hfee
    rw [hm] at hamount
    cases hfee
    cases hamount
    apply keepw
    rw [hw]
    exact Map.find_insert_self _ _ _ (by rw [skipw hfirst]; rfl)
  · rw [if_pos hopen] at hdep
    obtain ⟨minAmount, hfield, hdep⟩ := hdep
    have hmin := depositField_value env coin minAmount hfield
    rw [hd] at hmin
    cases hmin
    apply keepd
    rw [hdep]
    exact Map.find_insert_self _ _ _ (by rw [skipd hfirst]; rfl)

/-- Witness of the amended C17: the first record of `sampleCoinInfoTwice`. -/
theorem first_open_record_fixes_fee_records_witness :
    ∃ t : CoinInfoTables Coin,
      buildDepositWithdrawFees sampleEnv (.Parsed sampleCoinInfoTwice) = .ok t ∧
      Map.find t.withdraw_fees Coin.BTC =
        some ⟨⟨⟨100000000⟩, Coin.BTC⟩, ⟨⟨0⟩, Coin.BTC⟩, ⟨⟨200000000⟩, Coin.BTC⟩⟩ ∧
      Map.find t.deposit_fees Coin.BTC =
        some ⟨⟨⟨0⟩, Coin.BTC⟩, ⟨⟨0⟩, Coin.BTC⟩, ⟨⟨300000000⟩, Coin.BTC⟩⟩ := by
  obtain ⟨t, ht, hw, hd⟩ := first_open_record_fixes_fee_records sampleEnv sampleCoinInfoTwice []
    [.object [("symbol", .string "BTC"), ("walletStatus", .string "ok"),
      ("withdrawFee", .int 4), ("minWithdrawAmount", .int 5), ("minDepositAmount", .int 6)]]
    (.object [("symbol", .string "BTC"), ("walletStatus", .string "ok"),
      ("withdrawFee", .int 1), ("minWithdrawAmount", .string " 2 "),
      ("minDepositAmount", .int 3)])
    emptyExchange Coin.BTC ⟨100000000⟩ ⟨200000000⟩ ⟨300000000⟩
    (by rfl) (by rfl) (by rfl) (by rfl) (by rfl) (by rfl)
  exact ⟨t, ht, hw (by rfl) (fun _ h => absurd h (List.not_mem_nil _)),
    hd (by rfl) (fun _ h => absurd h (List.not_mem_nil _))⟩

/-! ## Keys of the precision table -/

/-- The keys of the precision table after the loop are those it had and the
recognized pairs of the records. -/
theorem restrictionLoop_keys (env : Env CurrencySymbol) (recs : List Value) :
    ∀ (t t' : RestrictionTables CurrencySymbol) (key : CurrencySymbol × CurrencySymbol),
      restrictionLoop env recs t = .ok t' →
        ((Map.find t'.precisions key).isSome = true ↔
          (Map.find t.precisions key).isSome = true ∨
            ∃ c ∈ recs, restrictionPair env c = some key) := by
  induction recs with
  | nil => intro t t' key h; simp [restrictionLoop] at h; subst h; simp
  | cons coin rest ih =>
    intro t t' key h
    simp only [restrictionLoop, Except.bind_eq_ok] at h
    obtain ⟨t1, h1, h2⟩ := h
    rw [ih t1 t' key h2]
    have hrec := restrictionRecord_ok env coin t t1 h1
    simp only [List.mem_cons, exists_eq_or_imp]
    cases hp : restrictionPair env coin with
    | none =>
      rw [hp] at hrec
      simp only at hrec
      subst hrec
      simp
    | some pair =>
      rw [hp] at hrec
      obtain ⟨_, _, _, _, _, _, e1, _⟩ := hrec
      rw [e1, Map.find_insert_isSome]
      simp only [Option.some.injEq]
      tauto

/-- A record whose pair string is of the form `"A/B"` has the pair of its first
two pieces. -/
theorem restrictionPair_of_exact (env : Env CurrencySymbol) (coin : Value)
    (pair : CurrencySymbol × CurrencySymbol)
    (h : restrictionExactPair env coin = some pair) : restrictionPair env coin = some pair := by
  unfold restrictionExactPair at h
  unfold restrictionPair
  cases hm : coin.member "currencyPair" with
  | error e => simp [hm] at h
  | ok v =>
    cases v <;> simp [hm] at h
    rename_i str
    simp only
    unfold exactPairOfString at h
    unfold pairOfString
    match hsp : split (c_str str), h with
    | [], h => simp [hsp] at h
    | [_], h => simp [hsp] at h
    | [p0, p1], h => simpa [hsp] using h
    | _ :: _ :: _ :: _, h => simp [hsp] at h

/-- C18, counterexample: the only record of the accepted response
`sampleRestrictionsThreeParts` has the pair string `"BTC/ETH/BCH"`, of three
pieces, so no record of the response has a pair string of the form `"A/B"`;
and yet the precision table handed to `SetPricePrecisions` has an entry for
`(BTC, ETH)`. -/
theorem three_part_restriction_counterexample :
    split "BTC/ETH/BCH" = ["BTC", "ETH", "BCH"] ∧
      (∀ c ∈ [Value.object [("currencyPair", .string "BTC/ETH/BCH"), ("priceScale", .int 4),
          ("minLimitQuantity", .int 1)]],
        restrictionExactPair sampleEnv c = none) ∧
      sampleRestrictionsThreeParts.member "restrictions" =
        .ok (.array [.object [("currencyPair", .string "BTC/ETH/BCH"), ("priceScale", .int 4),
          ("minLimitQuantity", .int 1)]]) ∧
      ∃ t : RestrictionTables Coin,
        ParseExchangeLimitsPrecision sampleEnv (.Parsed sampleRestrictionsThreeParts)
            emptyExchange
          = (.ok t.min_limit_quantity, emptyExchange.SetPricePrecisions t.precisions) ∧
        Map.find t.precisions (Coin.BTC, Coin.ETH) = some (tickSize sampleEnv 4 Coin.BTC) := by
  refine ⟨by decide, ?_, rfl, ⟨_, _⟩, rfl, rfl⟩
  intro c hc
  rw [List.mem_singleton] at hc
  subst hc
  rfl

/-- C18, amended: in an accepted restrictions response, the precision table
handed to `SetPricePrecisions` has an entry for `(A, B)` exactly when some
record of the response has a pair string whose first two pieces at `/` are the
recognized symbols `A` and `B`, whatever follows them; so when no record names
`(B, A)` in this way the table has no entry for `(B, A)`, whatever records
there are for `(A, B)`, and a record whose pair string is of the form `"A/B"`
with both symbols recognized gives an entry for `(A, B)`. -/
theorem precision_entries_are_one_way (env : Env CurrencySymbol) (root : Value)
    (recs : List Value) (self : Exchange CurrencySymbol)
    (limits : limit_quantities_t CurrencySymbol) (A B : CurrencySymbol)
    (haccept : (ParseExchangeLimitsPrecision env (.Parsed root) self).1 = .ok limits)
    (hrecs : root.member "restrictions" = .ok (.array recs)) :
    ∃ t : RestrictionTables CurrencySymbol,
      ParseExchangeLimitsPrecision env (.Parsed root) self
        = (.ok t.min_limit_quantity, self.SetPricePrecisions t.precisions) ∧
      ((Map.find t.precisions (A, B)).isSome = true ↔
        ∃ c ∈ recs, restrictionPair env c = some (A, B)) ∧
      ((¬ ∃ c ∈ recs, restrictionPair env c = some (B, A)) →
        Map.find t.precisions (B, A) = none) ∧
      ((∃ c ∈ recs, restrictionExactPair env c = some (A, B)) →
        (Map.find t.precisions (A, B)).isSome = true) := by
  obtain ⟨t, ht, _, _⟩ := ParseExchangeLimitsPrecision_accepts env _ self limits haccept
  have hloop := buildExchangeLimitsPrecision_loop env root _ t hrecs ht
  have hkeys := fun key => restrictionLoop_keys env recs _ t key hloop
  have hiff : (Map.find t.precisions (A, B)).isSome = true ↔
      ∃ c ∈ recs, restrictionPair env c = some (A, B) := by
    rw [hkeys (A, B)]
    simp [Map.find]
  refine ⟨t, ?_, hiff, ?_, ?_⟩
  · simp only [ParseExchangeLimitsPrecision, ht]
  · intro hnone
    have h := hkeys (B, A)
    simp only [Map.find, Option.isSome_none, Bool.false_eq_true, false_or] at h
    cases hf : Map.find t.precisions (B, A) with
    | none => rfl
    | some x =>
      rw [hf] at h
      exact absurd (h.1 rfl) hnone
  · rintro ⟨c, hc, hexact⟩
    exact hiff.2 ⟨c, hc, restrictionPair_of_exact env c (A, B) hexact⟩

/-- Witness of the amended C18 on `sampleRestrictionsOneWay`: an entry for
BCH/BTC, none for BTC/BCH. -/
theorem precision_entries_are_one_way_witness :
    ∃ t : RestrictionTables Coin,
      ParseExchangeLimitsPrecision sampleEnv (.Parsed sampleRestrictionsOneWay) emptyExchange
        = (.ok t.min_limit_quantity, emptyExchange.SetPricePrecisions t.precisions) ∧
      (Map.find t.precisions (Coin.BCH, Coin.BTC)).isSome = true ∧
      Map.find t.precisions (Coin.BTC, Coin.BCH) = none := by
  obtain ⟨t, ht, hiff, hrev, _⟩ := precision_entries_are_one_way sampleEnv
    sampleRestrictionsOneWay
    [.object [("currencyPair", .string "BCH/BTC"), ("priceScale", .int 4),
      ("minLimitQuantity", .int 1)]]
    emptyExchange [((Coin.BCH, Coin.BTC), ⟨100000000⟩)] Coin.BCH Coin.BTC (by rfl) (by rfl)
  refine ⟨t, ht, hiff.2 ⟨_, List.mem_singleton.2 rfl, by rfl⟩, hrev ?_⟩
  rintro ⟨c, hc, hp⟩
  rw [List.mem_singleton] at hc
  subst hc
  revert hp
  decide

/-! ## Denomination of the fee records -/

theorem Map.mem_of_mem_insert {K V : Type} [DecidableEq K] (m : Map K V) (k : K) (v : V)
    (x : K × V) (h : x ∈ Map.insert m k v) : x ∈ m ∨ x = (k, v) := by
  unfold Map.insert at h
  cases hf : Map.find m k with
  | some y => rw [hf] at h; exact Or.inl h
  | none =>
    rw [hf] at h
    simp only [List.mem_append, List.mem_singleton] at h
    exact h

theorem coinInfoLoop_denominated (env : Env CurrencySymbol) (recs : List Value) :
    ∀ (t t' : CoinInfoTables CurrencySymbol), coinInfoLoop env recs t = .ok t' →
      ((∀ p ∈ t.withdraw_fees, denominatedIn p.2 p.1) ∧
        (∀ p ∈ t.deposit_fees, denominatedIn p.2 p.1)) →
      (∀ p ∈ t'.withdraw_fees, denominatedIn p.2 p.1) ∧
        (∀ p ∈ t'.deposit_fees, denominatedIn p.2 p.1) := by
  induction recs with
  | nil => intro t t' h hn; simp [coinInfoLoop] at h; subst h; exact hn
  | cons coin rest ih =>
    intro t t' h hn
    simp only [coinInfoLoop, Except.bind_eq_ok] at h
    obtain ⟨t1, h1, h2⟩ := h
    refine ih t1 t' h2 ?_
    have hrec := coinInfoRecord_ok env coin t t1 h1
    cases hv : recordAsset env coin with
    | none => rw [hv] at hrec; simp only at hrec; subst hrec; exact hn
    | some v =>
      rw [hv] at hrec
      obtain ⟨_, hw, hd⟩ := hrec
      refine ⟨?_, ?_⟩
      · split at hw
        · obtain ⟨fee, amount, _, hw⟩ := hw
          intro p hp
          rw [hw] at hp
          rcases Map.mem_of_mem_insert _ _ _ _ hp with h | h
          · exact hn.1 p h
          · subst h
            exact ⟨rfl, rfl, rfl⟩
        · rw [hw]; exact hn.1
      · split at hd
        · obtain ⟨minAmount, _, hd⟩ := hd
          intro p hp
          rw [hd] at hp
          rcases Map.mem_of_mem_insert _ _ _ _ hp with h | h
          · exact hn.2 p h
          · subst h
            exact ⟨rfl, rfl, rfl⟩
        · rw [hd]; exact hn.2

theorem exchangeFeesLoop_denominated (fee : Number) (limits : limit_quantities_t CurrencySymbol)
    (pairs : trading_pairs_t CurrencySymbol) :
    ∀ (fees fees' : ExchangeFeesMap CurrencySymbol),
      exchangeFeesLoop fee limits pairs fees = .ok fees' →
      (∀ p ∈ fees, denominatedIn p.2 p.1.2 ∧ p.2.fixed.number = ⟨0⟩ ∧ p.2.rate.number = fee) →
      ∀ p ∈ fees', denominatedIn p.2 p.1.2 ∧ p.2.fixed.number = ⟨0⟩ ∧ p.2.rate.number = fee := by
  induction pairs with
  | nil => intro fees fees' h hn; simp [exchangeFeesLoop] at h; subst h; exact hn
  | cons c rest ih =>
    intro fees fees' h hn
    unfold exchangeFeesLoop at h
    cases hc : Map.find limits c with
    | none => rw [hc] at h; cases h
    | some q =>
      rw [hc] at h
      refine ih _ fees' h ?_
      intro p hp
      rcases Map.mem_of_mem_insert _ _ _ _ hp with h1 | h1
      · rcases Map.mem_of_mem_insert _ _ _ _ h1 with h2 | h2
        · exact hn p h2
        · subst h2
          exact ⟨⟨rfl, rfl, rfl⟩, rfl, rfl⟩
      · subst h1
        exact ⟨⟨rfl, rfl, rfl⟩, rfl, rfl⟩

theorem buildDepositWithdrawFees_ok_loop (env : Env CurrencySymbol) (content : Document)
    (t : CoinInfoTables CurrencySymbol) (h : buildDepositWithdrawFees env content = .ok t) :
    ∃ info, coinInfoLoop env info ⟨[], [], []⟩ = .ok t := by
  cases content with
  | ParseError => simp [buildDepositWithdrawFees] at h
  | Parsed root =>
    simp only [buildDepositWithdrawFees, Except.bind_eq_ok] at h
    obtain ⟨_, _, b, _, h⟩ := h
    cases b <;> simp [Except.bind_eq_ok] at h
    obtain ⟨w, _, h⟩ := h
    cases hw : w.IsArray <;> simp [hw, Except.bind_eq_ok] at h
    obtain ⟨_, _, info, _, h⟩ := h
    exact ⟨info, h⟩

theorem buildExchangeFees_ok_loop (env : Env CurrencySymbol) (content : Document)
    (pairs : trading_pairs_t CurrencySymbol) (limits : limit_quantities_t CurrencySymbol)
    (fees : ExchangeFeesMap CurrencySymbol)
    (h : buildExchangeFees env content pairs limits = .ok fees) :
    ∃ r, globalRate env content = some r ∧ exchangeFeesLoop r limits pairs [] = .ok fees := by
  cases content with
  | ParseError => simp [buildExchangeFees] at h
  | Parsed root =>
    simp only [buildExchangeFees, Except.bind_eq_ok] at h
    obtain ⟨_, _, b, _, h⟩ := h
    cases b <;> simp [Except.bind_eq_ok] at h
    obtain ⟨w, hw, h⟩ := h
    cases w <;> simp [Value.IsString, Except.bind_eq_ok] at h
    rename_i str
    simp only [hw, Except.ok.injEq, exists_eq_left', Value.GetString, Except.pure_eq_ok] at h
    cases hf : env.Number_FromStr (c_str str) with
    | none => simp [hf] at h
    | some r =>
      simp only [hf, exists_eq_left'] at h
      exact ⟨r, by simp [globalRate, hw, hf], h⟩

/-- C19: every record of the fee tables the parsers hand to the exchange is
denominated in one asset fixed by its key. The withdraw-fee and deposit-fee
records keyed by `a` have all components in `a`; the exchange-fee records keyed
by `(X, Y)` have all components in `Y`, a zero base component, and the global
trade rate as their rate. -/
theorem published_fee_records_denominated (env : Env CurrencySymbol)
    (coinInfo commission : Document) (pairs : trading_pairs_t CurrencySymbol)
    (limits : limit_quantities_t CurrencySymbol) (self : Exchange CurrencySymbol)
    (h1 : (ParseDepositWithdrawFees env coinInfo self).1 = .ok ())
    (h2 : (ParseExchangeFees env commission pairs limits self).1 = .ok ()) :
    (∃ t : CoinInfoTables CurrencySymbol,
      ParseDepositWithdrawFees env coinInfo self = (.ok (), publishDepositWithdrawFees t self) ∧
      (∀ a f, (a, f) ∈ t.withdraw_fees → denominatedIn f a) ∧
      (∀ a f, (a, f) ∈ t.deposit_fees → denominatedIn f a)) ∧
    (∃ (fees : ExchangeFeesMap CurrencySymbol) (r : Number),
      ParseExchangeFees env commission pairs limits self = (.ok (), self.SetExchangeFees fees) ∧
      globalRate env commission = some r ∧
      ∀ X Y f, ((X, Y), f) ∈ fees →
        denominatedIn f Y ∧ f.fixed.number = ⟨0⟩ ∧ f.rate.number = r) := by
  obtain ⟨t, ht, _⟩ := ParseDepositWithdrawFees_accepts env coinInfo self h1
  obtain ⟨fees, hfees, _⟩ := ParseExchangeFees_accepts env commission pairs limits self h2
  obtain ⟨info, hinfo⟩ := buildDepositWithdrawFees_ok_loop env coinInfo t ht
  obtain ⟨r, hr, hloop⟩ := buildExchangeFees_ok_loop env commission pairs limits fees hfees
  have hwallet := coinInfoLoop_denominated env info _ t hinfo
    ⟨fun p hp => absurd hp (List.not_mem_nil p), fun p hp => absurd hp (List.not_mem_nil p)⟩
  have htrade := exchangeFeesLoop_denominated r limits pairs [] fees hloop
    (fun p hp => absurd hp (List.not_mem_nil p))
  refine ⟨⟨t, ?_, fun a f h => hwallet.1 (a, f) h, fun a f h => hwallet.2 (a, f) h⟩,
    ⟨fees, r, ?_, hr, fun X Y f h => htrade ((X, Y), f) h⟩⟩
  · simp only [ParseDepositWithdrawFees, ht]
  · simp only [ParseExchangeFees, hfees]

/-- Witness of C19 on the sample responses. -/
theorem published_fee_records_denominated_witness :
    ∃ (fees : ExchangeFeesMap Coin) (r : Number),
      ParseExchangeFees sampleEnv (.Parsed sampleCommission) [(Coin.BTC, Coin.ETH)] sampleLimits
        emptyExchange = (.ok (), emptyExchange.SetExchangeFees fees) ∧
      globalRate sampleEnv (.Parsed sampleCommission) = some r ∧
      ∀ X Y f, ((X, Y), f) ∈ fees →
        denominatedIn f Y ∧ f.fixed.number = ⟨0⟩ ∧ f.rate.number = r :=
  (published_fee_records_denominated sampleEnv (.Parsed sampleCoinInfo)
    (.Parsed sampleCommission) [(Coin.BTC, Coin.ETH)] sampleLimits emptyExchange
    (by rfl) (by rfl)).2

/-! ## Top-level checks -/

/-- On an object the checks on `"success"` return or throw, and they throw
when the member is absent, not a boolean, or false. -/
theorem checkSuccess_object (ms : List (String × Value)) :
    (checkSuccess (.object ms) = .ok () ∨
      ∃ msg, checkSuccess (.object ms) = .error (.runtime_error msg)) ∧
    (successMissingOrFalse ms →
      ∃ msg, checkSuccess (.object ms) = .error (.runtime_error msg)) := by
  unfold successMissingOrFalse
  cases hs : Value.FindMember ms "success" with
  | none =>
    have h : checkSuccess (.object ms) =
        .error (.runtime_error "Expected data member, not found") := by
      simp [checkSuccess, Value.HasMember, hs]
    exact ⟨Or.inr ⟨_, h⟩, fun _ => ⟨_, h⟩⟩
  | some v =>
    cases v with
    | boolean b =>
      cases b with
      | true =>
        have h : checkSuccess (.object ms) = .ok () := by
          simp [checkSuccess, Value.HasMember, Value.member, hs, Value.IsBool, Value.GetBool]
        refine ⟨Or.inl h, fun hbad => ?_⟩
        rcases hbad with h' | ⟨v, h', hv⟩ | h'
        · cases h'
        · simp only [Option.some.injEq] at h'
          subst h'
          simp [Value.IsBool] at hv
        · simp at h'
      | false =>
        have h : checkSuccess (.object ms) =
            .error (.runtime_error "tradeogre request failed ") := by
          simp [checkSuccess, Value.HasMember, Value.member, hs, Value.IsBool, Value.GetBool]
        exact ⟨Or.inr ⟨_, h⟩, fun _ => ⟨_, h⟩⟩
    | null =>
      have h : checkSuccess (.object ms) =
          .error (.runtime_error "Expected data member, not found") := by
        simp [checkSuccess, Value.HasMember, Value.member, hs, Value.IsBool]
      exact ⟨Or.inr ⟨_, h⟩, fun _ => ⟨_, h⟩⟩
    | int i =>
      have h : checkSuccess (.object ms) =
          .error (.runtime_error "Expected data member, not found") := by
        simp [checkSuccess, Value.HasMember, Value.member, hs, Value.IsBool]
      exact ⟨Or.inr ⟨_, h⟩, fun _ => ⟨_, h⟩⟩
    | real q =>
      have h : checkSuccess (.object ms) =
          .error (.runtime_error "Expected data member, not found") := by
        simp [checkSuccess, Value.HasMember, Value.member, hs, Value.IsBool]
      exact ⟨Or.inr ⟨_, h⟩, fun _ => ⟨_, h⟩⟩
    | string str =>
      have h : checkSuccess (.object ms) =
          .error (.runtime_error "Expected data member, not found") := by
        simp [checkSuccess, Value.HasMember, Value.member, hs, Value.IsBool]
      exact ⟨Or.inr ⟨_, h⟩, fun _ => ⟨_, h⟩⟩
    | array xs =>
      have h : checkSuccess (.object ms) =
          .error (.runtime_error "Expected data member, not found") := by
        simp [checkSuccess, Value.HasMember, Value.member, hs, Value.IsBool]
      exact ⟨Or.inr ⟨_, h⟩, fun _ => ⟨_, h⟩⟩
    | object os =>
      have h : checkSuccess (.object ms) =
          .error (.runtime_error "Expected data member, not found") := by
        simp [checkSuccess, Value.HasMember, Value.member, hs, Value.IsBool]
      exact ⟨Or.inr ⟨_, h⟩, fun _ => ⟨_, h⟩⟩

/-- On a document whose root is an object: when its top-level `"success"`
member is absent, not a boolean or false, or its required top-level member (the array `"info"`, the
array `"restrictions"`, the string `"fee"`) is missing or of the wrong type,
`ParseDepositWithdrawFees`, `ParseExchangeLimitsPrecision` and
`ParseExchangeFees` throw and leave the exchange state, all its tables
included, as it was; `ParseTradingPairs`, which has no access to the state,
throws on every document that is not an array. -/
theorem top_level_checks_reject (env : Env CurrencySymbol) (ms : List (String × Value))
    (pairs : trading_pairs_t CurrencySymbol) (limits : limit_quantities_t CurrencySymbol)
    (self : Exchange CurrencySymbol) :
    ((successMissingOrFalse ms ∨ fieldMissingOrMistyped Value.IsArray ms "info") →
      ∃ msg, ParseDepositWithdrawFees env (.Parsed (.object ms)) self =
        (.error (.runtime_error msg), self)) ∧
    ((successMissingOrFalse ms ∨ fieldMissingOrMistyped Value.IsArray ms "restrictions") →
      ∃ msg, ParseExchangeLimitsPrecision env (.Parsed (.object ms)) self =
        (.error (.runtime_error msg), self)) ∧
    ((successMissingOrFalse ms ∨ fieldMissingOrMistyped Value.IsString ms "fee") →
      ∃ msg, ParseExchangeFees env (.Parsed (.object ms)) pairs limits self =
        (.error (.runtime_error msg), self)) ∧
    (∀ document : Value, document.IsArray = false →
      ParseTradingPairs env (.Parsed document) = .error (.runtime_error "tradeogre no info ")) := by
  obtain ⟨hcases, hrej⟩ := checkSuccess_object ms
  refine ⟨fun hbad => ?_, fun hbad => ?_, fun hbad => ?_, fun document harr => ?_⟩
  · have hbuild : ∃ msg, buildDepositWithdrawFees env (.Parsed (.object ms)) =
        .error (.runtime_error msg) := by
      rcases hbad with hs | hf
      · obtain ⟨msg, hmsg⟩ := hrej hs
        exact ⟨msg, by simp [buildDepositWithdrawFees, hmsg]⟩
      · rcases hcases with hok | ⟨msg, hmsg⟩
        · rcases hf with h | ⟨v, h, hv⟩
          · exact ⟨"tradeogre no info ", by
              simp [buildDepositWithdrawFees, hok, Value.HasMember, h]⟩
          · exact ⟨"tradeogre no info ", by
              simp [buildDepositWithdrawFees, hok, Value.HasMember, Value.member, h, hv]⟩
        · exact ⟨msg, by simp [buildDepositWithdrawFees, hmsg]⟩
    obtain ⟨msg, hmsg⟩ := hbuild
    exact ⟨msg, by simp only [ParseDepositWithdrawFees, hmsg]⟩
  · have hbuild : ∃ msg, buildExchangeLimitsPrecision env (.Parsed (.object ms)) =
        .error (.runtime_error msg) := by
      rcases hbad with hs | hf
      · obtain ⟨msg, hmsg⟩ := hrej hs
        exact ⟨msg, by simp [buildExchangeLimitsPrecision, hmsg]⟩
      · rcases hcases with hok | ⟨msg, hmsg⟩
        · rcases hf with h | ⟨v, h, hv⟩
          · exact ⟨"tradeogre no info ", by
              simp [buildExchangeLimitsPrecision, hok, Value.HasMember, h]⟩
          · exact ⟨"tradeogre no info ", by
              simp [buildExchangeLimitsPrecision, hok, Value.HasMember, Value.member, h, hv]⟩
        · exact ⟨msg, by simp [buildExchangeLimitsPrecision, hmsg]⟩
    obtain ⟨msg, hmsg⟩ := hbuild
    exact ⟨msg, by simp only [ParseExchangeLimitsPrecision, hmsg]⟩
  · have hbuild : ∃ msg, buildExchangeFees env (.Parsed (.object ms)) pairs limits =
        .error (.runtime_error msg) := by
      rcases hbad with hs | hf
      · obtain ⟨msg, hmsg⟩ := hrej hs
        exact ⟨msg, by simp [buildExchangeFees, hmsg]⟩
      · rcases hcases with hok | ⟨msg, hmsg⟩
        · rcases hf with h | ⟨v, h, hv⟩
          · exact ⟨"tradeogre no fee ", by
              simp [buildExchangeFees, hok, Value.HasMember, h]⟩
          · exact ⟨"tradeogre no fee ", by
              simp [buildExchangeFees, hok, Value.HasMember, Value.member, h, hv]⟩
        · exact ⟨msg, by simp [buildExchangeFees, hmsg]⟩
    obtain ⟨msg, hmsg⟩ := hbuild
    exact ⟨msg, by simp only [ParseExchangeFees, hmsg]⟩
  · simp [ParseTradingPairs, harr]

/-- An instance of the checks on an object root: a coin-info response without
`"success"`, and a ticker response that is an object. -/
theorem top_level_checks_reject_witness :
    (∃ msg, ParseDepositWithdrawFees sampleEnv (.Parsed (.object sampleMembersNoSuccess))
        samplePrior = (.error (.runtime_error msg), samplePrior)) ∧
      ParseTradingPairs sampleEnv (.Parsed sampleCommission) =
        .error (.runtime_error "tradeogre no info ") :=
  ⟨(top_level_checks_reject sampleEnv sampleMembersNoSuccess [] [] samplePrior).1
      (Or.inl (Or.inl (by rfl))),
    (top_level_checks_reject sampleEnv sampleMembersNoSuccess [] [] samplePrior).2.2.2
      sampleCommission (by rfl)⟩

/-- C20, the code at the failing inputs: a body whose root is not an object
(the empty array, `null`, the number 3) has no top-level `"success"`, and yet
`ParseDepositWithdrawFees`, `ParseExchangeLimitsPrecision` and
`ParseExchangeFees` do not throw a runtime error on it: their first check
calls `HasMember` on a value that is not an object, against the precondition
of that call. `ParseTradingPairs`, which tests the kind of the root before it
reads it, throws on a root that is not an array. -/
theorem non_object_root_reaches_has_member :
    (ParseDepositWithdrawFees sampleEnv (.Parsed (.array [])) samplePrior).1 =
        .error (.undefined "HasMember: IsObject()") ∧
      (ParseExchangeLimitsPrecision sampleEnv (.Parsed .null) samplePrior).1 =
        .error (.undefined "HasMember: IsObject()") ∧
      (ParseExchangeFees sampleEnv (.Parsed (.int 3)) [] [] samplePrior).1 =
        .error (.undefined "HasMember: IsObject()") ∧
      ParseTradingPairs sampleEnv (.Parsed (.object [])) =
        .error (.runtime_error "tradeogre no info ") := by
  refine ⟨?_, ?_, ?_, ?_⟩
  · rfl
  · rfl
  · rfl
  · rfl

/-! ## Kinds of frames -/

theorem trackerCalls_append (l1 l2 : List (Event CurrencySymbol)) :
    trackerCalls (l1 ++ l2) = trackerCalls l1 ++ trackerCalls l2 := by
  induction l1 with
  | nil => rfl
  | cons e rest ih => cases e <;> simp [trackerCalls, ih]

theorem trackerCalls_postDiff (orders : List (Order CurrencySymbol)) (name : String)
    (action : Action) :
    trackerCalls (orders.map (fun c => Event.postDiff c name action)) = [] := by
  induction orders with
  | nil => rfl
  | cons o rest ih => simp [trackerCalls, ih]

theorem fullCallbacks_append (l1 l2 : List (Event CurrencySymbol)) :
    fullCallbacks (l1 ++ l2) = fullCallbacks l1 ++ fullCallbacks l2 := by
  induction l1 with
  | nil => rfl
  | cons e rest ih => cases e <;> simp [fullCallbacks, ih]

theorem fullCallbacks_postDiff (orders : List (Order CurrencySymbol)) (name : String)
    (action : Action) :
    fullCallbacks (orders.map (fun c => Event.postDiff c name action)) = [] := by
  induction orders with
  | nil => rfl
  | cons o rest ih => simp [fullCallbacks, ih]

/-- The part of the handler after the classification never calls the ping/pong
tracker; for a snapshot it posts no delta callback and for a diff no
full-update callback. -/
theorem handleOrders_events (env : Env CurrencySymbol) (full : Bool) (ocb : OrderBookMessage) :
    trackerCalls (handleOrders env full ocb).2 = [] ∧
      (full = true ∧ deltaCallbacks (handleOrders env full ocb).2 = [] ∨
        full = false ∧ fullCallbacks (handleOrders env full ocb).2 = []) := by
  unfold handleOrders
  cases h0 : vectorAt (split ocb.currency_pair) 0 with
  | error e => cases full <;> simp [h0, trackerCalls, deltaCallbacks, fullCallbacks]
  | ok part0 =>
    cases h1 : vectorAt (split ocb.currency_pair) 1 with
    | error e => cases full <;> simp [h0, h1, trackerCalls, deltaCallbacks, fullCallbacks]
    | ok part1 =>
      cases hf : env.currency_FromStr part0 with
      | none => cases full <;> simp [h0, h1, hf, trackerCalls, deltaCallbacks, fullCallbacks]
      | some a =>
        cases ht : env.currency_FromStr part1 with
        | none =>
          cases full <;> simp [h0, h1, hf, ht, trackerCalls, deltaCallbacks, fullCallbacks]
        | some b =>
          cases full
          · simp [h0, h1, hf, ht, trackerCalls_append, trackerCalls_postDiff,
              fullCallbacks_append, fullCallbacks_postDiff]
          · simp [h0, h1, hf, ht, trackerCalls, deltaCallbacks]

/-- C21: every inbound message is of exactly one kind, heartbeat (size zero),
snapshot, diff, error or unrecognized (by its response type), and whatever its
kind the handler first hands its tick count to the ping/pong tracker, with
`RegisterPong` and then `RegisterPing`, and never calls the tracker again. A
heartbeat does nothing more; an error frame and an unrecognized frame log one
error and return; these three kinds schedule no callback, so a message that
schedules one is a snapshot or a diff; a snapshot schedules no delta callback
and a diff no full-update callback. -/
theorem frame_kinds_and_tick_registration (env : Env CurrencySymbol) (message : Message)
    (ping_time : Nat) :
    (∃ rest, (onMessage env message ping_time).2 =
        Event.RegisterPong ping_time :: Event.RegisterPing ping_time :: rest ∧
      trackerCalls rest = []) ∧
    (match frameKind message with
      | FrameKind.heartbeat =>
        onMessage env message ping_time =
          (.ok (), [Event.RegisterPong ping_time, Event.RegisterPing ping_time])
      | FrameKind.error =>
        onMessage env message ping_time =
          (.ok (), [Event.RegisterPong ping_time, Event.RegisterPing ping_time,
            Event.log_error "[tradeogre] Error"])
      | FrameKind.unrecognized =>
        onMessage env message ping_time =
          (.ok (), [Event.RegisterPong ping_time, Event.RegisterPing ping_time,
            Event.log_error "[tradeogre] Unknown message type "])
      | FrameKind.snapshot => deltaCallbacks (onMessage env message ping_time).2 = []
      | FrameKind.diff => fullCallbacks (onMessage env message ping_time).2 = []) ∧
    (frameKind message = FrameKind.snapshot ∨ frameKind message = FrameKind.diff ∨
      callbacksScheduled (onMessage env message ping_time).2 = 0) := by
  cases message with
  | empty =>
    refine ⟨⟨[], rfl, rfl⟩, rfl, Or.inr (Or.inr rfl)⟩
  | frame response =>
    cases response with
    | ORDER_BOOK_CHANNEL_SUBSCRIBED ocb =>
      obtain ⟨htrack, hside⟩ := handleOrders_events env true ocb
      refine ⟨⟨(handleOrders env true ocb).2, rfl, htrack⟩, ?_, Or.inl rfl⟩
      rcases hside with ⟨_, h⟩ | ⟨h, _⟩
      · simpa [frameKind, onMessage, deltaCallbacks] using h
      · cases h
    | ORDER_BOOK_NOTIFY ocb =>
      obtain ⟨htrack, hside⟩ := handleOrders_events env false ocb
      refine ⟨⟨(handleOrders env false ocb).2, rfl, htrack⟩, ?_, Or.inr (Or.inl rfl)⟩
      rcases hside with ⟨h, _⟩ | ⟨_, h⟩
      · cases h
      · simpa [frameKind, onMessage, fullCallbacks] using h
    | ERROR er =>
      refine ⟨⟨[Event.log_error "[tradeogre] Error"], rfl, rfl⟩, rfl, Or.inr (Or.inr rfl)⟩
    | unknown response_type =>
      refine ⟨⟨[Event.log_error "[tradeogre] Unknown message type "], rfl, rfl⟩, rfl,
        Or.inr (Or.inr rfl)⟩

/-! ## Orders that do not parse -/

theorem decodeOrder_eq (env : Env CurrencySymbol) (A B : CurrencySymbol) (e : OrderBookEvent) :
    decodeOrder env A B e =
      if orderParses env e = true then
        (env.Number_FromStr e.price).bind (fun price =>
          (env.Number_FromStr e.quantity).map (fun amount =>
            ⟨A, B, ⟨price, B⟩, ⟨amount, A⟩,
              if e.order_type = OrderType.BID then Direction.BUY else Direction.SELL⟩))
      else none := by
  unfold decodeOrder orderParses
  cases hp : env.Number_FromStr e.price <;> cases hq : env.Number_FromStr e.quantity <;> simp

theorem frameOrders_length_parses (env : Env CurrencySymbol) (A B : CurrencySymbol)
    (data : List OrderBookEvent) :
    (frameOrders env A B data).length = (data.filter (orderParses env)).length := by
  induction data with
  | nil => rfl
  | cons e rest ih =>
    unfold frameOrders at ih ⊢
    rw [List.filterMap_cons, List.filter_cons, decodeOrder_eq]
    cases hp : env.Number_FromStr e.price <;> cases hq : env.Number_FromStr e.quantity <;>
      simp [orderParses, hp, hq, ih]

theorem mem_frameOrders (env : Env CurrencySymbol) (A B : CurrencySymbol)
    (data : List OrderBookEvent) (o : Order CurrencySymbol) :
    o ∈ frameOrders env A B data ↔
      ∃ e ∈ data, ∃ price amount, env.Number_FromStr e.price = some price ∧
        env.Number_FromStr e.quantity = some amount ∧
        o = ⟨A, B, ⟨price, B⟩, ⟨amount, A⟩,
          if e.order_type = OrderType.BID then Direction.BUY else Direction.SELL⟩ := by
  unfold frameOrders
  rw [List.mem_filterMap]
  constructor
  · rintro ⟨e, he, hd⟩
    refine ⟨e, he, ?_⟩
    unfold decodeOrder at hd
    cases hp : env.Number_FromStr e.price with
    | none => simp [hp] at hd
    | some price =>
      cases hq : env.Number_FromStr e.quantity with
      | none => simp [hp, hq] at hd
      | some amount =>
        simp [hp, hq] at hd
        exact ⟨price, amount, rfl, rfl, hd.symm⟩
  · rintro ⟨e, he, price, amount, hp, hq, ho⟩
    exact ⟨e, he, by simp [decodeOrder, hp, hq, ho]⟩

/-- C22: for a snapshot frame and for a diff frame whose pair string names the
recognized pair `(A, B)`, whatever its orders are, the handler does not fail;
the snapshot posts one callback with the BUY book and the SELL book of
`(A, B)` and the diff one delta callback per order, and in both cases the
orders delivered are, up to their order, the orders of the frame whose price
and quantity both parse, one for each such order and none for any other. Each
is built for `(A, B)` with its price in the quote asset `B` and its quantity
in the base asset `A`, BUY when the order type is `BID` and SELL otherwise. -/
theorem unparseable_orders_are_dropped (env : Env CurrencySymbol) (ocb : OrderBookMessage)
    (ping_time : Nat) (A B : CurrencySymbol)
    (hpair : pairOfString env ocb.currency_pair = some (A, B)) :
    (onMessage env (.frame (.ORDER_BOOK_CHANNEL_SUBSCRIBED ocb)) ping_time).1 = .ok () ∧
      (onMessage env (.frame (.ORDER_BOOK_NOTIFY ocb)) ping_time).1 = .ok () ∧
      fullCallbacks (onMessage env (.frame (.ORDER_BOOK_CHANNEL_SUBSCRIBED ocb)) ping_time).2 =
        [[⟨A, B, sideOf Direction.BUY (frameOrders env A B ocb.data), Direction.BUY⟩,
          ⟨A, B, sideOf Direction.SELL (frameOrders env A B ocb.data), Direction.SELL⟩]] ∧
      deltaCallbacks (onMessage env (.frame (.ORDER_BOOK_NOTIFY ocb)) ping_time).2 =
        sideOf Direction.SELL (frameOrders env A B ocb.data) ++
          sideOf Direction.BUY (frameOrders env A B ocb.data) ∧
      List.Perm
        (ordersDelivered
          (onMessage env (.frame (.ORDER_BOOK_CHANNEL_SUBSCRIBED ocb)) ping_time).2)
        (frameOrders env A B ocb.data) ∧
      List.Perm (ordersDelivered (onMessage env (.frame (.ORDER_BOOK_NOTIFY ocb)) ping_time).2)
        (frameOrders env A B ocb.data) ∧
      (frameOrders env A B ocb.data).length = (ocb.data.filter (orderParses env)).length ∧
      ∀ o : Order CurrencySymbol, o ∈ frameOrders env A B ocb.data ↔
        ∃ e ∈ ocb.data, ∃ price amount, env.Number_FromStr e.price = some price ∧
          env.Number_FromStr e.quantity = some amount ∧
          o = ⟨A, B, ⟨price, B⟩, ⟨amount, A⟩,
            if e.order_type = OrderType.BID then Direction.BUY else Direction.SELL⟩ := by
  have hfull : onMessage env (.frame (.ORDER_BOOK_CHANNEL_SUBSCRIBED ocb)) ping_time =
      (.ok (), [Event.RegisterPong ping_time, Event.RegisterPing ping_time,
        Event.postFull
          [⟨A, B, sideOf Direction.BUY (frameOrders env A B ocb.data), Direction.BUY⟩,
           ⟨A, B, sideOf Direction.SELL (frameOrders env A B ocb.data), Direction.SELL⟩]]) := by
    unfold onMessage
    simp only [handleOrders_full env ocb A B hpair, List.cons_append, List.nil_append]
  have hdiff := deltaCallbacks_onMessage_diff env ocb ping_time A B hpair
  have hdiffFull : fullCallbacks (onMessage env (.frame (.ORDER_BOOK_NOTIFY ocb)) ping_time).2
      = [] := by
    simp only [onMessage, handleOrders_diff env ocb A B hpair, List.cons_append,
      List.nil_append, fullCallbacks]
    exact fullCallbacks_postDiff _ _ _
  have hdiffOk : (onMessage env (.frame (.ORDER_BOOK_NOTIFY ocb)) ping_time).1 = .ok () := by
    simp only [onMessage, handleOrders_diff env ocb A B hpair]
  have hperm := sideOf_perm (frameOrders env A B ocb.data)
  refine ⟨by rw [hfull], hdiffOk, by rw [hfull]; rfl, hdiff, ?_, ?_,
    frameOrders_length_parses env A B ocb.data, mem_frameOrders env A B ocb.data⟩
  · rw [hfull]
    simp only [ordersDelivered, fullCallbacks, deltaCallbacks, List.flatten, List.map,
      List.append_nil]
    exact List.perm_append_comm.trans hperm
  · unfold ordersDelivered
    rw [hdiffFull, hdiff]
    exact hperm

/-- Witness of C22 on `sampleBadOrders`: of the four orders of the diff frame
the two that parse are delivered, the ask before the bid. -/
theorem unparseable_orders_are_dropped_witness :
    deltaCallbacks (onMessage sampleEnv (.frame (.ORDER_BOOK_NOTIFY sampleBadOrders)) 0).2 =
        [⟨Coin.BTC, Coin.ETH, ⟨⟨300000000⟩, Coin.ETH⟩, ⟨⟨400000000⟩, Coin.BTC⟩, Direction.SELL⟩,
         ⟨Coin.BTC, Coin.ETH, ⟨⟨100000000⟩, Coin.ETH⟩, ⟨⟨200000000⟩, Coin.BTC⟩, Direction.BUY⟩] ∧
      (frameOrders sampleEnv Coin.BTC Coin.ETH sampleBadOrders.data).length = 2 := by
  have h := unparseable_orders_are_dropped sampleEnv sampleBadOrders 0 Coin.BTC Coin.ETH (by rfl)
  refine ⟨?_, ?_⟩
  · rw [h.2.2.2.1]
    rfl
  · rw [h.2.2.2.2.2.2.1]
    rfl

/-! ## A failed parse of the coin-info response -/

theorem coinInfoLoop_append_bind (env : Env CurrencySymbol) (l1 l2 : List Value) :
    ∀ t : CoinInfoTables CurrencySymbol,
      coinInfoLoop env (l1 ++ l2) t = (coinInfoLoop env l1 t >>= coinInfoLoop env l2) := by
  induction l1 with
  | nil => intro t; rfl
  | cons c rest ih =>
    intro t
    simp only [List.cons_append, coinInfoLoop]
    cases hc : coinInfoRecord env c t with
    | error e => rfl
    | ok t1 => exact ih t1

theorem buildDepositWithdrawFees_eq_loop (env : Env CurrencySymbol) (root : Value)
    (info : List Value)
    (hsuccess : root.member "success" = .ok (.boolean true))
    (hinfo : root.member "info" = .ok (.array info)) :
    buildDepositWithdrawFees env (.Parsed root) = coinInfoLoop env info ⟨[], [], []⟩ := by
  cases root <;> simp [Value.member] at hsuccess
  rename_i ms
  cases h1 : Value.FindMember ms "success" with
  | none => simp [h1] at hsuccess
  | some v1 =>
    cases h2 : Value.FindMember ms "info" with
    | none => simp [Value.member, h2] at hinfo
    | some v2 =>
      simp [h1] at hsuccess
      simp [Value.member, h2] at hinfo
      subst hsuccess hinfo
      simp [buildDepositWithdrawFees, checkSuccess, Value.HasMember, Value.member, h1, h2,
        Value.IsBool, Value.GetBool, Value.IsArray, Value.GetArray]

/-- C23: whatever the exchange state before the call and whatever the response,
when `ParseDepositWithdrawFees` throws a runtime error the state after the call
is the state before it: the supported-currency set, the withdraw-fee table and
the deposit-fee table are unchanged. This covers a record that throws after
the records before it were accepted: in a response with `success` true whose
`info` is `pre ++ coin :: post`, when the loop accepts `pre` and `coin` throws
on the tables built from `pre`, the call throws that error and leaves the
state as it was. -/
theorem failed_fee_parse_changes_nothing (env : Env CurrencySymbol) (content : Document)
    (self : Exchange CurrencySymbol) (msg : String)
    (hfail : (ParseDepositWithdrawFees env content self).1 = .error (.runtime_error msg)) :
    ((ParseDepositWithdrawFees env content self).2.supported_currencies
        = self.supported_currencies ∧
      (ParseDepositWithdrawFees env content self).2.withdraw_fees = self.withdraw_fees ∧
      (ParseDepositWithdrawFees env content self).2.deposit_fees = self.deposit_fees ∧
      (ParseDepositWithdrawFees env content self).2 = self) ∧
    ∀ (root : Value) (pre post : List Value) (coin : Value)
      (t : CoinInfoTables CurrencySymbol) (late : String),
      root.member "success" = .ok (.boolean true) →
      root.member "info" = .ok (.array (pre ++ coin :: post)) →
      coinInfoLoop env pre ⟨[], [], []⟩ = .ok t →
      coinInfoRecord env coin t = .error (.runtime_error late) →
        ParseDepositWithdrawFees env (.Parsed root) self = (.error (.runtime_error late), self) := by
  constructor
  · unfold ParseDepositWithdrawFees at hfail ⊢
    cases hb : buildDepositWithdrawFees env content with
    | error e => exact ⟨rfl, rfl, rfl, rfl⟩
    | ok t =>
      rw [hb] at hfail
      cases hfail
  · intro root pre post coin t late hsuccess hinfo hpre hcoin
    have hbuild : buildDepositWithdrawFees env (.Parsed root) = .error (.runtime_error late) := by
      rw [buildDepositWithdrawFees_eq_loop env root _ hsuccess hinfo, coinInfoLoop_append_bind,
        hpre]
      simp only [Except.ok_bind, coinInfoLoop, hcoin, Except.error_bind]
    simp only [ParseDepositWithdrawFees, hbuild]

/-- Witness of C23 on `sampleCoinInfoLateFailure` and `samplePrior`: the loop
accepts the first record and enters BTC into the three local tables, the
second record throws, and the call leaves `samplePrior` as it was. -/
theorem failed_fee_parse_changes_nothing_witness :
    coinInfoLoop sampleEnv
        [.object [("symbol", .string "BTC"), ("walletStatus", .string "ok"),
          ("withdrawFee", .int 1), ("minWithdrawAmount", .int 2),
          ("minDepositAmount", .int 3)]] ⟨[], [], []⟩ =
        .ok ⟨[(Coin.BTC, ⟨⟨⟨100000000⟩, Coin.BTC⟩, ⟨⟨0⟩, Coin.BTC⟩, ⟨⟨200000000⟩, Coin.BTC⟩⟩)],
          [(Coin.BTC, ⟨⟨⟨0⟩, Coin.BTC⟩, ⟨⟨0⟩, Coin.BTC⟩, ⟨⟨300000000⟩, Coin.BTC⟩⟩)],
          [Coin.BTC]⟩ ∧
      (ParseDepositWithdrawFees sampleEnv (.Parsed sampleCoinInfoLateFailure) samplePrior).1 =
        .error (.runtime_error "Missing withdrawFee or minWithdrawAmount") ∧
      (ParseDepositWithdrawFees sampleEnv (.Parsed sampleCoinInfoLateFailure) samplePrior).2 =
        samplePrior := by
  refine ⟨rfl, rfl, ?_⟩
  exact (failed_fee_parse_changes_nothing sampleEnv (.Parsed sampleCoinInfoLateFailure)
    samplePrior "Missing withdrawFee or minWithdrawAmount" (by rfl)).1.2.2.2

/-! ## Keys of the minimum-limit map -/

theorem Map.keys_insert {K V : Type} [DecidableEq K] (m : Map K V) (k : K) (v : V) :
    (Map.insert m k v).map Prod.fst =
      if k ∈ m.map Prod.fst then m.map Prod.fst else m.map Prod.fst ++ [k] := by
  unfold Map.insert
  cases hf : Map.find m k with
  | none =>
    have hk := (Map.find_eq_none m k).1 hf
    rw [if_neg hk]
    simp only [List.map_append, List.map_cons, List.map_nil]
  | some x =>
    have hk : k ∈ m.map Prod.fst := by
      by_contra hc
      rw [(Map.find_eq_none m k).2 hc] at hf
      cases hf
    rw [if_pos hk]

theorem Map.find_isSome_of_keys {K V W : Type} [DecidableEq K] (m : Map K V) (m' : Map K W)
    (h : m.map Prod.fst = m'.map Prod.fst) (k : K) :
    (Map.find m k).isSome = (Map.find m' k).isSome := by
  have h1 := Map.find_eq_none m k
  have h2 := Map.find_eq_none m' k
  rw [h] at h1
  cases hm : Map.find m k with
  | none =>
    rw [(h2.2 (h1.1 hm))]
    rfl
  | some x =>
    cases hm' : Map.find m' k with
    | none =>
      rw [h1.2 (h2.1 hm')] at hm
      cases hm
    | some y => rfl

/-- The two tables of the restrictions loop keep the same keys. -/
theorem restrictionLoop_same_keys (env : Env CurrencySymbol) (recs : List Value) :
    ∀ (t t' : RestrictionTables CurrencySymbol),
      restrictionLoop env recs t = .ok t' →
      t.min_limit_quantity.map Prod.fst = t.precisions.map Prod.fst →
        t'.min_limit_quantity.map Prod.fst = t'.precisions.map Prod.fst := by
  induction recs with
  | nil => intro t t' h hk; simp [restrictionLoop] at h; subst h; exact hk
  | cons coin rest ih =>
    intro t t' h hk
    simp only [restrictionLoop, Except.bind_eq_ok] at h
    obtain ⟨t1, h1, h2⟩ := h
    refine ih t1 t' h2 ?_
    have hrec := restrictionRecord_ok env coin t t1 h1
    cases hp : restrictionPair env coin with
    | none =>
      rw [hp] at hrec
      simp only at hrec
      subst hrec
      exact hk
    | some pair =>
      rw [hp] at hrec
      obtain ⟨_, _, _, _, _, _, e1, e2⟩ := hrec
      rw [e1, e2, Map.keys_insert, Map.keys_insert, hk]

theorem buildExchangeLimitsPrecision_ok_loop (env : Env CurrencySymbol) (content : Document)
    (t : RestrictionTables CurrencySymbol)
    (h : buildExchangeLimitsPrecision env content = .ok t) :
    ∃ recs, restrictionLoop env recs ⟨[], []⟩ = .ok t := by
  cases content with
  | ParseError => simp [buildExchangeLimitsPrecision] at h
  | Parsed root =>
    simp only [buildExchangeLimitsPrecision, Except.bind_eq_ok] at h
    obtain ⟨_, _, b, _, h⟩ := h
    cases b <;> simp [Except.bind_eq_ok] at h
    obtain ⟨w, _, h⟩ := h
    cases hw : w.IsArray <;> simp [hw, Except.bind_eq_ok] at h
    obtain ⟨_, _, recs, _, h⟩ := h
    exact ⟨recs, h⟩

/-- C24: for every restrictions response that `ParseExchangeLimitsPrecision`
accepts, the minimum-limit map it returns and the precision table it hands to
`SetPricePrecisions` have the same keys; and the first record of the response
that names a recognized pair fixes the entry of that pair in both, its
`minLimitQuantity` as a decimal in the returned map and the tick size of its
`priceScale` in the precision table, whatever later records name the pair. -/
theorem limits_and_precisions_share_keys (env : Env CurrencySymbol) (content : Document)
    (self : Exchange CurrencySymbol) (limits : limit_quantities_t CurrencySymbol)
    (haccept : (ParseExchangeLimitsPrecision env content self).1 = .ok limits) :
    ∃ t : RestrictionTables CurrencySymbol,
      ParseExchangeLimitsPrecision env content self
        = (.ok limits, self.SetPricePrecisions t.precisions) ∧
      limits.map Prod.fst = t.precisions.map Prod.fst ∧
      (∀ key, (Map.find limits key).isSome = (Map.find t.precisions key).isSome) ∧
      ∀ (root : Value) (pre post : List Value) (coin : Value)
        (pair : CurrencySymbol × CurrencySymbol),
        content = .Parsed root →
        root.member "restrictions" = .ok (.array (pre ++ coin :: post)) →
        restrictionPair env coin = some pair →
        (∀ c ∈ pre, restrictionPair env c ≠ some pair) →
          ∃ s limit, priceScale coin = some s ∧ minLimitQuantity env coin = some limit ∧
            Map.find limits pair = some limit ∧
            Map.find t.precisions pair = some (tickSize env s pair.1) := by
  obtain ⟨t, ht, hlimits, _⟩ := ParseExchangeLimitsPrecision_accepts env _ self limits haccept
  obtain ⟨recs, hloop⟩ := buildExchangeLimitsPrecision_ok_loop env content t ht
  have hkeys := restrictionLoop_same_keys env recs _ t hloop rfl
  subst hlimits
  refine ⟨t, ?_, hkeys, Map.find_isSome_of_keys _ _ hkeys, ?_⟩
  · simp only [ParseExchangeLimitsPrecision, ht]
  · intro root pre post coin pair hroot hrecs hpair hfirst
    subst hroot
    have hloop2 := buildExchangeLimitsPrecision_loop env root _ t hrecs ht
    obtain ⟨s, limit, hs, _, _, hl, hfindp, hfindl⟩ :=
      restrictionLoop_first env pre post coin t pair hloop2 hpair hfirst
    exact ⟨s, limit, hs, hl, hfindl, hfindp⟩

/-- Witness of C24 on `sampleRestrictionsTwoLimits`: both tables have the keys
BTC/ETH and BCH/BTC, and for BTC/ETH the limit 1 and the scale 2 of the first
record, not the limit 7 and the scale 3 of the third. -/
theorem limits_and_precisions_share_keys_witness :
    ∃ t : RestrictionTables Coin,
      ParseExchangeLimitsPrecision sampleEnv (.Parsed sampleRestrictionsTwoLimits) emptyExchange
        = (.ok [((Coin.BTC, Coin.ETH), ⟨100000000⟩), ((Coin.BCH, Coin.BTC), ⟨500000000⟩)],
          emptyExchange.SetPricePrecisions t.precisions) ∧
      t.precisions.map Prod.fst = [(Coin.BTC, Coin.ETH), (Coin.BCH, Coin.BTC)] ∧
      Map.find t.precisions (Coin.BTC, Coin.ETH) = some (tickSize sampleEnv 2 Coin.BTC) := by
  obtain ⟨t, ht, hkeys, _, hfirst⟩ := limits_and_precisions_share_keys sampleEnv
    (.Parsed sampleRestrictionsTwoLimits) emptyExchange
    [((Coin.BTC, Coin.ETH), ⟨100000000⟩), ((Coin.BCH, Coin.BTC), ⟨500000000⟩)] (by rfl)
  obtain ⟨s, limit, hs, _, _, hp⟩ := hfirst sampleRestrictionsTwoLimits []
    [.object [("currencyPair", .string "BCH/BTC"), ("priceScale", .int 4),
        ("minLimitQuantity", .int 5)],
      .object [("currencyPair", .string "BTC/ETH"), ("priceScale", .int 3),
        ("minLimitQuantity", .int 7)]]
    (.object [("currencyPair", .string "BTC/ETH"), ("priceScale", .int 2),
      ("minLimitQuantity", .int 1)])
    (Coin.BTC, Coin.ETH) rfl (by rfl) (by rfl) (fun _ h => absurd h (List.not_mem_nil _))
  have hs2 : s = 2 := by
    have h2 : priceScale (.object [("currencyPair", .string "BTC/ETH"), ("priceScale", .int 2),
      ("minLimitQuantity", .int 1)]) = some 2 := by rfl
    rw [h2] at hs
    exact (Option.some.inj hs).symm
  subst hs2
  exact ⟨t, ht, hkeys.symm, hp⟩

end tradeogre
